import Mathlib

/-
Verification of the nanoda kernel type checker against its specification.

This file is a shallow embedding, in Lean 4, of the parts of the nanoda
source (src/name.rs, src/level.rs, src/expr.rs, src/env.rs, src/tc.rs,
src/recursor.rs, src/inductive/*.rs) that the spec claims talk about.

Modeling conventions, fixed once here:
  * Rust `Arc<T>` wrappers are erased: handles are the trees themselves.
    Rust pointer equality (`check_ptr_eq`) implies structural equality; it is
    modeled by structural equality (the only places it is consulted are
    re-check guards whose branches are deterministic, so this is behaviorally
    transparent).
  * Rust `u16` arithmetic on the cached `var_bound` is modeled on `Nat` with
    explicit `% 65536` at the single place a `u16` is produced from a `usize`
    (`mk_var`'s `dbj as u16 + 1`).  All other operations (`max`, saturating
    decrement) stay below 65536 once their inputs do.
  * The expression cache record {digest, var_bound, has_locals} is a pure
    function of the subtree (every construction path in expr.rs computes it
    from the children deterministically), so we model `var_bound`/`has_locals`
    as recursive functions instead of stored fields; the digest only feeds
    hash tables, whose lookups resolve collisions by full structural equality,
    so it is semantically inert and not modeled.
  * The per-checker caches (whnf cache, whnf-core cache, infer cache, def-eq
    cache, failure cache, local cache) memoize deterministic computations keyed
    by structural equality; they are modeled as always missing.  The failure
    cache is written but never read in the source.  The local cache (`LcCache`)
    only recycles fresh locals; it is modeled as always empty, so every
    `get_lc` allocates a fresh serial.
  * The global `LOCAL_SERIAL` atomic counter is threaded explicitly as a `Tcs`
    state through every function that can allocate a local.
  * Rust panics (`panic!`, failing `assert!`, partial-function errors) are
    modeled as `Except.error`; `NanodaResult` errors are also `Except.error`.
    Both abort the declaration being processed.
  * Functions whose Rust recursion is not structural take an explicit fuel
    argument; fuel exhaustion is an error (or `false` for plain Bool
    functions).  Claims are stated at an arbitrary fuel `f+1`, with the inner
    calls at fuel `f`.
  * `is_def_eq_lvls`, `Level::is_geq` and `Level::get_undef_param` are used by
    the source but their defining module is not part of the provided snapshot;
    they are modeled from the spec where indicated.
-/

namespace Nanoda

/-- Hierarchical names (src/name.rs): a cons list terminated by the anonymous
name, each node carrying a string or a numeral segment. -/
inductive Name where
  | anon : Name
  | str (pfx : Name) (s : String) : Name
  | num (pfx : Name) (n : Nat) : Name
deriving DecidableEq, Repr

def mkAnon : Name := .anon

def Name.extendStr (n : Name) (hd : String) : Name := .str n hd

def Name.extendNum (n : Name) (hd : Nat) : Name := .num n hd

/-- `Name::from(&str)` for a single segment. -/
def Name.ofStr (s : String) : Name := .str .anon s

/-- src/name.rs `mk_rec_name`. -/
def Name.mkRecName (n : Name) : Name := n.extendStr "rec"

/-- src/name.rs `get_prefix` (renamed). -/
def Name.getPfx : Name → Name
  | .anon => .anon
  | .str pfx _ => pfx
  | .num pfx _ => pfx

/-- Universe levels (src/level.rs `InnerLevel`). -/
inductive Level where
  | zero : Level
  | succ (l : Level) : Level
  | max (lhs rhs : Level) : Level
  | imax (lhs rhs : Level) : Level
  | param (n : Name) : Level
deriving DecidableEq, Repr

def mkZero : Level := .zero

def mkSucc (l : Level) : Level := .succ l

def mkMax (l r : Level) : Level := .max l r

def mkImax (l r : Level) : Level := .imax l r

def mkParam (n : Name) : Level := .param n

def Level.isParam : Level → Bool
  | .param _ => true
  | _ => false

def Level.isAnyMax : Level → Bool
  | .max _ _ => true
  | .imax _ _ => true
  | _ => false

/-- src/level.rs `combining`: non-naive combination of two levels, used by
`simplify`. -/
def Level.combining : Level → Level → Level
  | .zero, other => other
  | l, .zero => l
  | .succ lhs, .succ rhs => mkSucc (Level.combining lhs rhs)
  | l, other => mkMax l other

/-- src/level.rs `simplify`: enforces `imax _ 0 = 0` and flattens
`imax _ (succ _)` via `combining`. -/
def Level.simplify : Level → Level
  | .zero => .zero
  | .param n => .param n
  | .succ l => mkSucc l.simplify
  | .max a b => mkMax a.simplify b.simplify
  | .imax a b =>
    let bp := b.simplify
    match bp with
    | .zero => mkZero
    | .succ _ => Level.combining a.simplify bp
    | _ => mkImax a.simplify bp

/-- src/level.rs `instantiate_lvl`: replace each `param` node found in the
substitution list (searched left to right) by its image. -/
def Level.instantiateLvl : Level → List (Level × Level) → Level
  | .zero, _ => mkZero
  | .succ inner, substs => mkSucc (inner.instantiateLvl substs)
  | .max a b, substs => mkMax (a.instantiateLvl substs) (b.instantiateLvl substs)
  | .imax a b, substs => mkImax (a.instantiateLvl substs) (b.instantiateLvl substs)
  | .param n, substs =>
    match substs.find? (fun pr => pr.1 = Level.param n) with
    | some pr => pr.2
    | none => .param n

/-- src/level.rs `ensure_imax_leq`, parameterized by the recursive call into
`leq_core` (in the source the call is to `leq_core` at the same depth; here the
caller passes the one-lower-fuel instance).  `p` is the parameter standing at
the right of the `imax`; both sides of the comparison are instantiated with
`p := 0` and with `p := succ p`, simplified, and the inequality must hold under
both substitutions. -/
def ensureImaxLeq (leqc : Level → Level → Int → Bool)
    (p : Level) (lhs rhs : Level) (diff : Int) : Bool :=
  let zeroMap : List (Level × Level) := [(p, mkZero)]
  let nonzeroMap : List (Level × Level) := [(p, mkSucc p)]
  let closure := fun (subst : List (Level × Level)) (left right : Level) =>
    leqc ((left.instantiateLvl subst).simplify) ((right.instantiateLvl subst).simplify) diff
  closure zeroMap lhs rhs && closure nonzeroMap lhs rhs

/-- src/level.rs `leq_core`.  The Rust recursion is not structural (the
`ensure_imax_leq` case substitutes `succ p` for `p`), so the embedding takes
fuel; out of fuel is `false`.  The match arms are in source order. -/
def leqCore : Nat → Level → Level → Int → Bool
  | 0, _, _, _ => false
  | fuel + 1, l, r, diff =>
    match l, r with
    | .zero, _ =>
      if diff ≥ 0 then true else
      match r with
      | .zero => false
      | .param _ => false   -- unreachable: (Zero, Param) requires diff ≥ 0; (_, Zero) diff < 0 is false
      | .succ s => leqCore fuel Level.zero s (diff + 1)
      | .max x y => leqCore fuel Level.zero x diff || leqCore fuel Level.zero y diff
      | .imax x y =>
        if y.isParam then ensureImaxLeq (leqCore fuel) y Level.zero r diff
        else if y.isAnyMax then
          match y with
          | .imax j k =>
            leqCore fuel Level.zero (mkMax (mkImax x k) (mkImax j k)) diff
          | .max j k =>
            leqCore fuel Level.zero ((mkMax (mkImax x j) (mkImax x k)).simplify) diff
          | _ => false
        else false
    | _, .zero =>
      if diff < 0 then false else
      match l with
      | .param _ => false
      | .succ s => leqCore fuel s Level.zero (diff - 1)
      | .max a b => leqCore fuel a Level.zero diff && leqCore fuel b Level.zero diff
      | .imax a b =>
        if b.isParam then ensureImaxLeq (leqCore fuel) b l Level.zero diff
        else if b.isAnyMax then
          match b with
          | .imax x y =>
            leqCore fuel (mkMax (mkImax a y) (mkImax x y)) Level.zero diff
          | .max x y =>
            leqCore fuel ((mkMax (mkImax a x) (mkImax a y)).simplify) Level.zero diff
          | _ => false
        else false
      | _ => false
    | .param a, .param x => a = x && diff ≥ 0
    | .succ s, _ => leqCore fuel s r (diff - 1)
    | _, .succ s => leqCore fuel l s (diff + 1)
    | .max a b, _ => leqCore fuel a r diff && leqCore fuel b r diff
    | .param _, .max x y => leqCore fuel l x diff || leqCore fuel l y diff
    | .imax a b, .imax x y =>
      if a = x ∧ b = y then true
      else if b.isParam then ensureImaxLeq (leqCore fuel) b l r diff
      else if y.isParam then ensureImaxLeq (leqCore fuel) y l r diff
      else if b.isAnyMax then
        match b with
        | .imax u v => leqCore fuel (mkMax (mkImax a v) (mkImax u v)) r diff
        | .max u v => leqCore fuel ((mkMax (mkImax a u) (mkImax a v)).simplify) r diff
        | _ => false
      else if y.isAnyMax then
        match y with
        | .imax u v => leqCore fuel l (mkMax (mkImax x v) (mkImax u v)) diff
        | .max u v => leqCore fuel l ((mkMax (mkImax x u) (mkImax x v)).simplify) diff
        | _ => false
      else false
    | .imax a b, _ =>
      if b.isParam then ensureImaxLeq (leqCore fuel) b l r diff
      else if b.isAnyMax then
        match b with
        | .imax x y => leqCore fuel (mkMax (mkImax a y) (mkImax x y)) r diff
        | .max x y => leqCore fuel ((mkMax (mkImax a x) (mkImax a y)).simplify) r diff
        | _ => false
      else false
    | _, .imax x y =>
      if y.isParam then ensureImaxLeq (leqCore fuel) y l r diff
      else if y.isAnyMax then
        match y with
        | .imax j k => leqCore fuel l (mkMax (mkImax x k) (mkImax j k)) diff
        | .max j k => leqCore fuel l ((mkMax (mkImax x j) (mkImax x k)).simplify) diff
        | _ => false
      else false

/-- Fuel bound used for the outward-facing level order; generous for the level
sizes the checker meets, and irrelevant to the fuel-explicit claims. -/
def levelFuel (l r : Level) : Nat :=
  let rec sz : Level → Nat
    | .zero => 1
    | .param _ => 1
    | .succ a => sz a + 1
    | .max a b => sz a + sz b + 1
    | .imax a b => sz a + sz b + 1
  (sz l + sz r + 2) * (sz l + sz r + 2)

/-- src/level.rs `leq`. -/
def Level.leq (l r : Level) : Bool :=
  leqCore (levelFuel l r) l.simplify r.simplify 0

/-- src/level.rs `eq_by_antisymm`. -/
def Level.eqByAntisymm (l r : Level) : Bool :=
  let l1 := l.simplify
  let l2 := r.simplify
  leqCore (levelFuel l r) l1 l2 0 && leqCore (levelFuel l r) l2 l1 0

/-- src/level.rs `is_zero`. -/
def Level.isZero (l : Level) : Bool := l.leq mkZero

/-- src/level.rs `is_nonzero`. -/
def Level.isNonzero (l : Level) : Bool := (mkSucc mkZero).leq l

def Level.maybeZero (l : Level) : Bool := !l.isNonzero

def Level.maybeNonzero (l : Level) : Bool := !l.isZero

/-- Modelled from the spec: `is_geq` is used by the constructor universe check
but its definition is not part of the provided snapshot; per the spec's order
contract, `l ≥ r` is `r ≤ l`. -/
def Level.isGeq (l r : Level) : Bool := r.leq l

/-- Modelled from the spec: `is_def_eq_lvls` is used for `Const` level lists
but is not part of the provided snapshot; per the spec, levels are compared
pairwise by antisymmetric `≤`, and the lists must have equal length. -/
def isDefEqLvls : List Level → List Level → Bool
  | [], [] => true
  | l :: ls, r :: rs => l.eqByAntisymm r && isDefEqLvls ls rs
  | _, _ => false

/-- src/level.rs `unique_univ_params` membership: the parameters occurring in a
level. -/
def Level.paramsOf : Level → List Level
  | .zero => []
  | .succ l => l.paramsOf
  | .max a b => a.paramsOf ++ b.paramsOf
  | .imax a b => a.paramsOf ++ b.paramsOf
  | .param n => [.param n]

/-- Modelled from the spec: `get_undef_param` is used by `check_level` but is
not part of the provided snapshot; it finds a parameter of `l` that is not in
the declared set. -/
def Level.getUndefParam (l : Level) (set : List Level) : Option Level :=
  l.paramsOf.find? (fun p => ¬ (p ∈ set))

/-- src/expr.rs `BinderStyle`. -/
inductive BinderStyle where
  | default
  | implicit
  | strictImplicit
  | instImplicit
deriving DecidableEq, Repr

/-- src/expr.rs `InnerExpr`.  The `Binding` of a `Lambda`/`Pi`/`Let` is inlined
as (name, type, style); `lc` is the `Local` variant, carrying its binding and
serial.  The per-node cache record is a pure function of the subtree and is
modeled by the functions `varBound` and `hasLocals` below. -/
inductive Expr where
  | var (dbj : Nat)
  | sort (level : Level)
  | const (name : Name) (levels : List Level)
  | app (fn arg : Expr)
  | lam (n : Name) (ty : Expr) (style : BinderStyle) (body : Expr)
  | pi (n : Name) (ty : Expr) (style : BinderStyle) (body : Expr)
  | letE (n : Name) (ty : Expr) (style : BinderStyle) (val body : Expr)
  | lc (n : Name) (ty : Expr) (style : BinderStyle) (serial : Nat)
deriving DecidableEq, Repr

/-- src/expr.rs `Binding`. -/
structure Binding where
  ppName : Name
  ty : Expr
  style : BinderStyle
deriving DecidableEq, Repr

def Binding.swapTy (b : Binding) (other : Expr) : Binding := ⟨b.ppName, other, b.style⟩

def mkVar (dbj : Nat) : Expr := .var dbj

def mkSort (l : Level) : Expr := .sort l

def mkProp : Expr := .sort .zero

def mkConst (n : Name) (levels : List Level) : Expr := .const n levels

def mkApp (f a : Expr) : Expr := .app f a

def mkLambda (b : Binding) (body : Expr) : Expr := .lam b.ppName b.ty b.style body

def mkPi (b : Binding) (body : Expr) : Expr := .pi b.ppName b.ty b.style body

def mkLet (b : Binding) (val body : Expr) : Expr := .letE b.ppName b.ty b.style val body

/-- `mk_local` with an explicit serial (the atomic counter is threaded by the
caller). -/
def mkLocalW (b : Binding) (serial : Nat) : Expr := .lc b.ppName b.ty b.style serial

/-- utils.rs `safe_minus_one` (on Nat, where subtraction already saturates). -/
def safeMinusOne (n : Nat) : Nat := n - 1

/-- The cached free-variable upper bound (a Rust `u16`).  `mk_var` stores
`dbj as u16 + 1`: the `usize → u16` cast truncates mod 2^16 and the `+ 1`
wraps mod 2^16; all other constructors combine children with `max` /
saturating decrement, which stay below 2^16.  A `Local`'s bound is 0
regardless of its type (expr.rs `mk_local`). -/
def Expr.varBound : Expr → Nat
  | .var dbj => (dbj % 65536 + 1) % 65536
  | .sort _ => 0
  | .const _ _ => 0
  | .app f a => Nat.max f.varBound a.varBound
  | .lam _ ty _ body => Nat.max ty.varBound (safeMinusOne body.varBound)
  | .pi _ ty _ body => Nat.max ty.varBound (safeMinusOne body.varBound)
  | .letE _ ty _ val body =>
    Nat.max (Nat.max ty.varBound val.varBound) (safeMinusOne body.varBound)
  | .lc _ _ _ _ => 0

/-- The cached has-locals flag: true at a `Local` (not looking into its type),
or-combined over the children everywhere else. -/
def Expr.hasLocals : Expr → Bool
  | .var _ => false
  | .sort _ => false
  | .const _ _ => false
  | .app f a => f.hasLocals || a.hasLocals
  | .lam _ ty _ body => ty.hasLocals || body.hasLocals
  | .pi _ ty _ body => ty.hasLocals || body.hasLocals
  | .letE _ ty _ val body => ty.hasLocals || body.hasLocals || val.hasLocals
  | .lc _ _ _ _ => true

def Expr.hasVars (e : Expr) : Bool := 0 < e.varBound

def Expr.isLocal : Expr → Bool
  | .lc _ _ _ _ => true
  | _ => false

def Expr.isLambda : Expr → Bool
  | .lam _ _ _ _ => true
  | _ => false

def Expr.isPi : Expr → Bool
  | .pi _ _ _ _ => true
  | _ => false

def Expr.isApp : Expr → Bool
  | .app _ _ => true
  | _ => false

def Expr.isConst : Expr → Bool
  | .const _ _ => true
  | _ => false

def Expr.getConstName : Expr → Option Name
  | .const n _ => some n
  | _ => none

def Expr.getConstLevels : Expr → Option (List Level)
  | .const _ ls => some ls
  | _ => none

def Expr.tryConstFields : Expr → Option (Name × List Level)
  | .const n ls => some (n, ls)
  | _ => none

/-- The iterator `position` lookup in `abstract_core`: the index of the first
entry whose serial matches.  The source calls `get_serial`, which panics on a
non-`Local` entry; a non-`Local` entry is treated as a non-match here, and the
claims carry the every-entry-is-a-Local hypothesis under which the two agree. -/
def posBySerial (serial : Nat) : List Expr → Option Nat
  | [] => none
  | l :: ls =>
    if (match l with | .lc _ _ _ s2 => decide (s2 = serial) | _ => false) then some 0
    else (posBySerial serial ls).map (fun n => n + 1)

/-- src/expr.rs `instantiate_core` (the offset-keyed cache memoizes a
deterministic function and is dropped): replace `Var dbj` at offset `o` by
`es[dbj − o]` when in range, short-circuiting on `var_bound ≤ offset`. -/
def Expr.instantiateCore (es : List Expr) : Expr → Nat → Expr
  | e, offset =>
    if e.varBound ≤ offset then e
    else
      match e with
      | .var dbj =>
        match es.get? (dbj - offset) with
        | some t => t
        | none => .var dbj
      | .app f a => .app (f.instantiateCore es offset) (a.instantiateCore es offset)
      | .lam n ty bi body =>
        .lam n (ty.instantiateCore es offset) bi (body.instantiateCore es (offset + 1))
      | .pi n ty bi body =>
        .pi n (ty.instantiateCore es offset) bi (body.instantiateCore es (offset + 1))
      | .letE n ty bi val body =>
        .letE n (ty.instantiateCore es offset) bi (val.instantiateCore es offset)
          (body.instantiateCore es (offset + 1))
      | owise => owise   -- Sort/Const/Local: var_bound is 0, so unreachable past the short-circuit

def Expr.instantiate (e : Expr) (es : List Expr) : Expr := e.instantiateCore es 0

def Expr.instantiateWOffset (e : Expr) (offset : Nat) (es : List Expr) : Expr :=
  e.instantiateCore es offset

/-- src/expr.rs `abstract_core` (cache dropped as above): replace a `Local`
whose serial is at position `p` of `locals` by `Var (p + offset)`,
short-circuiting on `has_locals = false`. -/
def Expr.abstractCore (locals : List Expr) : Expr → Nat → Expr
  | e, offset =>
    if ¬ e.hasLocals then e
    else
      match e with
      | .lc n ty bi serial =>
        match posBySerial serial locals with
        | some pos => .var (pos + offset)
        | none => .lc n ty bi serial
      | .app f a => .app (f.abstractCore locals offset) (a.abstractCore locals offset)
      | .lam n ty bi body =>
        .lam n (ty.abstractCore locals offset) bi (body.abstractCore locals (offset + 1))
      | .pi n ty bi body =>
        .pi n (ty.abstractCore locals offset) bi (body.abstractCore locals (offset + 1))
      | .letE n ty bi val body =>
        .letE n (ty.abstractCore locals offset) bi (val.abstractCore locals offset)
          (body.abstractCore locals (offset + 1))
      | owise => owise   -- Var/Sort/Const: has_locals is false, unreachable

/-- src/expr.rs `abstract_`. -/
def Expr.abstractL (e : Expr) (locals : List Expr) : Expr :=
  if ¬ e.hasLocals then e else e.abstractCore locals 0

/-- src/expr.rs `instantiate_lparams`.  Note: in the source the `Local` arm
rebuilds the local through `as_local`, which draws a fresh serial from the
global counter; the checker only applies level instantiation to expressions
that contain no locals (declared types and values are checked local-free), so
the model keeps the serial. -/
def Expr.instantiateLparams : Expr → List (Level × Level) → Expr
  | e, substs =>
    if substs.any (fun pr => pr.1 ≠ pr.2) then
      match e with
      | .app f a => .app (f.instantiateLparams substs) (a.instantiateLparams substs)
      | .lam n ty bi body => .lam n (ty.instantiateLparams substs) bi (body.instantiateLparams substs)
      | .pi n ty bi body => .pi n (ty.instantiateLparams substs) bi (body.instantiateLparams substs)
      | .letE n ty bi val body =>
        .letE n (ty.instantiateLparams substs) bi (val.instantiateLparams substs)
          (body.instantiateLparams substs)
      | .lc n ty bi serial => .lc n (ty.instantiateLparams substs) bi serial
      | .var dbj => .var dbj
      | .sort lvl => .sort (lvl.instantiateLvl substs)
      | .const n lvls => .const n (lvls.map (fun x => x.instantiateLvl substs))
    else e

/-- src/expr.rs `foldl_apps`. -/
def Expr.foldlApps (e : Expr) (apps : List Expr) : Expr := apps.foldl Expr.app e

def Expr.unfoldAppsRevAux : Expr → List Expr → Expr × List Expr
  | .app f a, acc => f.unfoldAppsRevAux (a :: acc)
  | e, acc => (e, acc)

/-- src/expr.rs `unfold_apps_rev`: (head, args in application order). -/
def Expr.unfoldAppsRev (e : Expr) : Expr × List Expr := e.unfoldAppsRevAux []

/-- src/expr.rs `unfold_apps`: (head, args with the outermost — last — argument
first). -/
def Expr.unfoldApps (e : Expr) : Expr × List Expr :=
  let (f, args) := e.unfoldAppsRev
  (f, args.reverse)

def Expr.unfoldAppsFn : Expr → Expr
  | .app f _ => f.unfoldAppsFn
  | e => e

/-- src/expr.rs `Binding::from(&Expr)` — partial in the source (panics off a
`Local`); every call site passes a `Local`. -/
def Expr.bindingOf : Expr → Binding
  | .lc n ty bi _ => ⟨n, ty, bi⟩
  | _ => ⟨.anon, .sort .zero, .default⟩

/-- src/expr.rs `mk_arrow`. -/
def Expr.mkArrow (e other : Expr) : Expr := mkPi ⟨.anon, e, .default⟩ other

/-- src/expr.rs `apply_pi`: abstract the local out and wrap a `Pi` binder. -/
def Expr.applyPi (e : Expr) (domain : Expr) : Expr :=
  mkPi domain.bindingOf (e.abstractL [domain])

/-- src/expr.rs `apply_lambda`. -/
def Expr.applyLambda (e : Expr) (domain : Expr) : Expr :=
  mkLambda domain.bindingOf (e.abstractL [domain])

/-- src/expr.rs `fold_pis`: right fold of `apply_pi` over the domains. -/
def Expr.foldPis (e : Expr) (doms : List Expr) : Expr :=
  doms.foldr (fun d acc => acc.applyPi d) e

/-- src/expr.rs `fold_lambdas`. -/
def Expr.foldLambdas (e : Expr) (doms : List Expr) : Expr :=
  doms.foldr (fun d acc => acc.applyLambda d) e

/-- src/expr.rs `eq_mod_serial`: two `Local`s with structurally equal bindings. -/
def Expr.eqModSerial : Expr → Expr → Bool
  | .lc n1 t1 s1 _, .lc n2 t2 s2 _ => n1 = n2 && t1 = t2 && s1 = s2
  | _, _ => false

/-- src/expr.rs `find_matching`, specialized to existence of a matching node
(the source's DFS order only affects which witness is returned). -/
def Expr.findMatchingB (p : Expr → Bool) : Expr → Bool
  | .var d => p (.var d)
  | .sort l => p (.sort l)
  | .const n ls => p (.const n ls)
  | .app f a => p (.app f a) || f.findMatchingB p || a.findMatchingB p
  | .lam n ty bi body => p (.lam n ty bi body) || ty.findMatchingB p || body.findMatchingB p
  | .pi n ty bi body => p (.pi n ty bi body) || ty.findMatchingB p || body.findMatchingB p
  | .letE n ty bi val body =>
    p (.letE n ty bi val body) || ty.findMatchingB p || val.findMatchingB p || body.findMatchingB p
  | .lc n ty bi s => p (.lc n ty bi s) || ty.findMatchingB p

/-! Specification-side predicates about expressions.  These are written from
the spec's vocabulary (occurrences of `Var i` at binder depth 0, occurrences of
`Local`s, closedness), independently of the cache computations, so the cache
claims relate two different definitions. -/

/-- `Var i` occurs in `e` at binder depth 0 (spec §8 law 1): an actual `var`
node with literal index `j` sitting under `d` binders witnesses top-level index
`j − d`; crossing a binder body bumps the sought index.  Types of `Local`s are
not entered, matching how every structural algorithm in expr.rs treats a
`Local` as an atomic free variable. -/
inductive LooseVarOccurs : Expr → Nat → Prop where
  | var (i : Nat) : LooseVarOccurs (.var i) i
  | appFn {f a : Expr} {i : Nat} : LooseVarOccurs f i → LooseVarOccurs (.app f a) i
  | appArg {f a : Expr} {i : Nat} : LooseVarOccurs a i → LooseVarOccurs (.app f a) i
  | lamTy {n ty bi body i} : LooseVarOccurs ty i → LooseVarOccurs (.lam n ty bi body) i
  | lamBody {n ty bi body i} : LooseVarOccurs body (i + 1) → LooseVarOccurs (.lam n ty bi body) i
  | piTy {n ty bi body i} : LooseVarOccurs ty i → LooseVarOccurs (.pi n ty bi body) i
  | piBody {n ty bi body i} : LooseVarOccurs body (i + 1) → LooseVarOccurs (.pi n ty bi body) i
  | letTy {n ty bi val body i} : LooseVarOccurs ty i → LooseVarOccurs (.letE n ty bi val body) i
  | letVal {n ty bi val body i} : LooseVarOccurs val i → LooseVarOccurs (.letE n ty bi val body) i
  | letBody {n ty bi val body i} :
      LooseVarOccurs body (i + 1) → LooseVarOccurs (.letE n ty bi val body) i

/-- Some `Local` appears in `e` (spec §8 law 1). -/
inductive LocalOccurs : Expr → Prop where
  | lcSelf (n ty bi s) : LocalOccurs (.lc n ty bi s)
  | appFn {f a : Expr} : LocalOccurs f → LocalOccurs (.app f a)
  | appArg {f a : Expr} : LocalOccurs a → LocalOccurs (.app f a)
  | lamTy {n ty bi body} : LocalOccurs ty → LocalOccurs (.lam n ty bi body)
  | lamBody {n ty bi body} : LocalOccurs body → LocalOccurs (.lam n ty bi body)
  | piTy {n ty bi body} : LocalOccurs ty → LocalOccurs (.pi n ty bi body)
  | piBody {n ty bi body} : LocalOccurs body → LocalOccurs (.pi n ty bi body)
  | letTy {n ty bi val body} : LocalOccurs ty → LocalOccurs (.letE n ty bi val body)
  | letVal {n ty bi val body} : LocalOccurs val → LocalOccurs (.letE n ty bi val body)
  | letBody {n ty bi val body} : LocalOccurs body → LocalOccurs (.letE n ty bi val body)

/-- No loose bound variable of index ≥ `o` (at depth 0). -/
def Expr.closedAt : Expr → Nat → Bool
  | .var i, o => decide (i < o)
  | .sort _, _ => true
  | .const _ _, _ => true
  | .lc _ _ _ _, _ => true
  | .app f a, o => f.closedAt o && a.closedAt o
  | .lam _ ty _ body, o => ty.closedAt o && body.closedAt (o + 1)
  | .pi _ ty _ body, o => ty.closedAt o && body.closedAt (o + 1)
  | .letE _ ty _ val body, o => ty.closedAt o && val.closedAt o && body.closedAt (o + 1)

/-- Binder-body nesting depth: how far the offset can grow while `abstract` /
`instantiate` traverse `e`. -/
def Expr.bDepth : Expr → Nat
  | .var _ => 0
  | .sort _ => 0
  | .const _ _ => 0
  | .lc _ _ _ _ => 0
  | .app f a => Nat.max f.bDepth a.bDepth
  | .lam _ ty _ body => Nat.max ty.bDepth (body.bDepth + 1)
  | .pi _ ty _ body => Nat.max ty.bDepth (body.bDepth + 1)
  | .letE _ ty _ val body => Nat.max (Nat.max ty.bDepth val.bDepth) (body.bDepth + 1)

/-- Every De Bruijn index literally occurring in `e` fits a `u16` without the
cache's `+ 1` wrapping, i.e. is < 2^16 − 1. -/
def Expr.smallIdx : Expr → Bool
  | .var i => decide (i + 1 < 65536)
  | .sort _ => true
  | .const _ _ => true
  | .lc _ _ _ _ => true
  | .app f a => f.smallIdx && a.smallIdx
  | .lam _ ty _ body => ty.smallIdx && body.smallIdx
  | .pi _ ty _ body => ty.smallIdx && body.smallIdx
  | .letE _ ty _ val body => ty.smallIdx && val.smallIdx && body.smallIdx

def allLocalsB (L : List Expr) : Bool := L.all Expr.isLocal

/-- The entries of `L` have pairwise distinct serials. -/
def distinctSerials : List Expr → Bool
  | [] => true
  | .lc _ _ _ s :: ls =>
    (ls.all fun x => match x with | .lc _ _ _ s2 => decide (s2 ≠ s) | _ => true) && distinctSerials ls
  | _ :: ls => distinctSerials ls

/-- Every `Local` of `e` that shares a serial with an entry of `L` is
structurally that entry.  This is the program's serial-uniqueness invariant
(two locals share a serial only if one is a clone of the other), stated for
the two inputs at hand. -/
def Expr.localsCoherent : Expr → List Expr → Bool
  | .lc n ty bi serial, L =>
    L.all fun l => match l with
      | .lc n2 t2 b2 s2 => decide (s2 = serial → (n2 = n ∧ t2 = ty ∧ b2 = bi))
      | _ => true
  | .app f a, L => f.localsCoherent L && a.localsCoherent L
  | .lam _ ty _ body, L => ty.localsCoherent L && body.localsCoherent L
  | .pi _ ty _ body, L => ty.localsCoherent L && body.localsCoherent L
  | .letE _ ty _ val body, L =>
    ty.localsCoherent L && val.localsCoherent L && body.localsCoherent L
  | _, _ => true

/-! The environment (src/env.rs, src/recursor.rs).  The `HashMap` of constant
infos is modeled as an association list with HashMap-insert semantics (insert
replaces an existing binding for the same key). -/

/-- src/env.rs `ConstantVal`. -/
structure ConstantVal where
  name : Name
  lparams : List Level
  type_ : Expr
deriving DecidableEq, Repr

/-- src/env.rs `ReducibilityHint` (constructors renamed to avoid keyword
clashes: `regular`/`opaq`/`abbrv`). -/
inductive ReducibilityHint where
  | regular (h : Nat)
  | opaq
  | abbrv
deriving DecidableEq, Repr

/-- src/env.rs `ReducibilityHint::compare`. -/
def ReducibilityHint.compareH : ReducibilityHint → ReducibilityHint → Ordering
  | .regular h1, .regular h2 =>
    if h1 = h2 then .eq else if h1 > h2 then .gt else .lt
  | .opaq, .opaq => .eq
  | .abbrv, .abbrv => .eq
  | .opaq, _ => .lt
  | _, .opaq => .gt
  | .abbrv, _ => .gt
  | _, .abbrv => .lt

structure AxiomVal where
  constantVal : ConstantVal
  isUnsafe : Bool
deriving DecidableEq, Repr

structure DefinitionVal where
  constantVal : ConstantVal
  value : Expr
  hint : ReducibilityHint
  isUnsafe : Bool
deriving DecidableEq, Repr

structure TheoremVal where
  constantVal : ConstantVal
  value : Expr
deriving DecidableEq, Repr

structure OpaqVal where
  constantVal : ConstantVal
  value : Expr
deriving DecidableEq, Repr

structure QuotVal where
  constantVal : ConstantVal
deriving DecidableEq, Repr

structure InductiveVal where
  constantVal : ConstantVal
  nparams : Nat
  nindices : Nat
  all : List Name
  cnstrs : List Name
  isRec : Bool
  isUnsafe : Bool
  isReflexive : Bool
deriving DecidableEq, Repr

structure ConstructorVal where
  constantVal : ConstantVal
  induct : Name
  cidx : Nat
  nparams : Nat
  nfields : Nat
  isUnsafe : Bool
deriving DecidableEq, Repr

/-- src/recursor.rs `RecursorRule`. -/
structure RecursorRule where
  constructor : Name
  nfields : Nat
  rhs : Expr
deriving DecidableEq, Repr

/-- src/recursor.rs `RecursorVal`. -/
structure RecursorVal where
  constantVal : ConstantVal
  lparamNames : List Name
  all : List Name
  nparams : Nat
  nindices : Nat
  nmotives : Nat
  nminors : Nat
  rules : List RecursorRule
  isK : Bool
  isUnsafe : Bool
deriving DecidableEq, Repr

/-- src/env.rs `ConstantInfo`. -/
inductive ConstantInfo where
  | axiomInfo (v : AxiomVal)
  | definitionInfo (v : DefinitionVal)
  | theoremInfo (v : TheoremVal)
  | opaqInfo (v : OpaqVal)
  | quotInfo (v : QuotVal)
  | inductiveInfo (v : InductiveVal)
  | constructorInfo (v : ConstructorVal)
  | recursorInfo (v : RecursorVal)
deriving DecidableEq, Repr

def ConstantInfo.getConstantVal : ConstantInfo → ConstantVal
  | .axiomInfo v => v.constantVal
  | .definitionInfo v => v.constantVal
  | .theoremInfo v => v.constantVal
  | .opaqInfo v => v.constantVal
  | .quotInfo v => v.constantVal
  | .inductiveInfo v => v.constantVal
  | .constructorInfo v => v.constantVal
  | .recursorInfo v => v.constantVal

/-- src/env.rs `ConstantInfo::has_value`. -/
def ConstantInfo.hasValue (ci : ConstantInfo) (allowOpaque : Option Bool) : Bool :=
  match ci with
  | .theoremInfo _ => true
  | .definitionInfo _ => true
  | .opaqInfo _ => allowOpaque.getD false
  | _ => false

/-- src/env.rs `ConstantInfo::get_value` — partial in the source (only the
theorem and definition variants reach it); others yield a placeholder, and
every call site has established `has_value` first. -/
def ConstantInfo.getValueD : ConstantInfo → Expr
  | .theoremInfo v => v.value
  | .definitionInfo v => v.value
  | _ => mkProp

/-- src/env.rs `ConstantInfo::get_hint` — panics off a definition. -/
def ConstantInfo.getHintE : ConstantInfo → Except String ReducibilityHint
  | .definitionInfo v => pure v.hint
  | _ => throw "get_hint on non-definition"

def ConstantInfo.isUnsafeCI : ConstantInfo → Bool
  | .axiomInfo v => v.isUnsafe
  | .definitionInfo v => v.isUnsafe
  | .theoremInfo _ => false
  | .opaqInfo _ => false
  | .quotInfo _ => false
  | .inductiveInfo v => v.isUnsafe
  | .constructorInfo v => v.isUnsafe
  | .recursorInfo v => v.isUnsafe

/-- src/recursor.rs `get_major_idx`. -/
def RecursorVal.getMajorIdx (r : RecursorVal) : Nat :=
  r.nparams + r.nmotives + r.nminors + r.nindices

/-- src/recursor.rs `get_induct`. -/
def RecursorVal.getInduct (r : RecursorVal) : Name :=
  r.constantVal.name.getPfx

/-- src/recursor.rs `get_rec_rule_for`. -/
def RecursorVal.getRecRuleFor (r : RecursorVal) (major : Expr) : Option RecursorRule :=
  match major.unfoldAppsFn with
  | .const n _ => r.rules.find? (fun rule => rule.constructor = n)
  | _ => none

/-- HashMap insert: replaces the binding when the key is present. -/
def insertAList : List (Name × ConstantInfo) → Name → ConstantInfo → List (Name × ConstantInfo)
  | [], n, c => [(n, c)]
  | (k, v) :: rest, n, c =>
    if k = n then (n, c) :: rest else (k, v) :: insertAList rest n c

/-- src/env.rs `Env`; only the fields the kernel core consults
(`constant_infos` and `quot_is_init`). -/
structure Env where
  constantInfos : List (Name × ConstantInfo)
  quotIsInit : Bool
deriving DecidableEq, Repr

def Env.getConstantInfo (env : Env) (n : Name) : Option ConstantInfo :=
  (env.constantInfos.find? (fun pr => pr.1 = n)).map (fun pr => pr.2)

/-- src/env.rs `add_constant_info` — a plain `HashMap::insert`, which silently
replaces an existing record with the same name. -/
def Env.addConstantInfo (env : Env) (n : Name) (c : ConstantInfo) : Env :=
  ⟨insertAList env.constantInfos n c, env.quotIsInit⟩

def Env.initQuot (env : Env) : Env := ⟨env.constantInfos, true⟩

/-- src/env.rs `get_first_constructor_name`. -/
def Env.getFirstConstructorName (env : Env) (n : Name) : Option Name :=
  match env.getConstantInfo n with
  | some (.inductiveInfo v) => v.cnstrs.get? 0
  | _ => none

/-- src/env.rs `get_hint`. -/
def Env.getHintOf (env : Env) (n : Name) : Option ReducibilityHint :=
  match env.getConstantInfo n with
  | some (.definitionInfo v) => some v.hint
  | _ => none

/-- src/env.rs `ensure_no_dupe_lparams`. -/
def ensureNoDupeLparams : List Level → Except String Unit
  | [] => pure ()
  | l :: ls => if l ∈ ls then throw "DupeLparamErr" else ensureNoDupeLparams ls

/-- tc.rs statics QLIFT / QMK / QIND / ID_DELTA. -/
def qliftName : Name := (Name.ofStr "quot").extendStr "lift"

def qmkName : Name := (Name.ofStr "quot").extendStr "mk"

def qindName : Name := (Name.ofStr "quot").extendStr "ind"

def idDeltaName : Name := Name.ofStr "id_delta"

/-! The conversion checker and type inference (src/tc.rs).

The `TypeChecker` struct's mutable pieces are modeled as:
  * `Tcs` — the global `LOCAL_SERIAL` counter plus the `m_lparams` field
    (written by `check`, read by `check_level`);
  * the caches (infer, whnf, whnf-core, def-eq, failure, local) always miss,
    see the header comment;
  * `m_safe_only` is `false` for every checker the pipeline constructs, and is
    passed explicitly where consulted.

The Rust recursion is far from structural (whnf ↔ def-eq ↔ infer are mutually
recursive through the environment's reduction rules), so the whole mutually
recursive group is built as a fuel-indexed record of functions `TcFns`:
`tcFns env 0` errors out everywhere, and each function at fuel `f+1` makes its
recursive calls through the record at fuel `f`.  This keeps every definition
kernel-computable. -/

inductive ShortCircuit where
  | eqShort
  | neqShort
deriving DecidableEq, Repr

inductive DeltaResult where
  | continueD (t s : Expr)
  | stopEq
  | stopNeq
  | unknown
deriving DecidableEq, Repr

inductive Cheap where
  | cheapTrue
  | cheapFalse
deriving DecidableEq, Repr

/-- The threaded checker state: next fresh local serial and `m_lparams`. -/
structure Tcs where
  serial : Nat
  mlp : Option (List Level)
deriving DecidableEq, Repr

abbrev TcRes (α : Type) : Type := Except String (α × Tcs)

/-- `Binding::as_local` with the counter threaded. -/
def freshLocal (b : Binding) (st : Tcs) : Expr × Tcs :=
  (mkLocalW b st.serial, ⟨st.serial + 1, st.mlp⟩)

/-- tc.rs `check_level`. -/
def checkLevelE (mlp : Option (List Level)) (l : Level) : Except String Unit :=
  match mlp with
  | some set =>
    match l.getUndefParam set with
    | some _ => throw "check_level undefined param"
    | none => pure ()
  | none => pure ()

/-- tc.rs `is_delta`. -/
def isDelta (env : Env) (e : Expr) : Option ConstantInfo :=
  match e.unfoldAppsFn.getConstName with
  | some name =>
    match env.getConstantInfo name with
    | some ci => if ci.hasValue none then some ci else none
    | none => none
  | none => none

/-- tc.rs `instantiate_value_lparams`; its two panic guards (presence of a
value and matching lparam lengths) are established by the only caller,
`unfold_definition_core`. -/
def instantiateValueLparams (ci : ConstantInfo) (ls : List Level) : Expr :=
  ci.getValueD.instantiateLparams (ci.getConstantVal.lparams.zip ls)

/-- tc.rs `unfold_definition_core`. -/
def unfoldDefinitionCore (env : Env) (e : Expr) : Option Expr :=
  match e with
  | .const _ levels =>
    match isDelta env e with
    | some ci =>
      if levels.length = ci.getConstantVal.lparams.length then
        some (instantiateValueLparams ci levels)
      else none
    | none => none
  | _ => none

/-- tc.rs `unfold_definition`. -/
def unfoldDefinition (env : Env) (e : Expr) : Option Expr :=
  match e with
  | .app _ _ =>
    match unfoldDefinitionCore env e.unfoldAppsFn with
    | some unfolded =>
      let (_, args) := e.unfoldApps
      some (unfolded.foldlApps args.reverse)
    | none => none
  | _ => unfoldDefinitionCore env e

/-- tc.rs `mk_nullary_cnstr`. -/
def mkNullaryCnstr (env : Env) (e : Expr) (numParams : Nat) : Option Expr :=
  let (fn, args) := e.unfoldAppsRev
  match fn with
  | .const name levels =>
    match env.getFirstConstructorName name with
    | some cn => some ((mkConst cn levels).foldlApps (args.take numParams))
    | none => none
  | _ => none

def whnfLambdaGo : Expr → List Expr → List Expr → Expr
  | .lam _ _ _ body, a :: rest, ctx => whnfLambdaGo body rest (a :: ctx)
  | fn, argsRest, ctx => (fn.instantiate ctx).foldlApps argsRest

/-- tc.rs `whnf_lambda`: consume as many arguments as there are leading
lambdas, substitute, re-apply the rest.  `argsLastFirst` is the `unfold_apps`
vector (outermost argument first). -/
def whnfLambda (fn : Expr) (argsLastFirst : List Expr) : Expr :=
  whnfLambdaGo fn argsLastFirst.reverse []

/-- tc.rs `infer_const` (`safeOnly` is `m_safe_only`; every checker the
pipeline builds passes `false`). -/
def inferConstE (env : Env) (safeOnly : Bool) (n : Name) (ls : List Level)
    (inferOnly : Bool) (st : Tcs) : Except String (Expr × Tcs) :=
  match env.getConstantInfo n with
  | some ci =>
    if ls.length ≠ ci.getConstantVal.lparams.length then throw "infer_const lparam arity"
    else do
      (if ¬ inferOnly then do
        (if safeOnly ∧ ci.isUnsafeCI then throw "unsafe definition" else pure ())
        ls.forM (fun l => checkLevelE st.mlp l)
      else pure ())
      pure ((ci.getConstantVal.type_.instantiateLparams (ci.getConstantVal.lparams.zip ls)), st)
  | none => throw "err_infer_const"

/-- The fuel-indexed record of the mutually recursive checker functions. -/
structure TcFns where
  whnf : Expr → Tcs → Except String (Expr × Tcs)
  whnfCore : Expr → Cheap → Tcs → Except String (Expr × Tcs)
  reduceQuotRec : Expr → Tcs → Except String (Option Expr × Tcs)
  inductiveReduceRec : Expr → Cheap → Tcs → Except String (Option Expr × Tcs)
  toCnstrWhenK : RecursorVal → Expr → Tcs → Except String (Option Expr × Tcs)
  isDefEq : Expr → Expr → Tcs → Except String (ShortCircuit × Tcs)
  isDefEqCore : Expr → Expr → Tcs → Except String (ShortCircuit × Tcs)
  quickIsDefEq : Expr → Expr → Tcs → Except String (Option ShortCircuit × Tcs)
  selfCheckWithLc : Binding → Expr → Expr → Tcs → Except String (ShortCircuit × Tcs)
  isProp : Expr → Tcs → Except String (Bool × Tcs)
  isProposition : Expr → Tcs → Except String (Bool × Tcs)
  isProof : Expr → Tcs → Except String (Bool × Tcs)
  isDefEqProofIrrel : Expr → Expr → Tcs → Except String (Bool × Tcs)
  lazyDeltaReduction : Expr → Expr → Tcs → Except String (Sum (Option ShortCircuit) (Expr × Expr) × Tcs)
  lazyDeltaReductionStep : Expr → Expr → Tcs → Except String (DeltaResult × Tcs)
  eqArgs : Expr → Expr → Tcs → Except String (Bool × Tcs)
  isDefEqApp : Expr → Expr → Tcs → Except String (Bool × Tcs)
  tryEtaExpansion : Expr → Expr → Tcs → Except String (Bool × Tcs)
  tryEtaExpansionCore : Expr → Expr → Tcs → Except String (Bool × Tcs)
  inferTypeCore : Expr → Bool → Tcs → Except String (Expr × Tcs)
  inferType : Expr → Tcs → Except String (Expr × Tcs)
  inferApps : Expr → Bool → Tcs → Except String (Expr × Tcs)
  inferAppsLoop : List Expr → List Expr → Expr → Bool → Tcs → Except String (Expr × Tcs)
  inferPi : Expr → Tcs → Except String (Level × Tcs)
  inferLambda : Expr → Bool → Tcs → Except String (Expr × Tcs)
  inferLet : Binding → Expr → Expr → Bool → Tcs → Except String (Expr × Tcs)
  inferUniverseOfType : Expr → Tcs → Except String (Level × Tcs)
  ensureSort : Expr → Tcs → Except String (Expr × Tcs)
  ensurePi : Expr → Tcs → Except String (Expr × Tcs)
  ensureType : Expr → Tcs → Except String (Expr × Tcs)
  checkType : Expr → Expr → Tcs → Except String (Unit × Tcs)
  checkE : Expr → List Level → Tcs → Except String (Expr × Tcs)

/-- tc.rs `whnf`: whnf-core to a head, attempt δ, loop. -/
def whnfF (env : Env) (p : TcFns) (e : Expr) (st : Tcs) : Except String (Expr × Tcs) := do
  let (whnfd, st1) ← p.whnfCore e .cheapFalse st
  match unfoldDefinition env whnfd with
  | some next => p.whnf next st1
  | none => pure (whnfd, st1)

/-- The `_` arm of tc.rs `whnf_core`: quotient ι, then recursor ι (both are
computed, mirroring the eager `Option::or`), then recurse on the contractum. -/
def whnfCoreOwise (p : TcFns) (e : Expr) (cheap : Cheap) (st : Tcs) : Except String (Expr × Tcs) := do
  let (r1, st1) ← p.reduceQuotRec e st
  let (r2, st2) ← p.inductiveReduceRec e cheap st1
  match (match r1 with | some x => some x | none => r2) with
  | some reduced => p.whnfCore reduced cheap st2
  | none => pure (e, st2)

/-- tc.rs `whnf_core`: β on a lambda head, ζ on a let head, `Sort`-level
simplification, otherwise the ι arms. -/
def whnfCoreF (p : TcFns) (e : Expr) (cheap : Cheap) (st : Tcs) : Except String (Expr × Tcs) :=
  let (fn, args) := e.unfoldApps
  match fn with
  | .sort level => pure (mkSort level.simplify, st)
  | .lam n ty bi body =>
    if args.isEmpty then whnfCoreOwise p e cheap st
    else do
      let whnfd := whnfLambda (.lam n ty bi body) args
      p.whnfCore whnfd cheap st
  | .letE _ _ _ val body => do
    let applied := (body.instantiate [val]).foldlApps args.reverse
    p.whnfCore applied cheap st
  | _ => whnfCoreOwise p e cheap st

/-- tc.rs `reduce_quot_rec`: before `#QUOT` is processed nothing reduces;
afterwards `quot.lift`/`quot.ind` applications contract when the major
argument whnfs to a `quot.mk` application. -/
def reduceQuotRecF (env : Env) (p : TcFns) (e : Expr) (st : Tcs) : Except String (Option Expr × Tcs) :=
  if ¬ env.quotIsInit then pure (none, st)
  else
    let (fn, args) := e.unfoldAppsRev
    match fn with
    | .const name _ =>
      match (if name = qliftName then some (5, 3)
             else if name = qindName then some (4, 3)
             else none : Option (Nat × Nat)) with
      | none => pure (none, st)
      | some (mkPos, argPos) =>
        if args.length ≤ mkPos then pure (none, st)
        else
          match args.get? mkPos with
          | none => pure (none, st)
          | some major => do
            let (mk, st1) ← p.whnf major st
            match mk.unfoldAppsFn.getConstName with
            | none => pure (none, st1)
            | some mn =>
              if ¬ (mn = qmkName) then pure (none, st1)
              else
                match args.get? argPos with
                | none => pure (none, st1)
                | some f =>
                  match mk with
                  | .app _ rRhs =>
                    let r := mkApp f rRhs
                    let elimArity := mkPos + 1
                    if args.length > elimArity then
                      pure (some (r.foldlApps ((args.drop elimArity).take (args.length - elimArity))), st1)
                    else pure (some r, st1)
                  | _ => throw "quot_rec_bad_app"
    | _ => pure (none, st)

/-- tc.rs `inductive_reduce_rec` (recursor ι-reduction, with the κ detour for
`is_k` recursors). -/
def inductiveReduceRecF (env : Env) (p : TcFns) (e : Expr) (cheap : Cheap)
    (st : Tcs) : Except String (Option Expr × Tcs) :=
  let (fn, args) := e.unfoldAppsRev
  match fn.tryConstFields with
  | none => pure (none, st)
  | some (name, levels) =>
    match env.getConstantInfo name with
    | some (.recursorInfo rval) =>
      let majorIdx := rval.getMajorIdx
      if majorIdx ≥ args.length then pure (none, st)
      else
        match args.get? majorIdx with
        | none => pure (none, st)
        | some major0 => do
          let (major1, st1) ←
            if rval.isK then do
              let (k, stk) ← p.toCnstrWhenK rval major0 st
              match k with
              | some kc => pure (kc, stk)
              | none => pure (major0, stk)
            else pure (major0, st)
          let (major, st2) ←
            match cheap with
            | .cheapTrue => p.whnfCore major1 cheap st1
            | .cheapFalse => p.whnf major1 st1
          match rval.getRecRuleFor major with
          | none => pure (none, st2)
          | some rule =>
            let (_, majorArgs) := major.unfoldAppsRev
            if rule.nfields > majorArgs.length then pure (none, st2)
            else if levels.length ≠ rval.constantVal.lparams.length then pure (none, st2)
            else
              let rhs := rule.rhs.instantiateLparams (rval.constantVal.lparams.zip levels)
              let rhs := rhs.foldlApps (args.take (rval.nparams + rval.nmotives + rval.nminors))
              let nparams := majorArgs.length - rule.nfields
              let rhs := rhs.foldlApps ((majorArgs.drop nparams).take rule.nfields)
              if args.length > majorIdx + 1 then
                pure (some (rhs.foldlApps ((args.drop (majorIdx + 1)).take (args.length - majorIdx - 1))), st2)
              else pure (some rhs, st2)
    | _ => pure (none, st)

/-- tc.rs `to_cnstr_when_K`: when the major's type whnfs to the expected
family, fabricate the nullary constructor application and require it def-eq
to the major's type. -/
def toCnstrWhenKF (env : Env) (p : TcFns) (rval : RecursorVal) (e : Expr)
    (st : Tcs) : Except String (Option Expr × Tcs) := do
  let (infd, st1) ← p.inferType e st
  let (appType, st2) ← p.whnf infd st1
  match appType.unfoldAppsFn.getConstName with
  | none => pure (none, st2)
  | some n =>
    if n ≠ rval.getInduct then pure (none, st2)
    else
      match mkNullaryCnstr env appType rval.nparams with
      | none => pure (none, st2)
      | some newCnstrApp => do
        let (newType, st3) ← p.inferType newCnstrApp st2
        let (r, st4) ← p.isDefEq appType newType st3
        if r = .neqShort then pure (none, st4) else pure (some newCnstrApp, st4)

/-- tc.rs `is_def_eq`: structural equality, then the core algorithm (the
def-eq cache is modeled as always missing). -/
def isDefEqF (p : TcFns) (t s : Expr) (st : Tcs) : Except String (ShortCircuit × Tcs) :=
  if t = s then pure (.eqShort, st) else p.isDefEqCore t s st

/-- tc.rs `self_check_with_lc`: open both bodies with a shared fresh local
(the local cache is modeled as always empty, so the local is fresh), and
compare. -/
def selfCheckWithLcF (p : TcFns) (binding : Binding) (b1 b2 : Expr)
    (st : Tcs) : Except String (ShortCircuit × Tcs) :=
  let (lc, st1) := freshLocal binding st
  p.isDefEq (b1.instantiate [lc]) (b2.instantiate [lc]) st1

/-- tc.rs `quick_is_def_eq`: sorts by antisymmetric level equality,
lambda/lambda and pi/pi by domain comparison plus shared-local body
comparison, anything else undecided. -/
def quickIsDefEqF (p : TcFns) (t s : Expr) (st : Tcs) : Except String (Option ShortCircuit × Tcs) :=
  match t, s with
  | .sort l1, .sort l2 =>
    pure (some (if l1.eqByAntisymm l2 then .eqShort else .neqShort), st)
  | .lam n1 ty1 bi1 bd1, .lam _ ty2 _ bd2 => do
    let (d, st1) ← p.isDefEq ty1 ty2 st
    if d = .neqShort then pure (some .neqShort, st1)
    else do
      let (r, st2) ← p.selfCheckWithLc ⟨n1, ty1, bi1⟩ bd1 bd2 st1
      pure (some r, st2)
  | .pi n1 ty1 bi1 bd1, .pi _ ty2 _ bd2 => do
    let (d, st1) ← p.isDefEq ty1 ty2 st
    if d = .neqShort then pure (some .neqShort, st1)
    else do
      let (r, st2) ← p.selfCheckWithLc ⟨n1, ty1, bi1⟩ bd1 bd2 st1
      pure (some r, st2)
  | _, _ => pure (none, st)

/-- tc.rs `is_prop`: whnfs to `Sort 0`. -/
def isPropF (p : TcFns) (e : Expr) (st : Tcs) : Except String (Bool × Tcs) := do
  let (w, st1) ← p.whnf e st
  match w with
  | .sort lvl => pure (lvl.isZero, st1)
  | _ => pure (false, st1)

/-- tc.rs `is_proposition`: the inferred type is a prop. -/
def isPropositionF (p : TcFns) (e : Expr) (st : Tcs) : Except String (Bool × Tcs) := do
  let (inferred, st1) ← p.inferType e st
  p.isProp inferred st1

/-- tc.rs `is_proof`: the inferred type is a proposition (hence two `infer`
steps: the type of the type of `e` must whnf to `Sort 0`). -/
def isProofF (p : TcFns) (e : Expr) (st : Tcs) : Except String (Bool × Tcs) := do
  let (inferred, st1) ← p.inferType e st
  p.isProposition inferred st1

/-- tc.rs `is_def_eq_proof_irrel`: both sides are proofs (no comparison of
their types). -/
def isDefEqProofIrrelF (p : TcFns) (e1 e2 : Expr) (st : Tcs) : Except String (Bool × Tcs) := do
  let (b1, st1) ← p.isProof e1 st
  if b1 then p.isProof e2 st1 else pure (false, st1)

/-- tc.rs `lazy_delta_reduction` (the loop). -/
def lazyDeltaReductionF (p : TcFns) (t s : Expr) (st : Tcs) :
    Except String (Sum (Option ShortCircuit) (Expr × Expr) × Tcs) := do
  let (step, st1) ← p.lazyDeltaReductionStep t s st
  match step with
  | .continueD t2 s2 => p.lazyDeltaReduction t2 s2 st1
  | .stopEq => pure (.inl (some .eqShort), st1)
  | .stopNeq => pure (.inl (some .neqShort), st1)
  | .unknown => pure (.inr (t, s), st1)

def unfoldDefinitionInfallibleE (env : Env) (e : Expr) : Except String Expr :=
  match unfoldDefinition env e with
  | some r => pure r
  | none => throw "unfold_definition_infallible"

/-- The tail of tc.rs `lazy_delta_reduction_step`: after one of the plain
unfolding arms produced `(reduced_t, reduced_s)`, consult `quick_is_def_eq`. -/
def lazyDeltaStepFinish (p : TcFns) (reducedT reducedS : Expr) (st : Tcs) :
    Except String (DeltaResult × Tcs) := do
  let (q, st1) ← p.quickIsDefEq reducedT reducedS st
  match q with
  | some .eqShort => pure (.stopEq, st1)
  | some .neqShort => pure (.stopNeq, st1)
  | none => pure (.continueD reducedT reducedS, st1)

/-- The `id_delta`-on-the-left arm of `lazy_delta_reduction_step`. -/
def lazyDeltaStepIdLeft (env : Env) (p : TcFns) (tN0 sN0 : Expr) (st : Tcs) :
    Except String (DeltaResult × Tcs) := do
  let unfolded ← unfoldDefinitionInfallibleE env tN0
  let (whnfd, st1) ← p.whnfCore unfolded .cheapFalse st
  if whnfd = sN0 then pure (.stopEq, st1)
  else
    match unfoldDefinition env whnfd with
    | some u => do
      let (w2, st2) ← p.whnfCore u .cheapFalse st1
      pure (.continueD w2 sN0, st2)
    | none => pure (.continueD whnfd sN0, st1)

/-- The `id_delta`-on-the-right arm of `lazy_delta_reduction_step`. -/
def lazyDeltaStepIdRight (env : Env) (p : TcFns) (tN0 sN0 : Expr) (st : Tcs) :
    Except String (DeltaResult × Tcs) := do
  let unfolded ← unfoldDefinitionInfallibleE env sN0
  let (whnfd, st1) ← p.whnfCore unfolded .cheapFalse st
  if tN0 = whnfd then pure (.stopEq, st1)
  else
    match unfoldDefinition env whnfd with
    | some u => do
      let (w2, st2) ← p.whnfCore u .cheapFalse st1
      pure (.continueD tN0 w2, st2)
    | none => pure (.continueD tN0 whnfd, st1)

/-- The both-sides-δ arm of `lazy_delta_reduction_step`: compare heights,
unfold the higher side first; on a tie over the same constant try the argument
spines before unfolding (the failure cache is written but never read in the
source, so the insert is dropped). -/
def lazyDeltaStepBoth (env : Env) (p : TcFns) (dtInfo dsInfo : ConstantInfo)
    (tN0 sN0 : Expr) (st : Tcs) : Except String (DeltaResult × Tcs) := do
  let ht ← dtInfo.getHintE
  let hs ← dsInfo.getHintE
  match ht.compareH hs with
  | .gt => do
    let unfolded ← unfoldDefinitionInfallibleE env tN0
    let (w, st1) ← p.whnfCore unfolded .cheapFalse st
    lazyDeltaStepFinish p w sN0 st1
  | .lt => do
    let unfolded ← unfoldDefinitionInfallibleE env sN0
    let (w, st1) ← p.whnfCore unfolded .cheapFalse st
    lazyDeltaStepFinish p tN0 w st1
  | .eq => do
    let (shortcut, st1) ←
      if tN0.isApp ∧ sN0.isApp ∧ dtInfo = dsInfo then do
        let (ea, sta) ← p.eqArgs tN0 sN0 st
        if ea then
          match tN0.unfoldAppsFn.getConstLevels, sN0.unfoldAppsFn.getConstLevels with
          | some lv1, some lv2 => pure (isDefEqLvls lv1 lv2, sta)
          | _, _ => throw "get_const_levels_inf"
        else pure (false, sta)
      else pure (false, st)
    if shortcut then pure (.stopEq, st1)
    else do
      let unfoldedT ← unfoldDefinitionInfallibleE env tN0
      let unfoldedS ← unfoldDefinitionInfallibleE env sN0
      let (wt, st2) ← p.whnfCore unfoldedT .cheapFalse st1
      let (ws, st3) ← p.whnfCore unfoldedS .cheapFalse st2
      lazyDeltaStepFinish p wt ws st3

/-- tc.rs `lazy_delta_reduction_step`, with the arms in source order. -/
def lazyDeltaReductionStepF (env : Env) (p : TcFns) (tN0 sN0 : Expr) (st : Tcs) :
    Except String (DeltaResult × Tcs) :=
  match isDelta env tN0, isDelta env sN0 with
  | none, none => pure (.unknown, st)
  | some dtInfo, dsOpt =>
    if dtInfo.getConstantVal.name = idDeltaName then lazyDeltaStepIdLeft env p tN0 sN0 st
    else
      match dsOpt with
      | some dsInfo =>
        if dsInfo.getConstantVal.name = idDeltaName then lazyDeltaStepIdRight env p tN0 sN0 st
        else lazyDeltaStepBoth env p dtInfo dsInfo tN0 sN0 st
      | none => do
        let unfolded ← unfoldDefinitionInfallibleE env tN0
        let (w, st1) ← p.whnfCore unfolded .cheapFalse st
        lazyDeltaStepFinish p w sN0 st1
  | none, some dsInfo =>
    if dsInfo.getConstantVal.name = idDeltaName then lazyDeltaStepIdRight env p tN0 sN0 st
    else do
      let unfolded ← unfoldDefinitionInfallibleE env sN0
      let (w, st1) ← p.whnfCore unfolded .cheapFalse st
      lazyDeltaStepFinish p tN0 w st1

def eqArgsGo (p : TcFns) : List (Expr × Expr) → Tcs → Except String (Bool × Tcs)
  | [], st => pure (true, st)
  | (a, b) :: rest, st => do
    let (r, st1) ← p.isDefEq a b st
    if r = .neqShort then pure (false, st1) else eqArgsGo p rest st1

/-- tc.rs `eq_args`: same arity, then pairwise def-eq iterated in reverse
vector order (first application argument first). -/
def eqArgsF (p : TcFns) (t s : Expr) (st : Tcs) : Except String (Bool × Tcs) :=
  let (_, tArgs) := t.unfoldApps
  let (_, sArgs) := s.unfoldApps
  if tArgs.length ≠ sArgs.length then pure (false, st)
  else eqArgsGo p ((tArgs.zip sArgs).reverse) st

def allPairsEq (p : TcFns) : List (Expr × Expr) → Tcs → Except String (Bool × Tcs)
  | [], st => pure (true, st)
  | (a, b) :: rest, st => do
    let (r, st1) ← p.isDefEq a b st
    if r = .eqShort then allPairsEq p rest st1 else pure (false, st1)

/-- tc.rs `is_def_eq_app`. -/
def isDefEqAppF (p : TcFns) (t s : Expr) (st : Tcs) : Except String (Bool × Tcs) :=
  if ¬ (t.isApp ∧ s.isApp) then pure (false, st)
  else
    let (tFn, tArgs) := t.unfoldAppsRev
    let (sFn, sArgs) := s.unfoldAppsRev
    if tArgs.length = sArgs.length then do
      let (fnEq, st1) ← p.isDefEq tFn sFn st
      if fnEq = .eqShort then allPairsEq p (tArgs.zip sArgs) st1
      else pure (false, st1)
    else pure (false, st)

/-- tc.rs `try_eta_expansion`: try expanding `s` against lambda `t`, then the
mirror image. -/
def tryEtaExpansionF (p : TcFns) (t s : Expr) (st : Tcs) : Except String (Bool × Tcs) := do
  let (r1, st1) ← p.tryEtaExpansionCore t s st
  if r1 then pure (true, st1) else p.tryEtaExpansionCore s t st1

/-- tc.rs `try_eta_expansion_core`: `t` a lambda, `s` not; if `s`'s type
whnfs to a `Pi`, compare `t` against `Lam (dom) (App s (Var 0))`. -/
def tryEtaExpansionCoreF (p : TcFns) (t s : Expr) (st : Tcs) : Except String (Bool × Tcs) :=
  if t.isLambda ∧ ¬ s.isLambda then do
    let (sInfd, st1) ← p.inferType s st
    let (sType, st2) ← p.whnf sInfd st1
    match sType with
    | .pi n ty bi _ => do
      let newS := mkLambda ⟨n, ty, bi⟩ (mkApp s (mkVar 0))
      let (r, st3) ← p.isDefEq t newS st2
      if r = .neqShort then pure (false, st3) else pure (true, st3)
    | _ => pure (false, st2)
  else pure (false, st)

/-- tc.rs `is_def_eq_core`: quick check, whnf-core both sides, re-check,
proof irrelevance, lazy delta, const/local/application/η arms, in source
order. -/
def isDefEqCoreF (p : TcFns) (t s : Expr) (st : Tcs) : Except String (ShortCircuit × Tcs) := do
  let (q1, st1) ← p.quickIsDefEq t s st
  match q1 with
  | some short => pure (short, st1)
  | none => do
    let (tN, st2) ← p.whnfCore t .cheapFalse st1
    let (sN, st3) ← p.whnfCore s .cheapFalse st2
    -- `check_ptr_eq` guard, modeled structurally (see header)
    let (q2, st4) ←
      if tN ≠ t ∨ sN ≠ s then p.quickIsDefEq tN sN st3
      else pure ((none : Option ShortCircuit), st3)
    match q2 with
    | some short => pure (short, st4)
    | none => do
      let (pir, st5) ← p.isDefEqProofIrrel tN sN st4
      if pir then pure (.eqShort, st5)
      else do
        let (ld, st6) ← p.lazyDeltaReduction tN sN st5
        match ld with
        | .inl (some short) => pure (short, st6)
        | .inl none => throw "lazy delta unreachable"
        | .inr (tR, sR) =>
          if (match tR, sR with
              | .const n1 lvls1, .const n2 lvls2 => decide (n1 = n2) && isDefEqLvls lvls1 lvls2
              | _, _ => false : Bool) then pure (.eqShort, st6)
          else if (match tR, sR with
              | .lc _ _ _ s1, .lc _ _ _ s2 => decide (s1 = s2)
              | _, _ => false : Bool) then pure (.eqShort, st6)
          else do
            let (appEq, st7) ← p.isDefEqApp tR sR st6
            if appEq then pure (.eqShort, st7)
            else do
              let (etaEq, st8) ← p.tryEtaExpansion tR sR st7
              if etaEq then pure (.eqShort, st8) else pure (.neqShort, st8)

/-- tc.rs `check_type___`. -/
def checkTypeF (p : TcFns) (e ty : Expr) (st : Tcs) : Except String (Unit × Tcs) := do
  let (inferred, st1) ← p.inferTypeCore e false st
  let (r, st2) ← p.isDefEq ty inferred st1
  match r with
  | .eqShort => pure ((), st2)
  | _ => throw "err_check_type"

/-- The argument-consuming loop of tc.rs `infer_apps`.  `context` holds the
consumed arguments, most recent first (the source keeps them oldest-first and
iterates reversed). -/
def inferAppsLoopF (p : TcFns) (apps context : List Expr) (acc : Expr)
    (inferOnly : Bool) (st : Tcs) : Except String (Expr × Tcs) :=
  match apps with
  | [] => pure (acc.instantiate context, st)
  | elem :: rest =>
    match acc with
    | .pi _ ty _ body => do
      let st1 ←
        if ¬ inferOnly then do
          let newDomTy := ty.instantiate context
          let ((), s) ← p.checkType elem newDomTy st
          pure s
        else pure st
      p.inferAppsLoop rest (elem :: context) body inferOnly st1
    | _ => do
      let instd := acc.instantiate context
      let (whnfd, st1) ← p.whnf instd st
      match whnfd with
      | .pi _ _ _ _ => p.inferAppsLoop (elem :: rest) [] whnfd inferOnly st1
      | _ => throw "err_infer_apps"

/-- tc.rs `infer_apps`. -/
def inferAppsF (p : TcFns) (term : Expr) (inferOnly : Bool) (st : Tcs) : Except String (Expr × Tcs) := do
  let (fn, apps) := term.unfoldApps
  let (acc, st1) ← p.inferTypeCore fn inferOnly st
  p.inferAppsLoop apps.reverse [] acc inferOnly st1

/-- The `Pi`-spine walk of tc.rs `infer_pi`; `locals` and `universes` are
most-recent-first. -/
def inferPiGo (p : TcFns) : Expr → List Expr → List Level → Tcs → Except String (Level × Tcs)
  | .pi n ty bi body, locals, universes, st => do
    let newDomTy := ty.instantiate locals
    let (domUniv, st1) ← p.inferUniverseOfType newDomTy st
    let (newLocal, st2) := freshLocal ⟨n, newDomTy, bi⟩ st1
    inferPiGo p body (newLocal :: locals) (domUniv :: universes) st2
  | term, locals, universes, st => do
    let instd := term.instantiate locals
    let (inferred, st1) ← p.inferUniverseOfType instd st
    pure (universes.foldl (fun acc u => mkImax u acc) inferred, st1)

/-- tc.rs `infer_pi`. -/
def inferPiF (p : TcFns) (term : Expr) (st : Tcs) : Except String (Level × Tcs) :=
  inferPiGo p term [] [] st

/-- The lambda-spine walk of tc.rs `infer_lambda`; `domains` keeps the
original bindings (most recent first), `locals` the opened locals. -/
def inferLambdaGo (p : TcFns) : Expr → List Binding → List Expr → Bool → Tcs → Except String (Expr × Tcs)
  | .lam n ty bi body, domains, locals, inferOnly, st => do
    let newDomTy := ty.instantiate locals
    let st1 ←
      if ¬ inferOnly then do
        let (_, s) ← p.inferUniverseOfType newDomTy st
        pure s
      else pure st
    let (newLocal, st2) := freshLocal ⟨n, newDomTy, bi⟩ st1
    inferLambdaGo p body (⟨n, ty, bi⟩ :: domains) (newLocal :: locals) inferOnly st2
  | term, domains, locals, inferOnly, st => do
    let instd := term.instantiate locals
    let (inferred, st1) ← p.inferTypeCore instd inferOnly st
    let abstrd := inferred.abstractL locals
    pure (domains.foldl (fun acc d => mkPi d acc) abstrd, st1)

/-- tc.rs `infer_lambda`. -/
def inferLambdaF (p : TcFns) (term : Expr) (inferOnly : Bool) (st : Tcs) : Except String (Expr × Tcs) :=
  inferLambdaGo p term [] [] inferOnly st

/-- tc.rs `infer_let`. -/
def inferLetF (p : TcFns) (dom : Binding) (val body : Expr) (inferOnly : Bool)
    (st : Tcs) : Except String (Expr × Tcs) := do
  let st1 ←
    if ¬ inferOnly then do
      let (_, s) ← p.inferUniverseOfType dom.ty st
      pure s
    else pure st
  let st2 ←
    if ¬ inferOnly then do
      let (infd, s) ← p.inferTypeCore val inferOnly st1
      let (r, s2) ← p.isDefEq infd dom.ty s
      if r = .eqShort then pure s2 else throw "infer_let assert"
    else pure st1
  p.inferTypeCore (body.instantiate [val]) inferOnly st2

/-- tc.rs `infer_type_core` (`safeOnly` is the checker's `m_safe_only`,
always false in the pipeline; the infer cache always misses). -/
def inferTypeCoreF (env : Env) (safeOnly : Bool) (p : TcFns) (e : Expr)
    (inferOnly : Bool) (st : Tcs) : Except String (Expr × Tcs) :=
  match e with
  | .sort lvl => do
    (if inferOnly then checkLevelE st.mlp lvl else pure ())
    pure (mkSort (mkSucc lvl), st)
  | .lc _ ty _ _ => pure (ty, st)
  | .const n lvls => inferConstE env safeOnly n lvls inferOnly st
  | .app f a => p.inferApps (.app f a) inferOnly st
  | .lam n ty bi body => p.inferLambda (.lam n ty bi body) inferOnly st
  | .pi n ty bi body => do
    let (lvl, st1) ← p.inferPi (.pi n ty bi body) st
    pure (mkSort lvl, st1)
  | .letE n ty bi val body => p.inferLet ⟨n, ty, bi⟩ val body inferOnly st
  | .var _ => throw "err_infer_var"

/-- tc.rs `infer_type` / `infer_only` (both call `infer_type_core` with
`infer_only = true`). -/
def inferTypeF (p : TcFns) (e : Expr) (st : Tcs) : Except String (Expr × Tcs) :=
  p.inferTypeCore e true st

/-- tc.rs `ensure_sort_core`. -/
def ensureSortF (p : TcFns) (e : Expr) (st : Tcs) : Except String (Expr × Tcs) :=
  match e with
  | .sort lvl => pure (.sort lvl, st)
  | _ => do
    let (w, st1) ← p.whnf e st
    match w with
    | .sort lvl => pure (.sort lvl, st1)
    | _ => throw "ensure_sort"

/-- tc.rs `ensure_pi_core`. -/
def ensurePiF (p : TcFns) (e : Expr) (st : Tcs) : Except String (Expr × Tcs) :=
  match e with
  | .pi n ty bi body => pure (.pi n ty bi body, st)
  | _ => do
    let (w, st1) ← p.whnf e st
    match w with
    | .pi n ty bi body => pure (.pi n ty bi body, st1)
    | _ => throw "ensure_pi"

/-- tc.rs `ensure_type`. -/
def ensureTypeF (p : TcFns) (e : Expr) (st : Tcs) : Except String (Expr × Tcs) := do
  let (infd, st1) ← p.inferType e st
  p.ensureSort infd st1

/-- tc.rs `check`: records the declaration's level params in `m_lparams`, then
fully infers. -/
def checkEF (p : TcFns) (e : Expr) (lparams : List Level) (st : Tcs) : Except String (Expr × Tcs) :=
  p.inferTypeCore e false ⟨st.serial, some lparams⟩

/-- tc.rs `infer_universe_of_type`. -/
def inferUniverseOfTypeF (p : TcFns) (term : Expr) (st : Tcs) : Except String (Level × Tcs) := do
  let (inferred, st1) ← p.inferTypeCore term false st
  let (w, st2) ← p.whnf inferred st1
  match w with
  | .sort lvl => pure (lvl, st2)
  | _ => throw "err_infer_universe"

/-- Fuel 0: everything reports fuel exhaustion. -/
def tcFns0 : TcFns where
  whnf := fun _ _ => throw "fuel"
  whnfCore := fun _ _ _ => throw "fuel"
  reduceQuotRec := fun _ _ => throw "fuel"
  inductiveReduceRec := fun _ _ _ => throw "fuel"
  toCnstrWhenK := fun _ _ _ => throw "fuel"
  isDefEq := fun _ _ _ => throw "fuel"
  isDefEqCore := fun _ _ _ => throw "fuel"
  quickIsDefEq := fun _ _ _ => throw "fuel"
  selfCheckWithLc := fun _ _ _ _ => throw "fuel"
  isProp := fun _ _ => throw "fuel"
  isProposition := fun _ _ => throw "fuel"
  isProof := fun _ _ => throw "fuel"
  isDefEqProofIrrel := fun _ _ _ => throw "fuel"
  lazyDeltaReduction := fun _ _ _ => throw "fuel"
  lazyDeltaReductionStep := fun _ _ _ => throw "fuel"
  eqArgs := fun _ _ _ => throw "fuel"
  isDefEqApp := fun _ _ _ => throw "fuel"
  tryEtaExpansion := fun _ _ _ => throw "fuel"
  tryEtaExpansionCore := fun _ _ _ => throw "fuel"
  inferTypeCore := fun _ _ _ => throw "fuel"
  inferType := fun _ _ => throw "fuel"
  inferApps := fun _ _ _ => throw "fuel"
  inferAppsLoop := fun _ _ _ _ _ => throw "fuel"
  inferPi := fun _ _ => throw "fuel"
  inferLambda := fun _ _ _ => throw "fuel"
  inferLet := fun _ _ _ _ _ => throw "fuel"
  inferUniverseOfType := fun _ _ => throw "fuel"
  ensureSort := fun _ _ => throw "fuel"
  ensurePi := fun _ _ => throw "fuel"
  ensureType := fun _ _ => throw "fuel"
  checkType := fun _ _ _ => throw "fuel"
  checkE := fun _ _ _ => throw "fuel"

/-- The fuel-indexed checker over a fixed environment: at `f+1` every function
runs its source body with recursive calls through level `f`. -/
def tcFns (env : Env) : Nat → TcFns
  | 0 => tcFns0
  | f + 1 =>
    let p := tcFns env f
    { whnf := whnfF env p
      whnfCore := whnfCoreF p
      reduceQuotRec := reduceQuotRecF env p
      inductiveReduceRec := inductiveReduceRecF env p
      toCnstrWhenK := toCnstrWhenKF env p
      isDefEq := isDefEqF p
      isDefEqCore := isDefEqCoreF p
      quickIsDefEq := quickIsDefEqF p
      selfCheckWithLc := selfCheckWithLcF p
      isProp := isPropF p
      isProposition := isPropositionF p
      isProof := isProofF p
      isDefEqProofIrrel := isDefEqProofIrrelF p
      lazyDeltaReduction := lazyDeltaReductionF p
      lazyDeltaReductionStep := lazyDeltaReductionStepF env p
      eqArgs := eqArgsF p
      isDefEqApp := isDefEqAppF p
      tryEtaExpansion := tryEtaExpansionF p
      tryEtaExpansionCore := tryEtaExpansionCoreF p
      inferTypeCore := inferTypeCoreF env false p
      inferType := inferTypeF p
      inferApps := inferAppsF p
      inferAppsLoop := inferAppsLoopF p
      inferPi := inferPiF p
      inferLambda := inferLambdaF p
      inferLet := inferLetF p
      inferUniverseOfType := inferUniverseOfTypeF p
      ensureSort := ensureSortF p
      ensurePi := ensurePiF p
      ensureType := ensureTypeF p
      checkType := checkTypeF p
      checkE := checkEF p }

def whnf (env : Env) (fuel : Nat) : Expr → Tcs → Except String (Expr × Tcs) :=
  (tcFns env fuel).whnf

def whnfCore (env : Env) (fuel : Nat) : Expr → Cheap → Tcs → Except String (Expr × Tcs) :=
  (tcFns env fuel).whnfCore

def reduceQuotRec (env : Env) (fuel : Nat) : Expr → Tcs → Except String (Option Expr × Tcs) :=
  (tcFns env fuel).reduceQuotRec

def inductiveReduceRec (env : Env) (fuel : Nat) : Expr → Cheap → Tcs → Except String (Option Expr × Tcs) :=
  (tcFns env fuel).inductiveReduceRec

def isDefEq (env : Env) (fuel : Nat) : Expr → Expr → Tcs → Except String (ShortCircuit × Tcs) :=
  (tcFns env fuel).isDefEq

def isDefEqCore (env : Env) (fuel : Nat) : Expr → Expr → Tcs → Except String (ShortCircuit × Tcs) :=
  (tcFns env fuel).isDefEqCore

def quickIsDefEq (env : Env) (fuel : Nat) : Expr → Expr → Tcs → Except String (Option ShortCircuit × Tcs) :=
  (tcFns env fuel).quickIsDefEq

def isProof (env : Env) (fuel : Nat) : Expr → Tcs → Except String (Bool × Tcs) :=
  (tcFns env fuel).isProof

def isDefEqProofIrrel (env : Env) (fuel : Nat) : Expr → Expr → Tcs → Except String (Bool × Tcs) :=
  (tcFns env fuel).isDefEqProofIrrel

def lazyDeltaReduction (env : Env) (fuel : Nat) :
    Expr → Expr → Tcs → Except String (Sum (Option ShortCircuit) (Expr × Expr) × Tcs) :=
  (tcFns env fuel).lazyDeltaReduction

def isDefEqApp (env : Env) (fuel : Nat) : Expr → Expr → Tcs → Except String (Bool × Tcs) :=
  (tcFns env fuel).isDefEqApp

def tryEtaExpansion (env : Env) (fuel : Nat) : Expr → Expr → Tcs → Except String (Bool × Tcs) :=
  (tcFns env fuel).tryEtaExpansion

def tryEtaExpansionCore (env : Env) (fuel : Nat) : Expr → Expr → Tcs → Except String (Bool × Tcs) :=
  (tcFns env fuel).tryEtaExpansionCore

def inferType (env : Env) (fuel : Nat) : Expr → Tcs → Except String (Expr × Tcs) :=
  (tcFns env fuel).inferType

def inferTypeCore (env : Env) (fuel : Nat) : Expr → Bool → Tcs → Except String (Expr × Tcs) :=
  (tcFns env fuel).inferTypeCore

def ensureSort (env : Env) (fuel : Nat) : Expr → Tcs → Except String (Expr × Tcs) :=
  (tcFns env fuel).ensureSort

def ensureType (env : Env) (fuel : Nat) : Expr → Tcs → Except String (Expr × Tcs) :=
  (tcFns env fuel).ensureType

def checkE (env : Env) (fuel : Nat) : Expr → List Level → Tcs → Except String (Expr × Tcs) :=
  (tcFns env fuel).checkE

/-- The shift the spec's η rule names (the source builds the expansion without
one): free de Bruijn variables at or above the cutoff are incremented. -/
def Expr.shiftSpec : Expr → Nat → Expr
  | .var dbj, cutoff => if dbj ≥ cutoff then .var (dbj + 1) else .var dbj
  | .app f a, c => .app (f.shiftSpec c) (a.shiftSpec c)
  | .lam n ty bi body, c => .lam n (ty.shiftSpec c) bi (body.shiftSpec (c + 1))
  | .pi n ty bi body, c => .pi n (ty.shiftSpec c) bi (body.shiftSpec (c + 1))
  | .letE n ty bi v body, c =>
    .letE n (ty.shiftSpec c) bi (v.shiftSpec c) (body.shiftSpec (c + 1))
  | e, _ => e

/-- src/env.rs `check_constant_val_wtc`.  The name-uniqueness check the spec
requires is present in the source only as a commented-out line
(`//tc.env.read().check_name(&c.name);` under a `FIXME enable this` remark),
so nothing here consults the environment for a prior binding of `c.name`. -/
def checkConstantValWtc (env : Env) (fuel : Nat) (c : ConstantVal) (st : Tcs) :
    Except String (Unit × Tcs) :=
  match ensureNoDupeLparams c.lparams with
  | .error e => throw e
  | .ok _ =>
    if c.type_.hasLocals then throw "assert: constant type has locals"
    else do
      let (sort, st1) ← checkE env fuel c.type_ c.lparams st
      let (_, st2) ← ensureSort env fuel sort st1
      pure ((), st2)

/-- src/env.rs `add_to_env`, `AxiomDeclar` arm (`check_constant_val_no_tc`
builds a fresh checker and runs `check_constant_val_wtc`); on success — and
whether or not the name is already bound — the record is inserted with a plain
`HashMap::insert`. -/
def addToEnvAxiom (env : Env) (fuel : Nat) (v : AxiomVal) (check : Bool)
    (st : Tcs) : Except String (Env × Tcs) := do
  let st1 ←
    if check then do
      let ((), s) ← checkConstantValWtc env fuel v.constantVal st
      pure s
    else pure st
  pure (env.addConstantInfo v.constantVal.name (.axiomInfo v), st1)

/-- src/inductive/newinductive.rs `Constructor`. -/
structure Constructor where
  name : Name
  type_ : Expr
deriving DecidableEq, Repr

/-- src/inductive/newinductive.rs `InductiveType`. -/
structure InductiveType where
  name : Name
  type_ : Expr
  constructors : List Constructor
deriving DecidableEq, Repr

/-- src/inductive/newinductive.rs `InductiveDeclar`. -/
structure InductiveDeclar where
  name : Name
  lparams : List Level
  numParams : Nat
  types : List InductiveType
  isUnsafe : Bool
deriving DecidableEq, Repr

def getAllInductiveNames (v : List InductiveType) : List Name := v.map (fun d => d.name)

/-- src/recursor.rs `RecInfo`. -/
structure RecInfo where
  mC : Expr
  mMinors : List Expr
  mIndices : List Expr
  mMajor : Expr
deriving DecidableEq, Repr

/-- src/inductive/addinductive.rs `AddInductiveFn`: the state record of the
inductive compiler, with the `ArcEnv` handle made an explicit `env` field. -/
structure AddInd where
  name : Name
  mLparams : List Level
  mLevels : List Level
  mNparams : Nat
  mIsUnsafe : Bool
  mIndTypes : List InductiveType
  env : Env
  mNindices : List Nat
  mResultLevel : Level
  mIsNotZero : Option Bool
  mParams : List Expr
  mIndConsts : List Expr
  mElimLevel : Level
  mKTarget : Bool
  mRecInfos : List RecInfo
  useDepElim : Option Bool
deriving DecidableEq, Repr

/-- `AddInductiveFn::new` as called from `InductiveDeclar::add_inductive_fn`. -/
def AddInd.ofDeclar (d : InductiveDeclar) (env : Env) : AddInd :=
  ⟨d.name, d.lparams, [], d.numParams, d.isUnsafe, d.types, env, [], mkZero, none,
    [], [], mkZero, false, [], none⟩

/-- src/expr.rs `mk_local_declar_for` — `Binding::from` panics off a
`Pi`/`Lambda`/`Local`; every call site in the compiler passes a `Pi`. -/
def mkLocalDeclarFor (e : Expr) (st : Tcs) : Expr × Tcs :=
  match e with
  | .pi n ty bi _ => freshLocal ⟨n, ty, bi⟩ st
  | .lam n ty bi _ => freshLocal ⟨n, ty, bi⟩ st
  | .lc n ty bi _ => freshLocal ⟨n, ty, bi⟩ st
  | _ => freshLocal ⟨.anon, mkProp, .default⟩ st

/-- src/expr.rs `get_sort_level`. -/
def Expr.getSortLevel : Expr → Except String Level
  | .sort l => pure l
  | _ => throw "get_sort_level"

/-- src/expr.rs `get_local_type`. -/
def Expr.getLocalType : Expr → Except String Expr
  | .lc _ ty _ _ => pure ty
  | _ => throw "get_local_type"

/-- addinductive.rs `use_dep_elim` (the method on a base type). -/
def useDepElimOf : Expr → Except String Bool
  | .sort l => pure l.maybeNonzero
  | _ => throw "UseDepElimNotSortErr"

/-- addinductive.rs `get_param_type`. -/
def AddInd.getParamType (a : AddInd) (idx : Nat) : Except String Expr :=
  match a.mParams.get? idx with
  | some (.lc _ ty _ _) => pure ty
  | _ => throw "GetParamTypeErr"

/-- The `while let Pi` loop of `check_inductive_types`: consume parameter
binders (collecting or re-checking `m_params`) then count indices.  The
recursion is on the instantiated body, hence fueled. -/
def checkIndTypesLoop (a : AddInd) (envFuel : Nat) :
    Nat → Nat → Expr → Nat → Nat → List Expr → Tcs →
    Except String ((Expr × Nat × Nat × List Expr) × Tcs)
  | 0, _, _, _, _, _, _ => throw "fuel"
  | fl + 1, idx, baseType, i, nind, params, st =>
    match baseType with
    | .pi n ty bi body =>
      if i < a.mNparams then
        if idx = 0 then
          let (param, st1) := freshLocal ⟨n, ty, bi⟩ st
          checkIndTypesLoop a envFuel fl idx (body.instantiate [param]) (i + 1) nind
            (params ++ [param]) st1
        else
          match params.get? i with
          | none => throw "BadIndexErr"
          | some indexedParam => do
            let ipTy ← indexedParam.getLocalType
            let (r, st1) ← isDefEq a.env envFuel ty ipTy st
            if r = .eqShort then
              checkIndTypesLoop a envFuel fl idx (body.instantiate [indexedParam]) (i + 1)
                nind params st1
            else throw "assert: parameter type mismatch"
      else checkIndTypesLoop a envFuel fl idx body i (nind + 1) params st
    | other => pure ((other, i, nind, params), st)

/-- One iteration of `check_inductive_types` over `m_ind_types`. -/
def checkIndTypesStep (envFuel fl : Nat) (a : AddInd) (idx : Nat)
    (elem : InductiveType) (st : Tcs) : Except String (AddInd × Tcs) :=
  if elem.type_.hasLocals then throw "assert: inductive type has locals"
  else do
    let (_, st1) ← checkE a.env envFuel elem.type_ a.mLparams st
    let ((baseType0, i, nind, params), st2) ←
      checkIndTypesLoop a envFuel fl idx elem.type_ 0 0 a.mParams st1
    if i ≠ a.mNparams then throw "check_inductive_i_neq"
    else do
      let (infdSort, st3) ← ensureSort a.env envFuel baseType0 st2
      let dep ← useDepElimOf infdSort
      let a1 := { a with mParams := params, mNindices := a.mNindices ++ [nind],
                         useDepElim := some dep }
      let a2 ←
        if idx = 0 then do
          let resultLevel ← infdSort.getSortLevel
          pure { a1 with mResultLevel := resultLevel,
                         mIsNotZero := some resultLevel.isNonzero }
        else do
          let sl ← infdSort.getSortLevel
          if ¬ sl.eqByAntisymm a1.mResultLevel then throw "mutual_different_universes"
          else pure a1
      let indConst := mkConst elem.name a2.mLevels
      pure ({ a2 with mIndConsts := a2.mIndConsts ++ [indConst] }, st3)

def checkIndTypesGo (envFuel fl : Nat) :
    List InductiveType → Nat → AddInd → Tcs → Except String (AddInd × Tcs)
  | [], _, a, st => pure (a, st)
  | elem :: rest, idx, a, st => do
    let (a1, st1) ← checkIndTypesStep envFuel fl a idx elem st
    checkIndTypesGo envFuel fl rest (idx + 1) a1 st1

/-- addinductive.rs `check_inductive_types`. -/
def checkInductiveTypes (a : AddInd) (envFuel fl : Nat) (st : Tcs) :
    Except String (AddInd × Tcs) :=
  let a0 := { a with mLevels := a.mLparams }
  checkIndTypesGo envFuel fl a0.mIndTypes 0 a0 st

/-- The `Const`-with-a-declared-inductive-name predicate of `is_rec`. -/
def isRecPred (names : List Name) (e : Expr) : Bool :=
  match e with
  | .const n _ => names.contains n
  | _ => false

/-- The per-constructor cursor walk of `is_rec`: some binder domain mentions
one of the mutual family's constants. -/
def isRecCursor (names : List Name) : Expr → Bool
  | .pi _ ty _ body => ty.findMatchingB (isRecPred names) || isRecCursor names body
  | _ => false

/-- addinductive.rs `is_rec`. -/
def AddInd.isRec (a : AddInd) : Bool :=
  let names := a.mIndConsts.filterMap Expr.getConstName
  a.mIndTypes.any (fun it => it.constructors.any (fun c => isRecCursor names c.type_))

/-- addinductive.rs `is_ind_occurrence`: a `Const` whose name EVERY entry of
`m_ind_consts` carries (the source uses `.all`, not `.any`). -/
def AddInd.isIndOccurrence (a : AddInd) (e : Expr) : Bool :=
  match e with
  | .const n _ =>
    a.mIndConsts.all (fun c =>
      match c.getConstName with
      | some n2 => n2 = n
      | none => false)
  | _ => false

/-- The per-constructor cursor walk of `is_reflexive` (fueled: the cursor is
an instantiated body).  Note the source's guard `binder.ty.is_pi() &&
is_ind_occurrence(&binder.ty)` — `is_ind_occurrence` holds only of a `Const`,
so the guard is never true and the walk always ends false; translated
verbatim. -/
def isReflexiveCursor (a : AddInd) : Nat → Expr → Tcs → Except String (Bool × Tcs)
  | 0, _, _ => throw "fuel"
  | fl + 1, cursor, st =>
    match cursor with
    | .pi n ty bi body =>
      if ty.isPi && a.isIndOccurrence ty then pure (true, st)
      else
        let (l, st1) := freshLocal ⟨n, ty, bi⟩ st
        isReflexiveCursor a fl (body.instantiate [l]) st1
    | _ => pure (false, st)

def isReflexiveList (a : AddInd) (fl : Nat) :
    List Constructor → Tcs → Except String (Bool × Tcs)
  | [], st => pure (false, st)
  | c :: rest, st => do
    let (b, st1) ← isReflexiveCursor a fl c.type_ st
    if b then pure (true, st1) else isReflexiveList a fl rest st1

/-- addinductive.rs `is_reflexive`. -/
def AddInd.isReflexive (a : AddInd) (fl : Nat) (st : Tcs) : Except String (Bool × Tcs) :=
  isReflexiveList a fl (a.mIndTypes.flatMap (fun it => it.constructors)) st

def declareIndTypesGo (a : AddInd) (fl : Nat) :
    List InductiveType → Nat → Env → Tcs → Except String (Env × Tcs)
  | [], _, env, st => pure (env, st)
  | indType :: rest, idx, env, st =>
    match a.mNindices.get? idx with
    | none => throw "BadIndexErr"
    | some nind => do
      let (isRefl, st1) ← a.isReflexive fl st
      let iv : InductiveVal :=
        ⟨⟨indType.name, a.mLparams, indType.type_⟩, a.mNparams, nind,
          getAllInductiveNames a.mIndTypes, indType.constructors.map (fun c => c.name),
          a.isRec, a.mIsUnsafe, isRefl⟩
      declareIndTypesGo a fl rest (idx + 1)
        (env.addConstantInfo indType.name (.inductiveInfo iv)) st1

/-- addinductive.rs `declare_inductive_types`: insert an `InductiveInfo`
record for every member of the (possibly mutual) family. -/
def declareInductiveTypes (a : AddInd) (fl : Nat) (st : Tcs) :
    Except String (AddInd × Tcs) := do
  let (env1, st1) ← declareIndTypesGo a fl a.mIndTypes 0 a.env st
  pure ({ a with env := env1 }, st1)

/-- addinductive.rs `is_valid_ind_app2`: `t` is the `idx`-th family constant
applied to exactly `nparams + nindices` arguments whose first `nparams` are
the recorded parameters (up to serial). -/
def AddInd.isValidIndApp2 (a : AddInd) (t : Expr) (idx : Nat) : Bool :=
  match a.mIndConsts.get? idx, a.mNindices.get? idx with
  | some ic, some nind =>
    let (fnI, args) := t.unfoldAppsRev
    if fnI ≠ ic ∨ args.length ≠ a.mNparams + nind then false
    else
      (List.range a.mNparams).all (fun i =>
        match a.mParams.get? i, args.get? i with
        | some p, some arg => p.eqModSerial arg
        | _, _ => false)
  | _, _ => false

/-- addinductive.rs `is_valid_ind_app`. -/
def AddInd.isValidIndApp (a : AddInd) (e : Expr) : Option Nat :=
  (List.range a.mIndTypes.length).find? (fun idx => a.isValidIndApp2 e idx)

def isRecArgumentGo (a : AddInd) (envFuel : Nat) :
    Nat → Expr → Tcs → Except String (Option Nat × Tcs)
  | 0, _, _ => throw "fuel"
  | fl + 1, cursor, st =>
    match cursor with
    | .pi n ty bi body => do
      let (l, st1) := freshLocal ⟨n, ty, bi⟩ st
      let (w, st2) ← whnf a.env envFuel (body.instantiate [l]) st1
      isRecArgumentGo a envFuel fl w st2
    | other => pure (a.isValidIndApp other, st)

/-- addinductive.rs `is_rec_argument`: whnf through the argument's Pi
telescope and ask whether the head is a valid family application. -/
def AddInd.isRecArgument (a : AddInd) (envFuel fl : Nat) (e : Expr) (st : Tcs) :
    Except String (Option Nat × Tcs) := do
  let (w, st1) ← whnf a.env envFuel e st
  isRecArgumentGo a envFuel fl w st1

/-- addinductive.rs `check_positivity`.  The source asks `is_ind_occurrence`
of the whnf'd type FIRST and returns Ok when it fails; since the predicate
holds only of a bare `Const`, the `Pi` recursion arm below is unreachable —
translated verbatim. -/
def checkPositivityGo (a : AddInd) (envFuel : Nat) :
    Nat → Expr → Tcs → Except String (Unit × Tcs)
  | 0, _, _ => throw "fuel"
  | fl + 1, t, st => do
    let (whnfd, st1) ← whnf a.env envFuel t st
    if ¬ a.isIndOccurrence whnfd then pure ((), st1)
    else
      match whnfd with
      | .pi n ty bi body =>
        if a.isIndOccurrence ty then throw "NonposOccurrenceErr"
        else
          let (l, st2) := freshLocal ⟨n, ty, bi⟩ st1
          checkPositivityGo a envFuel fl (body.instantiate [l]) st2
      | _ =>
        if (a.isValidIndApp whnfd).isSome then pure ((), st1)
        else throw "InvalidOccurrenceErr"

/-- The `while let Pi` loop of `check_constructors`. -/
def checkCnstrLoop (a : AddInd) (envFuel : Nat) :
    Nat → Expr → Nat → Tcs → Except String (Expr × Tcs)
  | 0, _, _, _ => throw "fuel"
  | fl + 1, t, i, st =>
    match t with
    | .pi n ty bi body =>
      if i < a.mNparams then do
        let pty ← a.getParamType i
        let (r, st1) ← isDefEq a.env envFuel ty pty st
        if r = .neqShort then throw "CnstrBadParamTypeErr"
        else
          match a.mParams.get? i with
          | none => throw "BadIndexErr"
          | some l => checkCnstrLoop a envFuel fl (body.instantiate [l]) (i + 1) st1
      else do
        let (s, st1) ← ensureType a.env envFuel ty st
        let sl ← s.getSortLevel
        if ¬ (a.mResultLevel.isGeq sl || a.mResultLevel.isZero) then throw "CnstrUnivErr"
        else do
          let st2 ←
            if ¬ a.mIsUnsafe then do
              let ((), s2) ← checkPositivityGo a envFuel fl ty st1
              pure s2
            else pure st1
          let (l, st3) := freshLocal ⟨n, ty, bi⟩ st2
          checkCnstrLoop a envFuel fl (body.instantiate [l]) (i + 1) st3
    | other => pure (other, st)

/-- One constructor of `check_constructors` (the `m_env.check_name(n)` of the
source is commented out under a `FIXME`, as in `check_constant_val_wtc`). -/
def checkCnstrOne (a : AddInd) (envFuel fl : Nat) (idx : Nat) (cnstr : Constructor)
    (st : Tcs) : Except String (Unit × Tcs) :=
  if cnstr.type_.varBound ≠ 0 then throw "assert: constructor type not closed"
  else do
    let (_, st1) ← checkE a.env envFuel cnstr.type_ a.mLparams st
    let (t, st2) ← checkCnstrLoop a envFuel fl cnstr.type_ 0 st1
    if ¬ a.isValidIndApp2 t idx then throw "CnstrBadTypeErr"
    else pure ((), st2)

def checkCnstrList (a : AddInd) (envFuel fl : Nat) (idx : Nat) :
    List Constructor → Tcs → Except String (Unit × Tcs)
  | [], st => pure ((), st)
  | c :: rest, st => do
    let ((), st1) ← checkCnstrOne a envFuel fl idx c st
    checkCnstrList a envFuel fl idx rest st1

def checkCnstrTypes (a : AddInd) (envFuel fl : Nat) :
    List InductiveType → Nat → Tcs → Except String (Unit × Tcs)
  | [], _, st => pure ((), st)
  | it :: rest, idx, st => do
    let ((), st1) ← checkCnstrList a envFuel fl idx it.constructors st
    checkCnstrTypes a envFuel fl rest (idx + 1) st1

/-- addinductive.rs `check_constructors`. -/
def checkConstructors (a : AddInd) (envFuel fl : Nat) (st : Tcs) :
    Except String (Unit × Tcs) :=
  checkCnstrTypes a envFuel fl a.mIndTypes 0 st

/-- The arity count of `declare_constructors` (a plain Pi-spine length). -/
def piArity : Expr → Nat
  | .pi _ _ _ body => piArity body + 1
  | _ => 0

/-- Per-type body of `declare_constructors`; `arity ≥ nparams` is an `assert`
in the source, and `Nat` subtraction here matches it on every input that
passed `check_constructors`. -/
def declareCnstrsForType (a : AddInd) (it : InductiveType) (env : Env) : Env :=
  (it.constructors.foldl (fun (pr : Env × Nat) cnstr =>
    let cval : ConstructorVal :=
      ⟨⟨cnstr.name, a.mLparams, cnstr.type_⟩, it.name, pr.2, a.mNparams,
        piArity cnstr.type_ - a.mNparams, a.mIsUnsafe⟩
    (pr.1.addConstantInfo cnstr.name (.constructorInfo cval), pr.2 + 1)) (env, 0)).1

/-- addinductive.rs `declare_constructors`. -/
def declareConstructors (a : AddInd) : AddInd :=
  { a with env := a.mIndTypes.foldl (fun env it => declareCnstrsForType a it env) a.env }

/-- The `while let Pi` walk of `elim_only_at_universe_zero`: open every
binder with a fresh local, and record (in `toCheck`) the non-parameter
arguments whose types do not land in `Sort 0`. -/
def elimZeroLoop (a : AddInd) (envFuel : Nat) :
    Nat → Expr → Nat → List Expr → Tcs → Except String ((Expr × List Expr) × Tcs)
  | 0, _, _, _, _ => throw "fuel"
  | fl + 1, cnstrType, i, toCheck, st =>
    match cnstrType with
    | .pi n ty bi body => do
      let (fvar, st1) := freshLocal ⟨n, ty, bi⟩ st
      let (toCheck1, st2) ←
        if i ≥ a.mNparams then do
          let (s, st2) ← ensureType a.env envFuel ty st1
          let sl ← s.getSortLevel
          if ¬ sl.isZero then pure (toCheck ++ [fvar], st2) else pure (toCheck, st2)
        else pure (toCheck, st1)
      elimZeroLoop a envFuel fl (body.instantiate [fvar]) (i + 1) toCheck1 st2
    | other => pure ((other, toCheck), st)

/-- addinductive.rs `elim_only_at_universe_zero`. -/
def elimOnlyAtUniverseZero (a : AddInd) (envFuel fl : Nat) (st : Tcs) :
    Except String (Bool × Tcs) :=
  match a.mIsNotZero with
  | none => throw "NoneErr m_is_not_zero"
  | some isNotZero =>
    if isNotZero then pure (false, st)
    else if a.mIndTypes.length > 1 then pure (true, st)
    else
      match a.mIndTypes.get? 0 with
      | none => throw "index: m_ind_types[0]"
      | some ind0 =>
        let numIntros := ind0.constructors.length
        if numIntros > 1 then pure (true, st)
        else if numIntros = 0 then pure (false, st)
        else
          match ind0.constructors.get? 0 with
          | none => throw "NoneErr elim cnstr"
          | some cn => do
            let ((resultType, toCheck), st1) ← elimZeroLoop a envFuel fl cn.type_ 0 [] st
            let (_, resultArgs) := resultType.unfoldAppsRev
            if toCheck.all (fun arg => resultArgs.contains arg) then pure (false, st1)
            else pure (true, st1)

/-- The fresh-name search of `init_elim_level`: starting from `u`, extend the
CURRENT candidate with the counter while it clashes with a declared level
parameter (so `u`, `u.1`, `u.1.2`, …).  Each clash consumes a distinct
parameter, so `lparams.length + 1` rounds always suffice at the call site. -/
def freshULoop (lparams : List Level) : Nat → Name → Nat → Name
  | 0, n, _ => n
  | fl + 1, n, counter =>
    if lparams.any (fun x => match x with | .param pn => pn = n | _ => false) then
      freshULoop lparams fl (n.extendNum counter) (counter + 1)
    else n

/-- addinductive.rs `init_elim_level`. -/
def initElimLevel (a : AddInd) (envFuel fl : Nat) (st : Tcs) :
    Except String (AddInd × Tcs) := do
  let (b, st1) ← elimOnlyAtUniverseZero a envFuel fl st
  if b then pure ({ a with mElimLevel := mkZero }, st1)
  else
    let n := freshULoop a.mLparams (a.mLparams.length + 1) (Name.ofStr "u") 1
    pure ({ a with mElimLevel := mkParam n }, st1)

/-- The `while let Pi` walk of `init_K_target`: false as soon as a binder
survives past the parameters. -/
def kTargetLoop (nparams : Nat) : Expr → Nat → Bool
  | .pi _ _ _ body, i => if i < nparams then kTargetLoop nparams body (i + 1) else false
  | _, _ => true

/-- addinductive.rs `init_K_target` (the source reads `m_ind_types[0]`
unconditionally, hence the index error on an empty family). -/
def initKTarget (a : AddInd) : Except String AddInd :=
  match a.mIndTypes.get? 0 with
  | none => throw "index: m_ind_types[0]"
  | some t0 =>
    let kt := decide (a.mIndTypes.length = 1) && a.mResultLevel.isZero &&
      decide (t0.constructors.length = 1)
    if ¬ kt then pure { a with mKTarget := kt }
    else
      match t0.constructors.get? 0 with
      | none => throw "NoneErr init_k_target(0)"
      | some c0 => pure { a with mKTarget := kTargetLoop a.mNparams c0.type_ 0 }

/-- addinductive.rs `get_I_indices`: the matching family index plus the
argument tail past the parameters. -/
def AddInd.getIIndices (a : AddInd) (t : Expr) : Except String (Nat × List Expr) :=
  match a.isValidIndApp t with
  | none => throw "NoneErr get_I_indices"
  | some r =>
    let (_, allArgs) := t.unfoldAppsRev
    pure (r, allArgs.drop a.mNparams)

/-- The index-collecting walk of the first `mk_rec_infos` pass. -/
def recInfoIndicesLoop (a : AddInd) :
    Nat → Expr → Nat → List Expr → Tcs → Except String (List Expr × Tcs)
  | 0, _, _, _, _ => throw "fuel"
  | fl + 1, t, i, indices, st =>
    match t with
    | .pi n ty bi body =>
      if i < a.mNparams then
        match a.mParams.get? i with
        | none => throw "BadIndexErr"
        | some l => recInfoIndicesLoop a fl (body.instantiate [l]) (i + 1) indices st
      else
        let (idx, st1) := freshLocal ⟨n, ty, bi⟩ st
        recInfoIndicesLoop a fl (body.instantiate [idx]) (i + 1) (indices ++ [idx]) st1
    | _ => pure (indices, st)

/-- First pass of `mk_rec_infos`: per family member, collect index locals and
build the major premise and the motive. -/
def mkRecInfosPass1Go (a : AddInd) (fl : Nat) :
    List InductiveType → Nat → List RecInfo → Tcs → Except String (List RecInfo × Tcs)
  | [], _, infos, st => pure (infos, st)
  | it :: rest, dIdx, infos, st => do
    let (indices, st1) ← recInfoIndicesLoop a fl it.type_ 0 [] st
    match a.mIndConsts.get? dIdx with
    | none => throw "BadIndexErr"
    | some indConst =>
      let app := (indConst.foldlApps a.mParams).foldlApps indices
      let (majorLocal, st2) := freshLocal ⟨Name.ofStr "t", app, .default⟩ st1
      let motiveBase := mkSort a.mElimLevel
      match a.useDepElim with
      | none => throw "NoneErr mk_rec_infos::use_dep_elim"
      | some dep =>
        let motiveType :=
          if dep then (motiveBase.foldPis [majorLocal]).foldPis indices
          else motiveBase.foldPis indices
        let motiveName :=
          if a.mIndTypes.length > 1 then (Name.ofStr "C").extendNum (dIdx + 1)
          else Name.ofStr "C"
        let (motive, st3) := freshLocal ⟨motiveName, motiveType, .implicit⟩ st2
        mkRecInfosPass1Go a fl rest (dIdx + 1)
          (infos ++ [⟨motive, [], indices, majorLocal⟩]) st3

/-- The `b_u` / `u` collecting walk over a constructor type (shared by the
second `mk_rec_infos` pass and `mk_rec_rules`). -/
def collectBuULoop (a : AddInd) (envFuel flR : Nat) :
    Nat → Expr → Nat → List Expr → List Expr → Tcs →
    Except String ((Expr × List Expr × List Expr) × Tcs)
  | 0, _, _, _, _, _ => throw "fuel"
  | fl + 1, t, i, bU, u, st =>
    match t with
    | .pi n ty bi body =>
      if i < a.mNparams then
        match a.mParams.get? i with
        | none => throw "BadIndexErr"
        | some l => collectBuULoop a envFuel flR fl (body.instantiate [l]) (i + 1) bU u st
      else do
        let (l, st1) := freshLocal ⟨n, ty, bi⟩ st
        let (recArg, st2) ← a.isRecArgument envFuel flR ty st1
        let u1 := if recArg.isSome then u ++ [l] else u
        collectBuULoop a envFuel flR fl (body.instantiate [l]) (i + 1) (bU ++ [l]) u1 st2
    | other => pure ((other, bU, u), st)

/-- The whnf-through-Pi walk producing the `xs` telescope of a recursive
argument. -/
def vXsLoop (a : AddInd) (envFuel : Nat) :
    Nat → Expr → List Expr → Tcs → Except String ((Expr × List Expr) × Tcs)
  | 0, _, _, _ => throw "fuel"
  | fl + 1, uiTy, xs, st =>
    match uiTy with
    | .pi n ty bi body => do
      let (x, st1) := freshLocal ⟨n, ty, bi⟩ st
      let (w, st2) ← whnf a.env envFuel (body.instantiate [x]) st1
      vXsLoop a envFuel fl w (xs ++ [x]) st2
    | other => pure ((other, xs), st)

/-- The `v` accumulation of the second `mk_rec_infos` pass. -/
def buildVs (a : AddInd) (envFuel flR : Nat) (dep : Bool) (recInfos : List RecInfo) :
    List Expr → Nat → List Expr → Tcs → Except String (List Expr × Tcs)
  | [], _, v, st => pure (v, st)
  | ui :: rest, i, v, st => do
    let (infd, st1) ← inferType a.env envFuel ui st
    let (uiTy0, st2) ← whnf a.env envFuel infd st1
    let ((uiTy, xs), st3) ← vXsLoop a envFuel flR uiTy0 [] st2
    let (itIdx, itIndices) ← a.getIIndices uiTy
    match recInfos.get? itIdx with
    | none => throw "BadIndexErr"
    | some ri =>
      let cBase := ri.mC.foldlApps itIndices
      let cBase2 := if dep then mkApp cBase (ui.foldlApps xs) else cBase
      let viTy := cBase2.foldPis xs
      let (vi, st4) := freshLocal ⟨(Name.ofStr "v").extendNum i, viTy, .default⟩ st3
      buildVs a envFuel flR dep recInfos rest (i + 1) (v ++ [vi]) st4

/-- One minor premise of the second `mk_rec_infos` pass. -/
def mkMinorForCnstr (a : AddInd) (envFuel flR : Nat) (recInfos : List RecInfo)
    (minorIdx : Nat) (cnstr : Constructor) (st : Tcs) : Except String (Expr × Tcs) := do
  let ((t, bU, u), st1) ← collectBuULoop a envFuel flR flR cnstr.type_ 0 [] [] st
  let (itIdx, itIndices) ← a.getIIndices t
  match a.useDepElim with
  | none => throw "NoneErr declare_recursors use_dep_elim"
  | some dep =>
    match recInfos.get? itIdx with
    | none => throw "BadIndexErr"
    | some ri =>
      let motiveAppBase := ri.mC.foldlApps itIndices
      let motiveApp :=
        if dep then
          mkApp motiveAppBase (((mkConst cnstr.name a.mLevels).foldlApps a.mParams).foldlApps bU)
        else motiveAppBase
      let (v, st2) ← buildVs a envFuel flR dep recInfos u 0 [] st1
      let minorTy := (motiveApp.foldPis v).foldPis bU
      let (minor, st3) := freshLocal ⟨(Name.ofStr "m").extendNum minorIdx, minorTy, .default⟩ st2
      pure (minor, st3)

def pushMinor (infos : List RecInfo) (dIdx : Nat) (minor : Expr) :
    Except String (List RecInfo) :=
  match infos.get? dIdx with
  | some ri => pure (infos.set dIdx { ri with mMinors := ri.mMinors ++ [minor] })
  | none => throw "BadIndexErr"

def mkRecInfosPass2Cnstrs (a : AddInd) (envFuel flR : Nat) (dIdx : Nat) :
    List Constructor → List RecInfo → Nat → Tcs →
    Except String ((List RecInfo × Nat) × Tcs)
  | [], infos, minorIdx, st => pure ((infos, minorIdx), st)
  | c :: rest, infos, minorIdx, st => do
    let (minor, st1) ← mkMinorForCnstr a envFuel flR infos minorIdx c st
    let infos1 ← pushMinor infos dIdx minor
    mkRecInfosPass2Cnstrs a envFuel flR dIdx rest infos1 (minorIdx + 1) st1

def mkRecInfosPass2Go (a : AddInd) (envFuel flR : Nat) :
    List InductiveType → Nat → List RecInfo → Nat → Tcs →
    Except String (List RecInfo × Tcs)
  | [], _, infos, _, st => pure (infos, st)
  | it :: rest, dIdx, infos, minorIdx, st => do
    let ((infos1, minorIdx1), st1) ←
      mkRecInfosPass2Cnstrs a envFuel flR dIdx it.constructors infos minorIdx st
    mkRecInfosPass2Go a envFuel flR rest (dIdx + 1) infos1 minorIdx1 st1

/-- addinductive.rs `mk_rec_infos` (both passes; the minor counter starts
at 1). -/
def mkRecInfos (a : AddInd) (envFuel fl : Nat) (st : Tcs) :
    Except String (AddInd × Tcs) := do
  let (infos, st1) ← mkRecInfosPass1Go a fl a.mIndTypes 0 [] st
  let (infos2, st2) ← mkRecInfosPass2Go a envFuel fl a.mIndTypes 0 infos 1 st1
  pure ({ a with mRecInfos := infos2 }, st2)

/-- addinductive.rs `get_rec_levels`. -/
def AddInd.getRecLevels (a : AddInd) : List Level :=
  if a.mElimLevel.isParam then a.mElimLevel :: a.mLevels else a.mLevels

/-- addinductive.rs `get_rec_lparam_names` (`get_param_name` panics off a
`param`; every entry of `m_lparams` is a `param` by construction). -/
def levelParamName : Level → Name
  | .param n => n
  | _ => .anon

def AddInd.getRecLparamNames (a : AddInd) : List Name :=
  if a.mElimLevel.isParam then
    levelParamName a.mElimLevel :: a.mLparams.map levelParamName
  else a.mLparams.map levelParamName

/-- addinductive.rs `get_rec_lparams`. -/
def AddInd.getRecLparams (a : AddInd) : List Level :=
  a.getRecLparamNames.map mkParam

def AddInd.collectCs (a : AddInd) : Except String (List Expr) :=
  (List.range a.mIndTypes.length).mapM (fun i =>
    match a.mRecInfos.get? i with
    | some ri => pure ri.mC
    | none => throw "BadIndexErr")

def AddInd.collectMinorPremises (a : AddInd) : Except String (List Expr) := do
  let ls ← (List.range a.mIndTypes.length).mapM (fun i =>
    match a.mRecInfos.get? i with
    | some ri => pure ri.mMinors
    | none => throw "BadIndexErr")
  pure ls.flatten

/-- The `v` accumulation of `mk_rec_rules` (recursive applications of the
recursors under the `xs` telescopes). -/
def mkRecRulesVs (a : AddInd) (envFuel flR : Nat) (lvls : List Level)
    (cs minors : List Expr) : List Expr → Nat → List Expr → Tcs →
    Except String (List Expr × Tcs)
  | [], _, v, st => pure (v, st)
  | ui :: rest, i, v, st => do
    let (infd, st1) ← inferType a.env envFuel ui st
    let (uiTy0, st2) ← whnf a.env envFuel infd st1
    let ((uiTy, xs), st3) ← vXsLoop a envFuel flR uiTy0 [] st2
    let (itIdx, itIndices) ← a.getIIndices uiTy
    match a.mIndTypes.get? itIdx with
    | none => throw "BadIndexErr"
    | some itFam =>
      let recName := itFam.name.mkRecName
      let recAppLhs := ((((mkConst recName lvls).foldlApps a.mParams).foldlApps cs).foldlApps
        minors).foldlApps itIndices
      let recApp := mkApp recAppLhs (ui.foldlApps xs)
      mkRecRulesVs a envFuel flR lvls cs minors rest (i + 1)
        (v ++ [recApp.foldLambdas xs]) st3

/-- One rule of `mk_rec_rules`. -/
def mkRecRuleForCnstr (a : AddInd) (envFuel flR : Nat) (lvls : List Level)
    (cs minors : List Expr) (minorIdx : Nat) (cnstr : Constructor) (st : Tcs) :
    Except String (RecursorRule × Tcs) := do
  let ((_, bU, u), st1) ← collectBuULoop a envFuel flR flR cnstr.type_ 0 [] [] st
  let (v, st2) ← mkRecRulesVs a envFuel flR lvls cs minors u 0 [] st1
  match minors.get? minorIdx with
  | none => throw "BadIndexErr"
  | some minor =>
    let compRhs := ((((minor.foldlApps bU).foldlApps v).foldLambdas bU).foldLambdas
      minors).foldLambdas cs |>.foldLambdas a.mParams
    pure (⟨cnstr.name, bU.length, compRhs⟩, st2)

def mkRecRulesGo (a : AddInd) (envFuel flR : Nat) (lvls : List Level)
    (cs minors : List Expr) : List Constructor → Nat → List RecursorRule → Tcs →
    Except String (List RecursorRule × Tcs)
  | [], _, rules, st => pure (rules, st)
  | c :: rest, minorIdx, rules, st => do
    let (rule, st1) ← mkRecRuleForCnstr a envFuel flR lvls cs minors minorIdx c st
    mkRecRulesGo a envFuel flR lvls cs minors rest (minorIdx + 1) (rules ++ [rule]) st1

/-- addinductive.rs `mk_rec_rules` for the `d_idx`-th member. -/
def mkRecRules (a : AddInd) (envFuel flR : Nat) (dIdx : Nat) (cs minors : List Expr)
    (minorIdx : Nat) (st : Tcs) : Except String (List RecursorRule × Tcs) :=
  match a.mIndTypes.get? dIdx with
  | none => throw "BadIndexErr"
  | some d => mkRecRulesGo a envFuel flR a.getRecLevels cs minors d.constructors minorIdx [] st

/-- The per-member body of `declare_recursors` (note the source passes the
OUTER `minor_idx = 0` by value into `mk_rec_rules` on every iteration). -/
def declareRecursorsGo (a : AddInd) (envFuel flR : Nat) (cs minors : List Expr)
    (nminors nmotives : Nat) (all : List Name) :
    List InductiveType → Nat → Env → Tcs → Except String (Env × Tcs)
  | [], _, env, st => pure (env, st)
  | it :: rest, dIdx, env, st =>
    match a.useDepElim with
    | none => throw "NoneErr declare_recursors use_dep_elim"
    | some dep =>
      match a.mRecInfos.get? dIdx, a.mNindices.get? dIdx with
      | some info, some nind => do
        let motiveAppBase := info.mC.foldlApps info.mIndices
        let motiveApp := if dep then mkApp motiveAppBase info.mMajor else motiveAppBase
        let recTy := (((( motiveApp.foldPis [info.mMajor]).foldPis info.mIndices).foldPis
          minors).foldPis cs).foldPis a.mParams
        let (rules, st1) ← mkRecRules a envFuel flR dIdx cs minors 0 st
        let recName := it.name.mkRecName
        let rv : RecursorVal :=
          ⟨⟨recName, a.getRecLparams, recTy⟩, a.getRecLparamNames, all, a.mNparams,
            nind, nmotives, nminors, rules, a.mKTarget, a.mIsUnsafe⟩
        declareRecursorsGo a envFuel flR cs minors nminors nmotives all rest (dIdx + 1)
          (env.addConstantInfo recName (.recursorInfo rv)) st1
      | _, _ => throw "BadIndexErr"

/-- addinductive.rs `declare_recursors`. -/
def declareRecursors (a : AddInd) (envFuel flR : Nat) (st : Tcs) :
    Except String (AddInd × Tcs) := do
  let cs ← a.collectCs
  let minors ← a.collectMinorPremises
  let all := getAllInductiveNames a.mIndTypes
  let (env1, st1) ← declareRecursorsGo a envFuel flR cs minors minors.length cs.length
    all a.mIndTypes 0 a.env st
  pure ({ a with env := env1 }, st1)

/-- addinductive.rs `env_operator`: the nine pipeline steps in source order.
Each step's environment mutations happen through the shared `ArcEnv` handle,
so a later failure does NOT roll them back; the translation therefore returns
the state reached at the point of failure alongside the error. -/
def envOperator (a : AddInd) (envFuel fl : Nat) (st : Tcs) :
    (Except String Unit) × AddInd × Tcs :=
  match ensureNoDupeLparams a.mLparams with
  | .error e => (.error e, a, st)
  | .ok _ =>
    match checkInductiveTypes a envFuel fl st with
    | .error e => (.error e, a, st)
    | .ok (a1, st1) =>
      match declareInductiveTypes a1 fl st1 with
      | .error e => (.error e, a1, st1)
      | .ok (a2, st2) =>
        match checkConstructors a2 envFuel fl st2 with
        | .error e => (.error e, a2, st2)
        | .ok (_, st3) =>
          let a3 := declareConstructors a2
          match initElimLevel a3 envFuel fl st3 with
          | .error e => (.error e, a3, st3)
          | .ok (a4, st4) =>
            match initKTarget a4 with
            | .error e => (.error e, a4, st4)
            | .ok a5 =>
              match mkRecInfos a5 envFuel fl st4 with
              | .error e => (.error e, a5, st4)
              | .ok (a6, st5) =>
                match declareRecursors a6 envFuel fl st5 with
                | .error e => (.error e, a6, st5)
                | .ok (a7, st6) => (.ok (), a7, st6)

/-- Classifier used by the claims below. -/
def isInductiveInfoO : Option ConstantInfo → Bool
  | some (.inductiveInfo _) => true
  | _ => false

theorem posBySerial_spec (serial : Nat) :
    ∀ (L : List Expr) (p : Nat), posBySerial serial L = some p →
      p < L.length ∧ ∃ l, L.get? p = some l ∧
        (match l with | .lc _ _ _ s2 => s2 = serial | _ => False) := by
  intro L
  induction L with
  | nil => intro p h; simp [posBySerial] at h
  | cons hd tl ih =>
    intro p h
    simp only [posBySerial] at h
    split at h
    · next hm =>
      have hp : p = 0 := by
        have := h
        simp at this
        omega
      subst hp
      refine ⟨by simp, hd, by simp, ?_⟩
      cases hd <;> simp_all
    · next hm =>
      simp only [Option.map_eq_some'] at h
      obtain ⟨q, hq, hpq⟩ := h
      obtain ⟨hlt, l, hget, hser⟩ := ih q hq
      subst hpq
      exact ⟨by simpa using Nat.succ_lt_succ hlt, l, by simpa using hget, hser⟩

theorem varBound_le_of_closedAt :
    ∀ (e : Expr) (o : Nat), e.closedAt o = true → o + e.bDepth ≤ 65535 →
      e.varBound ≤ o := by
  intro e
  induction e with
  | var i =>
    intro o hc hs
    simp [Expr.closedAt] at hc
    simp [Expr.bDepth] at hs
    simp [Expr.varBound]
    omega
  | sort _ => intro o _ _; simp [Expr.varBound]
  | const _ _ => intro o _ _; simp [Expr.varBound]
  | lc _ _ _ _ => intro o _ _; simp [Expr.varBound]
  | app f a ihf iha =>
    intro o hc hs
    simp [Expr.closedAt] at hc
    simp [Expr.bDepth] at hs
    have hm1 : f.bDepth ≤ Nat.max f.bDepth a.bDepth := Nat.le_max_left _ _
    have hm2 : a.bDepth ≤ Nat.max f.bDepth a.bDepth := Nat.le_max_right _ _
    have h1 := ihf o hc.1 (by omega)
    have h2 := iha o hc.2 (by omega)
    simp only [Expr.varBound]
    exact Nat.max_le.mpr ⟨h1, h2⟩
  | lam n ty bi body ihty ihbody =>
    intro o hc hs
    simp [Expr.closedAt] at hc
    simp [Expr.bDepth] at hs
    have hm1 : ty.bDepth ≤ Nat.max ty.bDepth (body.bDepth + 1) := Nat.le_max_left _ _
    have hm2 : body.bDepth + 1 ≤ Nat.max ty.bDepth (body.bDepth + 1) := Nat.le_max_right _ _
    have h1 := ihty o hc.1 (by omega)
    have h2 := ihbody (o + 1) hc.2 (by omega)
    simp only [Expr.varBound]
    exact Nat.max_le.mpr ⟨h1, by simp only [safeMinusOne]; omega⟩
  | pi n ty bi body ihty ihbody =>
    intro o hc hs
    simp [Expr.closedAt] at hc
    simp [Expr.bDepth] at hs
    have hm1 : ty.bDepth ≤ Nat.max ty.bDepth (body.bDepth + 1) := Nat.le_max_left _ _
    have hm2 : body.bDepth + 1 ≤ Nat.max ty.bDepth (body.bDepth + 1) := Nat.le_max_right _ _
    have h1 := ihty o hc.1 (by omega)
    have h2 := ihbody (o + 1) hc.2 (by omega)
    simp only [Expr.varBound]
    exact Nat.max_le.mpr ⟨h1, by simp only [safeMinusOne]; omega⟩
  | letE n ty bi val body ihty ihval ihbody =>
    intro o hc hs
    simp [Expr.closedAt] at hc
    simp [Expr.bDepth] at hs
    have hm1 : Nat.max ty.bDepth val.bDepth ≤ Nat.max (Nat.max ty.bDepth val.bDepth) (body.bDepth + 1) :=
      Nat.le_max_left _ _
    have hm2 : body.bDepth + 1 ≤ Nat.max (Nat.max ty.bDepth val.bDepth) (body.bDepth + 1) :=
      Nat.le_max_right _ _
    have hm3 : ty.bDepth ≤ Nat.max ty.bDepth val.bDepth := Nat.le_max_left _ _
    have hm4 : val.bDepth ≤ Nat.max ty.bDepth val.bDepth := Nat.le_max_right _ _
    have h1 := ihty o hc.1.1 (by omega)
    have h2 := ihval o hc.1.2 (by omega)
    have h3 := ihbody (o + 1) hc.2 (by omega)
    simp only [Expr.varBound]
    exact Nat.max_le.mpr ⟨Nat.max_le.mpr ⟨h1, h2⟩, by simp only [safeMinusOne]; omega⟩

theorem instantiateCore_of_vb_le (es : List Expr) {e : Expr} {o : Nat}
    (h : e.varBound ≤ o) : e.instantiateCore es o = e := by
  cases e <;> simp [Expr.instantiateCore, h]

theorem abstractCore_varBound_inv (L : List Expr) :
    ∀ (e : Expr) (o : Nat), e.closedAt o = true → o + e.bDepth + L.length ≤ 65535 →
      (e.abstractCore L o).varBound ≤ o → e.abstractCore L o = e := by
  intro e
  induction e with
  | var i => intro o _ _ _; simp [Expr.abstractCore, Expr.hasLocals]
  | sort _ => intro o _ _ _; simp [Expr.abstractCore, Expr.hasLocals]
  | const _ _ => intro o _ _ _; simp [Expr.abstractCore, Expr.hasLocals]
  | lc n ty bi s =>
    intro o _ hs hvb
    rw [Expr.abstractCore] at hvb ⊢
    simp only [Expr.hasLocals] at hvb ⊢
    simp only [not_true, if_false, ite_false] at hvb ⊢
    cases hp : posBySerial s L with
    | none => simp [hp]
    | some pos =>
      exfalso
      obtain ⟨hlt, _⟩ := posBySerial_spec s L pos hp
      simp only [hp] at hvb
      simp only [Expr.varBound] at hvb
      simp only [Expr.bDepth] at hs
      omega
  | app f a ihf iha =>
    intro o hc hs hvb
    simp only [Expr.closedAt, Bool.and_eq_true] at hc
    simp only [Expr.bDepth] at hs
    have hm1 : f.bDepth ≤ Nat.max f.bDepth a.bDepth := Nat.le_max_left _ _
    have hm2 : a.bDepth ≤ Nat.max f.bDepth a.bDepth := Nat.le_max_right _ _
    by_cases hl : (Expr.app f a).hasLocals = true
    · rw [Expr.abstractCore] at hvb ⊢
      rw [if_neg (by simp [hl])] at hvb ⊢
      simp only [Expr.varBound, Nat.max_le] at hvb
      rw [ihf o hc.1 (by omega) hvb.1, iha o hc.2 (by omega) hvb.2]
    · rw [Expr.abstractCore]; rw [if_pos (by simp [hl])]
  | lam n ty bi body ihty ihbody =>
    intro o hc hs hvb
    simp only [Expr.closedAt, Bool.and_eq_true] at hc
    simp only [Expr.bDepth] at hs
    have hm1 : ty.bDepth ≤ Nat.max ty.bDepth (body.bDepth + 1) := Nat.le_max_left _ _
    have hm2 : body.bDepth + 1 ≤ Nat.max ty.bDepth (body.bDepth + 1) := Nat.le_max_right _ _
    by_cases hl : (Expr.lam n ty bi body).hasLocals = true
    · rw [Expr.abstractCore] at hvb ⊢
      rw [if_neg (by simp [hl])] at hvb ⊢
      simp only [Expr.varBound, Nat.max_le, safeMinusOne] at hvb
      rw [ihty o hc.1 (by omega) hvb.1, ihbody (o + 1) hc.2 (by omega) (by omega)]
    · rw [Expr.abstractCore]; rw [if_pos (by simp [hl])]
  | pi n ty bi body ihty ihbody =>
    intro o hc hs hvb
    simp only [Expr.closedAt, Bool.and_eq_true] at hc
    simp only [Expr.bDepth] at hs
    have hm1 : ty.bDepth ≤ Nat.max ty.bDepth (body.bDepth + 1) := Nat.le_max_left _ _
    have hm2 : body.bDepth + 1 ≤ Nat.max ty.bDepth (body.bDepth + 1) := Nat.le_max_right _ _
    by_cases hl : (Expr.pi n ty bi body).hasLocals = true
    · rw [Expr.abstractCore] at hvb ⊢
      rw [if_neg (by simp [hl])] at hvb ⊢
      simp only [Expr.varBound, Nat.max_le, safeMinusOne] at hvb
      rw [ihty o hc.1 (by omega) hvb.1, ihbody (o + 1) hc.2 (by omega) (by omega)]
    · rw [Expr.abstractCore]; rw [if_pos (by simp [hl])]
  | letE n ty bi val body ihty ihval ihbody =>
    intro o hc hs hvb
    simp only [Expr.closedAt, Bool.and_eq_true] at hc
    simp only [Expr.bDepth] at hs
    have hm1 : Nat.max ty.bDepth val.bDepth ≤
        Nat.max (Nat.max ty.bDepth val.bDepth) (body.bDepth + 1) := Nat.le_max_left _ _
    have hm2 : body.bDepth + 1 ≤
        Nat.max (Nat.max ty.bDepth val.bDepth) (body.bDepth + 1) := Nat.le_max_right _ _
    have hm3 : ty.bDepth ≤ Nat.max ty.bDepth val.bDepth := Nat.le_max_left _ _
    have hm4 : val.bDepth ≤ Nat.max ty.bDepth val.bDepth := Nat.le_max_right _ _
    by_cases hl : (Expr.letE n ty bi val body).hasLocals = true
    · rw [Expr.abstractCore] at hvb ⊢
      rw [if_neg (by simp [hl])] at hvb ⊢
      simp only [Expr.varBound, Nat.max_le, safeMinusOne] at hvb
      rw [ihty o hc.1.1 (by omega) hvb.1.1, ihval o hc.1.2 (by omega) hvb.1.2,
        ihbody (o + 1) hc.2 (by omega) (by omega)]
    · rw [Expr.abstractCore]; rw [if_pos (by simp [hl])]

theorem roundtripCore (L : List Expr) :
    ∀ (e : Expr) (o : Nat), e.closedAt o = true → o + e.bDepth + L.length ≤ 65535 →
      e.localsCoherent L = true →
      (e.abstractCore L o).instantiateCore L o = e := by
  intro e
  induction e with
  | var i =>
    intro o hc hs _
    have h1 : (Expr.var i).abstractCore L o = .var i := by
      simp [Expr.abstractCore, Expr.hasLocals]
    rw [h1]
    refine instantiateCore_of_vb_le L (varBound_le_of_closedAt (.var i) o hc ?_)
    simp only [Expr.bDepth] at hs ⊢
    omega
  | sort lvl =>
    intro o _ _ _
    have h1 : (Expr.sort lvl).abstractCore L o = .sort lvl := by
      simp [Expr.abstractCore, Expr.hasLocals]
    rw [h1]
    exact instantiateCore_of_vb_le L (by simp [Expr.varBound])
  | const n ls =>
    intro o _ _ _
    have h1 : (Expr.const n ls).abstractCore L o = .const n ls := by
      simp [Expr.abstractCore, Expr.hasLocals]
    rw [h1]
    exact instantiateCore_of_vb_le L (by simp [Expr.varBound])
  | lc n ty bi s =>
    intro o _ hs hcoh
    rw [Expr.abstractCore]
    rw [if_neg (by simp [Expr.hasLocals])]
    cases hp : posBySerial s L with
    | none =>
      exact instantiateCore_of_vb_le L (by simp [Expr.varBound])
    | some pos =>
      obtain ⟨hlt, l, hget, hser⟩ := posBySerial_spec s L pos hp
      simp only [Expr.bDepth] at hs
      have hvb : ¬ ((Expr.var (pos + o)).varBound ≤ o) := by
        simp only [Expr.varBound]; omega
      rw [Expr.instantiateCore]
      rw [if_neg hvb]
      have hidx : pos + o - o = pos := by omega
      rw [hidx, hget]
      simp only [Expr.localsCoherent, List.all_eq_true] at hcoh
      have hl := hcoh l (List.get?_mem hget)
      cases l with
      | lc n2 t2 b2 s2 =>
        simp only at hser
        simp only [decide_eq_true_eq] at hl
        obtain ⟨e1, e2, e3⟩ := hl hser
        simp [e1, e2, e3, hser]
      | var _ => exact absurd hser (by simp)
      | sort _ => exact absurd hser (by simp)
      | const _ _ => exact absurd hser (by simp)
      | app _ _ => exact absurd hser (by simp)
      | lam _ _ _ _ => exact absurd hser (by simp)
      | pi _ _ _ _ => exact absurd hser (by simp)
      | letE _ _ _ _ _ => exact absurd hser (by simp)
  | app f a ihf iha =>
    intro o hc hs hcoh
    simp only [Expr.closedAt, Bool.and_eq_true] at hc
    simp only [Expr.localsCoherent, Bool.and_eq_true] at hcoh
    simp only [Expr.bDepth] at hs
    have hm1 : f.bDepth ≤ Nat.max f.bDepth a.bDepth := Nat.le_max_left _ _
    have hm2 : a.bDepth ≤ Nat.max f.bDepth a.bDepth := Nat.le_max_right _ _
    by_cases hloc : (Expr.app f a).hasLocals = true
    · have habs : (Expr.app f a).abstractCore L o
          = .app (f.abstractCore L o) (a.abstractCore L o) := by
        rw [Expr.abstractCore]; rw [if_neg (by simp [hloc])]
      rw [habs]
      by_cases hvb : (Expr.app (f.abstractCore L o) (a.abstractCore L o)).varBound ≤ o
      · rw [instantiateCore_of_vb_le L hvb]
        have hinv := abstractCore_varBound_inv L (Expr.app f a) o
          (by simp [Expr.closedAt, hc.1, hc.2])
          (by simp only [Expr.bDepth]; omega)
          (by rw [habs]; exact hvb)
        rw [habs] at hinv; exact hinv
      · rw [Expr.instantiateCore]
        rw [if_neg hvb]
        rw [ihf o hc.1 (by omega) hcoh.1, iha o hc.2 (by omega) hcoh.2]
    · have habs : (Expr.app f a).abstractCore L o = .app f a := by
        rw [Expr.abstractCore]; rw [if_pos (by simp [hloc])]
      rw [habs]
      refine instantiateCore_of_vb_le L (varBound_le_of_closedAt _ o ?_ ?_)
      · simp [Expr.closedAt, hc.1, hc.2]
      · simp only [Expr.bDepth]; omega
  | lam n ty bi body ihty ihbody =>
    intro o hc hs hcoh
    simp only [Expr.closedAt, Bool.and_eq_true] at hc
    simp only [Expr.localsCoherent, Bool.and_eq_true] at hcoh
    simp only [Expr.bDepth] at hs
    have hm1 : ty.bDepth ≤ Nat.max ty.bDepth (body.bDepth + 1) := Nat.le_max_left _ _
    have hm2 : body.bDepth + 1 ≤ Nat.max ty.bDepth (body.bDepth + 1) := Nat.le_max_right _ _
    by_cases hloc : (Expr.lam n ty bi body).hasLocals = true
    · have habs : (Expr.lam n ty bi body).abstractCore L o
          = .lam n (ty.abstractCore L o) bi (body.abstractCore L (o + 1)) := by
        rw [Expr.abstractCore]; rw [if_neg (by simp [hloc])]
      rw [habs]
      by_cases hvb : (Expr.lam n (ty.abstractCore L o) bi (body.abstractCore L (o + 1))).varBound ≤ o
      · rw [instantiateCore_of_vb_le L hvb]
        have hinv := abstractCore_varBound_inv L (Expr.lam n ty bi body) o
          (by simp [Expr.closedAt, hc.1, hc.2])
          (by simp only [Expr.bDepth]; omega)
          (by rw [habs]; exact hvb)
        rw [habs] at hinv; exact hinv
      · rw [Expr.instantiateCore]
        rw [if_neg hvb]
        rw [ihty o hc.1 (by omega) hcoh.1, ihbody (o + 1) hc.2 (by omega) hcoh.2]
    · have habs : (Expr.lam n ty bi body).abstractCore L o = .lam n ty bi body := by
        rw [Expr.abstractCore]; rw [if_pos (by simp [hloc])]
      rw [habs]
      refine instantiateCore_of_vb_le L (varBound_le_of_closedAt _ o ?_ ?_)
      · simp [Expr.closedAt, hc.1, hc.2]
      · simp only [Expr.bDepth]; omega
  | pi n ty bi body ihty ihbody =>
    intro o hc hs hcoh
    simp only [Expr.closedAt, Bool.and_eq_true] at hc
    simp only [Expr.localsCoherent, Bool.and_eq_true] at hcoh
    simp only [Expr.bDepth] at hs
    have hm1 : ty.bDepth ≤ Nat.max ty.bDepth (body.bDepth + 1) := Nat.le_max_left _ _
    have hm2 : body.bDepth + 1 ≤ Nat.max ty.bDepth (body.bDepth + 1) := Nat.le_max_right _ _
    by_cases hloc : (Expr.pi n ty bi body).hasLocals = true
    · have habs : (Expr.pi n ty bi body).abstractCore L o
          = .pi n (ty.abstractCore L o) bi (body.abstractCore L (o + 1)) := by
        rw [Expr.abstractCore]; rw [if_neg (by simp [hloc])]
      rw [habs]
      by_cases hvb : (Expr.pi n (ty.abstractCore L o) bi (body.abstractCore L (o + 1))).varBound ≤ o
      · rw [instantiateCore_of_vb_le L hvb]
        have hinv := abstractCore_varBound_inv L (Expr.pi n ty bi body) o
          (by simp [Expr.closedAt, hc.1, hc.2])
          (by simp only [Expr.bDepth]; omega)
          (by rw [habs]; exact hvb)
        rw [habs] at hinv; exact hinv
      · rw [Expr.instantiateCore]
        rw [if_neg hvb]
        rw [ihty o hc.1 (by omega) hcoh.1, ihbody (o + 1) hc.2 (by omega) hcoh.2]
    · have habs : (Expr.pi n ty bi body).abstractCore L o = .pi n ty bi body := by
        rw [Expr.abstractCore]; rw [if_pos (by simp [hloc])]
      rw [habs]
      refine instantiateCore_of_vb_le L (varBound_le_of_closedAt _ o ?_ ?_)
      · simp [Expr.closedAt, hc.1, hc.2]
      · simp only [Expr.bDepth]; omega
  | letE n ty bi val body ihty ihval ihbody =>
    intro o hc hs hcoh
    simp only [Expr.closedAt, Bool.and_eq_true] at hc
    simp only [Expr.localsCoherent, Bool.and_eq_true] at hcoh
    simp only [Expr.bDepth] at hs
    have hm1 : Nat.max ty.bDepth val.bDepth ≤
        Nat.max (Nat.max ty.bDepth val.bDepth) (body.bDepth + 1) := Nat.le_max_left _ _
    have hm2 : body.bDepth + 1 ≤
        Nat.max (Nat.max ty.bDepth val.bDepth) (body.bDepth + 1) := Nat.le_max_right _ _
    have hm3 : ty.bDepth ≤ Nat.max ty.bDepth val.bDepth := Nat.le_max_left _ _
    have hm4 : val.bDepth ≤ Nat.max ty.bDepth val.bDepth := Nat.le_max_right _ _
    by_cases hloc : (Expr.letE n ty bi val body).hasLocals = true
    · have habs : (Expr.letE n ty bi val body).abstractCore L o
          = .letE n (ty.abstractCore L o) bi (val.abstractCore L o)
              (body.abstractCore L (o + 1)) := by
        rw [Expr.abstractCore]; rw [if_neg (by simp [hloc])]
      rw [habs]
      by_cases hvb : (Expr.letE n (ty.abstractCore L o) bi (val.abstractCore L o)
          (body.abstractCore L (o + 1))).varBound ≤ o
      · rw [instantiateCore_of_vb_le L hvb]
        have hinv := abstractCore_varBound_inv L (Expr.letE n ty bi val body) o
          (by simp [Expr.closedAt, hc.1.1, hc.1.2, hc.2])
          (by simp only [Expr.bDepth]; omega)
          (by rw [habs]; exact hvb)
        rw [habs] at hinv; exact hinv
      · rw [Expr.instantiateCore]
        rw [if_neg hvb]
        rw [ihty o hc.1.1 (by omega) hcoh.1.1, ihval o hc.1.2 (by omega) hcoh.1.2,
          ihbody (o + 1) hc.2 (by omega) hcoh.2]
    · have habs : (Expr.letE n ty bi val body).abstractCore L o = .letE n ty bi val body := by
        rw [Expr.abstractCore]; rw [if_pos (by simp [hloc])]
      rw [habs]
      refine instantiateCore_of_vb_le L (varBound_le_of_closedAt _ o ?_ ?_)
      · simp [Expr.closedAt, hc.1.1, hc.1.2, hc.2]
      · simp only [Expr.bDepth]; omega

/-- C5: Abstraction/instantiation round trip, amended.  As stated
(`instantiate(abstract(e, L), L) = e` for every expression `e` and pairwise
distinct list of locals `L`) the claim fails — see the counterexample with
`e = Var 0` — because `instantiate` rewrites pre-existing loose bound
variables of `e` that `abstract` never created.  The round trip does hold
provided (i) `e` has no loose bound variables, (ii) every `Local` of `e`
sharing a serial with an entry of `L` is that entry (the program's
serial-uniqueness invariant), and (iii) the binder depth of `e` plus `|L|`
stays below 2^16, so that the `u16` `var_bound` cache consulted by
`instantiate`'s short-circuit is exact on the abstracted term. -/
theorem c5_abstract_instantiate_round_trip
    (e : Expr) (L : List Expr)
    (_hlocals : allLocalsB L = true)
    (_hdistinct : distinctSerials L = true)
    (hclosed : e.closedAt 0 = true)
    (hcoherent : e.localsCoherent L = true)
    (hsmall : e.bDepth + L.length ≤ 65535) :
    (e.abstractL L).instantiate L = e := by
  by_cases hl : e.hasLocals = true
  · have h1 : e.abstractL L = e.abstractCore L 0 := by
      rw [Expr.abstractL]; rw [if_neg (by simp [hl])]
    rw [h1]
    simp only [Expr.instantiate]
    exact roundtripCore L e 0 hclosed (by omega) hcoherent
  · have h1 : e.abstractL L = e := by
      rw [Expr.abstractL]; rw [if_pos (by simp [hl])]
    rw [h1]
    simp only [Expr.instantiate]
    exact instantiateCore_of_vb_le L (varBound_le_of_closedAt e 0 hclosed (by omega))

theorem c5_roundtrip_witness :
    allLocalsB [Expr.lc .anon (.sort .zero) .default 5] = true ∧
    distinctSerials [Expr.lc .anon (.sort .zero) .default 5] = true ∧
    (Expr.app (.lam .anon (.sort .zero) .default (.var 0))
        (.lc .anon (.sort .zero) .default 5)).closedAt 0 = true ∧
    (Expr.app (.lam .anon (.sort .zero) .default (.var 0))
        (.lc .anon (.sort .zero) .default 5)).localsCoherent
        [Expr.lc .anon (.sort .zero) .default 5] = true ∧
    (Expr.app (.lam .anon (.sort .zero) .default (.var 0))
        (.lc .anon (.sort .zero) .default 5)).bDepth +
        [Expr.lc .anon (.sort .zero) .default 5].length ≤ 65535 ∧
    ((Expr.app (.lam .anon (.sort .zero) .default (.var 0))
        (.lc .anon (.sort .zero) .default 5)).abstractL
        [Expr.lc .anon (.sort .zero) .default 5]).instantiate
        [Expr.lc .anon (.sort .zero) .default 5]
      = Expr.app (.lam .anon (.sort .zero) .default (.var 0))
        (.lc .anon (.sort .zero) .default 5) :=
  ⟨by decide, by decide, by decide, by decide, by decide,
    c5_abstract_instantiate_round_trip _ _ (by decide) (by decide) (by decide)
      (by decide) (by decide)⟩

/-- C5 counterexample: for `e = Var 0` and the singleton list holding one
local (pairwise distinct, all locals), `instantiate(abstract(e, L), L) ≠ e`:
`abstract` leaves `Var 0` untouched (`e` has no locals) and `instantiate`
then replaces `Var 0` by the local. -/
theorem c5_counterexample :
    allLocalsB [Expr.lc .anon (.sort .zero) .default 7] = true ∧
    distinctSerials [Expr.lc .anon (.sort .zero) .default 7] = true ∧
    ¬ (((Expr.var 0).abstractL [Expr.lc .anon (.sort .zero) .default 7]).instantiate
        [Expr.lc .anon (.sort .zero) .default 7] = Expr.var 0) := by
  decide

/-- C6: cache-record invariant, amended.  The `has_local` half holds
unconditionally.  The `var_bound` half — `var_bound ≥ i+1` for every `Var i`
occurring at binder depth 0 — holds provided every De Bruijn index literally
occurring in the expression is below 2^16 − 1; as stated it fails because
`mk_var` stores the index bound in a `u16` (`dbj as u16 + 1`), which truncates,
see the counterexample at `Var 65536`. -/
theorem c6_cache_record_invariant (e : Expr) :
    (e.smallIdx = true → ∀ i, LooseVarOccurs e i → i + 1 ≤ e.varBound) ∧
    (e.hasLocals = true ↔ LocalOccurs e) := by
  induction e with
  | var j =>
    refine ⟨?_, ?_⟩
    · intro hsm i hocc
      cases hocc
      simp only [Expr.smallIdx, decide_eq_true_eq] at hsm
      simp only [Expr.varBound]
      omega
    · constructor
      · intro h; simp [Expr.hasLocals] at h
      · intro h; cases h
  | sort _ =>
    refine ⟨?_, ?_⟩
    · intro _ i hocc; cases hocc
    · constructor
      · intro h; simp [Expr.hasLocals] at h
      · intro h; cases h
  | const _ _ =>
    refine ⟨?_, ?_⟩
    · intro _ i hocc; cases hocc
    · constructor
      · intro h; simp [Expr.hasLocals] at h
      · intro h; cases h
  | lc n ty bi s =>
    refine ⟨?_, ?_⟩
    · intro _ i hocc; cases hocc
    · constructor
      · intro _; exact LocalOccurs.lcSelf n ty bi s
      · intro _; simp [Expr.hasLocals]
  | app f a ihf iha =>
    refine ⟨?_, ?_⟩
    · intro hsm i hocc
      simp only [Expr.smallIdx, Bool.and_eq_true] at hsm
      simp only [Expr.varBound]
      cases hocc with
      | appFn h => exact (ihf.1 hsm.1 i h).trans (Nat.le_max_left _ _)
      | appArg h => exact (iha.1 hsm.2 i h).trans (Nat.le_max_right _ _)
    · simp only [Expr.hasLocals, Bool.or_eq_true]
      constructor
      · rintro (h | h)
        · exact LocalOccurs.appFn (ihf.2.mp h)
        · exact LocalOccurs.appArg (iha.2.mp h)
      · intro h
        cases h with
        | appFn h => exact Or.inl (ihf.2.mpr h)
        | appArg h => exact Or.inr (iha.2.mpr h)
  | lam n ty bi body ihty ihbody =>
    refine ⟨?_, ?_⟩
    · intro hsm i hocc
      simp only [Expr.smallIdx, Bool.and_eq_true] at hsm
      simp only [Expr.varBound, safeMinusOne]
      cases hocc with
      | lamTy h => exact (ihty.1 hsm.1 i h).trans (Nat.le_max_left _ _)
      | lamBody h =>
        have h2 := ihbody.1 hsm.2 (i + 1) h
        have h4 : i + 1 ≤ body.varBound - 1 := by omega
        exact h4.trans (Nat.le_max_right _ _)
    · simp only [Expr.hasLocals, Bool.or_eq_true]
      constructor
      · rintro (h | h)
        · exact LocalOccurs.lamTy (ihty.2.mp h)
        · exact LocalOccurs.lamBody (ihbody.2.mp h)
      · intro h
        cases h with
        | lamTy h => exact Or.inl (ihty.2.mpr h)
        | lamBody h => exact Or.inr (ihbody.2.mpr h)
  | pi n ty bi body ihty ihbody =>
    refine ⟨?_, ?_⟩
    · intro hsm i hocc
      simp only [Expr.smallIdx, Bool.and_eq_true] at hsm
      simp only [Expr.varBound, safeMinusOne]
      cases hocc with
      | piTy h => exact (ihty.1 hsm.1 i h).trans (Nat.le_max_left _ _)
      | piBody h =>
        have h2 := ihbody.1 hsm.2 (i + 1) h
        have h4 : i + 1 ≤ body.varBound - 1 := by omega
        exact h4.trans (Nat.le_max_right _ _)
    · simp only [Expr.hasLocals, Bool.or_eq_true]
      constructor
      · rintro (h | h)
        · exact LocalOccurs.piTy (ihty.2.mp h)
        · exact LocalOccurs.piBody (ihbody.2.mp h)
      · intro h
        cases h with
        | piTy h => exact Or.inl (ihty.2.mpr h)
        | piBody h => exact Or.inr (ihbody.2.mpr h)
  | letE n ty bi val body ihty ihval ihbody =>
    refine ⟨?_, ?_⟩
    · intro hsm i hocc
      simp only [Expr.smallIdx, Bool.and_eq_true] at hsm
      simp only [Expr.varBound, safeMinusOne]
      have h3 : ty.varBound ≤ Nat.max ty.varBound val.varBound := Nat.le_max_left _ _
      have h4 : val.varBound ≤ Nat.max ty.varBound val.varBound := Nat.le_max_right _ _
      have h5 : Nat.max ty.varBound val.varBound ≤
          Nat.max (Nat.max ty.varBound val.varBound) (body.varBound - 1) := Nat.le_max_left _ _
      have h6 : body.varBound - 1 ≤
          Nat.max (Nat.max ty.varBound val.varBound) (body.varBound - 1) := Nat.le_max_right _ _
      cases hocc with
      | letTy h => exact (ihty.1 hsm.1.1 i h).trans (h3.trans h5)
      | letVal h => exact (ihval.1 hsm.1.2 i h).trans (h4.trans h5)
      | letBody h =>
        have h2 := ihbody.1 hsm.2 (i + 1) h
        have h7 : i + 1 ≤ body.varBound - 1 := by omega
        exact h7.trans h6
    · simp only [Expr.hasLocals, Bool.or_eq_true]
      constructor
      · rintro ((h | h) | h)
        · exact LocalOccurs.letTy (ihty.2.mp h)
        · exact LocalOccurs.letBody (ihbody.2.mp h)
        · exact LocalOccurs.letVal (ihval.2.mp h)
      · intro h
        cases h with
        | letTy h => exact Or.inl (Or.inl (ihty.2.mpr h))
        | letVal h => exact Or.inr (ihval.2.mpr h)
        | letBody h => exact Or.inl (Or.inr (ihbody.2.mpr h))

theorem c6_cache_witness :
    (Expr.lam .anon (.var 2) .default (.var 5)).smallIdx = true ∧
    4 + 1 ≤ (Expr.lam .anon (.var 2) .default (.var 5)).varBound ∧
    ((Expr.lam .anon (.var 2) .default (.var 5)).hasLocals = true ↔
      LocalOccurs (Expr.lam .anon (.var 2) .default (.var 5))) :=
  ⟨by decide,
    (c6_cache_record_invariant (Expr.lam .anon (.var 2) .default (.var 5))).1 (by decide) 4
      (LooseVarOccurs.lamBody (LooseVarOccurs.var 5)),
    (c6_cache_record_invariant (Expr.lam .anon (.var 2) .default (.var 5))).2⟩

/-- C6 counterexample: `Var 65536` occurs in itself at binder depth 0 with
index 65536, but the cached bound is `(65536 as u16) + 1 = 1 < 65537`. -/
theorem c6_counterexample :
    LooseVarOccurs (Expr.var 65536) 65536 ∧
    ¬ (65536 + 1 ≤ (Expr.var 65536).varBound) :=
  ⟨LooseVarOccurs.var 65536, by decide⟩

/-- C7: universe order on an `imax` whose right operand is a parameter.
Whenever `leq_core` reaches such a comparison (left conjunct: the left side is
`imax a (param p)` and no earlier arm preempts — the right side is not a
`succ`, is not `zero` with a negative offset, and is not the identical
`imax`; right conjunct: symmetrically for `imax x (param q)` on the right),
it delegates to `ensure_imax_leq`, which substitutes both `p := 0` and
`p := succ p` into BOTH sides, simplifies each, and returns true exactly when
the inequality holds under both substitutions. -/
theorem c7_imax_param_case_split (f : Nat) :
    (∀ (a : Level) (p : Name) (r : Level) (diff : Int),
      (∀ s, r ≠ .succ s) →
      ¬(r = .zero ∧ diff < 0) →
      r ≠ .imax a (.param p) →
      leqCore (f + 1) (.imax a (.param p)) r diff
        = ensureImaxLeq (leqCore f) (.param p) (.imax a (.param p)) r diff) ∧
    (∀ (l x : Level) (q : Name) (diff : Int),
      (∀ s, l ≠ .succ s) →
      (∀ u v, l ≠ .max u v) →
      ¬(l = .zero ∧ 0 ≤ diff) →
      (∀ u m, l ≠ .imax u (.param m)) →
      leqCore (f + 1) l (.imax x (.param q)) diff
        = ensureImaxLeq (leqCore f) (.param q) l (.imax x (.param q)) diff) := by
  constructor
  · intro a p r diff h1 h2 h3
    cases r with
    | zero =>
      have hd : ¬ (diff < 0) := fun hlt => h2 ⟨rfl, hlt⟩
      simp only [leqCore]
      rw [if_neg hd]
      simp [Level.isParam]
    | succ s => exact absurd rfl (h1 s)
    | param n => simp [leqCore, Level.isParam]
    | max x y => simp [leqCore, Level.isParam]
    | imax x y =>
      have hne : ¬ (a = x ∧ Level.param p = y) := by
        rintro ⟨rfl, rfl⟩
        exact h3 rfl
      simp only [leqCore]
      rw [if_neg hne]
      simp [Level.isParam]
  · intro l x q diff h1 h2 h3 h4
    cases l with
    | zero =>
      have hd : ¬ (diff ≥ 0) := fun hge => h3 ⟨rfl, hge⟩
      simp only [leqCore]
      rw [if_neg hd]
      simp [Level.isParam]
    | succ s => exact absurd rfl (h1 s)
    | param n => simp [leqCore, Level.isParam]
    | max u v => exact absurd rfl (h2 u v)
    | imax u v =>
      have hne : ¬ (u = x ∧ v = Level.param q) := by
        rintro ⟨_, rfl⟩
        exact h4 u q rfl
      simp only [leqCore]
      rw [if_neg hne]
      cases v with
      | param m => exact absurd rfl (h4 u m)
      | zero => simp [Level.isParam]
      | succ _ => simp [Level.isParam]
      | max _ _ => simp [Level.isParam]
      | imax _ _ => simp [Level.isParam]

theorem c7_imax_param_witness :
    (∀ s, Level.zero ≠ Level.succ s) ∧
    ¬(Level.zero = Level.zero ∧ (0 : Int) < 0) ∧
    Level.zero ≠ Level.imax (.param (.num .anon 1)) (.param (.num .anon 2)) ∧
    leqCore 6 (.imax (.param (.num .anon 1)) (.param (.num .anon 2))) Level.zero 0
      = ensureImaxLeq (leqCore 5) (.param (.num .anon 2))
          (.imax (.param (.num .anon 1)) (.param (.num .anon 2))) Level.zero 0 :=
  ⟨fun s => by simp, by simp, by simp,
    (c7_imax_param_case_split 5).1 (.param (.num .anon 1)) (.num .anon 2) Level.zero 0
      (fun s => by simp) (by simp) (by simp)⟩

theorem unfoldAppsRevAux_fst (e : Expr) :
    ∀ acc, (e.unfoldAppsRevAux acc).1 = e.unfoldAppsFn := by
  induction e with
  | app f a ih _ =>
    intro acc
    rw [Expr.unfoldAppsRevAux, Expr.unfoldAppsFn]
    exact ih _
  | var d => intro acc; rfl
  | sort l => intro acc; rfl
  | const n ls => intro acc; rfl
  | lam n ty bi body => intro acc; rfl
  | pi n ty bi body => intro acc; rfl
  | letE n ty bi v body => intro acc; rfl
  | lc n ty bi s => intro acc; rfl

theorem unfoldApps_fst (e : Expr) : e.unfoldApps.1 = e.unfoldAppsFn := by
  rw [Expr.unfoldApps, Expr.unfoldAppsRev]
  exact unfoldAppsRevAux_fst e []

theorem unfoldAppsRevAux_foldlApps (args : List Expr) :
    ∀ (e : Expr) (acc : List Expr),
      (e.foldlApps args).unfoldAppsRevAux acc = e.unfoldAppsRevAux (args ++ acc) := by
  induction args with
  | nil => intro e acc; rfl
  | cons a rest ih =>
    intro e acc
    show ((Expr.app e a).foldlApps rest).unfoldAppsRevAux acc = _
    rw [ih (Expr.app e a) acc]
    rfl

theorem unfoldAppsRev_foldlApps (e : Expr) (args : List Expr) :
    (e.foldlApps args).unfoldAppsRev = e.unfoldAppsRevAux args := by
  rw [Expr.unfoldAppsRev, unfoldAppsRevAux_foldlApps]
  simp

/-- C10: `whnf_core` treats a `Sort`-headed expression (even one applied to
arguments) in its first match arm and returns the sort with its level
simplified; `whnf` then returns the same, as `Sort` never δ-unfolds. -/
theorem c10_whnf_simplifies_sort_levels (env : Env) (f : Nat) (e : Expr)
    (L : Level) (cheap : Cheap) (st : Tcs) (h : e.unfoldAppsFn = .sort L) :
    whnfCore env (f + 1) e cheap st = .ok (mkSort L.simplify, st) ∧
    whnf env (f + 2) e st = .ok (mkSort L.simplify, st) := by
  have h1 : e.unfoldApps = (Expr.sort L, e.unfoldApps.2) := by
    have := (unfoldApps_fst e).trans h
    exact Prod.ext this rfl
  have hcore : ∀ c, whnfCore env (f + 1) e c st = .ok (mkSort L.simplify, st) := by
    intro c
    show (tcFns env (f + 1)).whnfCore e c st = _
    rw [tcFns]
    show whnfCoreF (tcFns env f) e c st = _
    rw [whnfCoreF, h1]
    rfl
  refine ⟨hcore cheap, ?_⟩
  show (tcFns env (f + 2)).whnf e st = _
  rw [tcFns]
  show whnfF env (tcFns env (f + 1)) e st = _
  rw [whnfF]
  rw [show (tcFns env (f + 1)).whnfCore e .cheapFalse st = .ok (mkSort L.simplify, st) from
    hcore .cheapFalse]
  rfl

/-- C10 witness: `whnf (Sort (imax u 0))` is `Sort 0`. -/
theorem c10_witness :
    whnf ⟨[], false⟩ 2 (mkSort (mkImax (mkParam (.str .anon "u")) mkZero)) ⟨0, none⟩
      = .ok (mkSort mkZero, ⟨0, none⟩) ∧
    (mkSort (mkImax (mkParam (.str .anon "u")) mkZero)).unfoldAppsFn
      = .sort (mkImax (mkParam (.str .anon "u")) mkZero) :=
  ⟨(c10_whnf_simplifies_sort_levels ⟨[], false⟩ 0
      (mkSort (mkImax (mkParam (.str .anon "u")) mkZero))
      (mkImax (mkParam (.str .anon "u")) mkZero) .cheapFalse ⟨0, none⟩ rfl).2, rfl⟩

theorem exceptBind_ok {α β : Type} (a : α) (g : α → Except String β) :
    (Except.ok a >>= g : Except String β) = g a := rfl

theorem exceptBind_pure {α β : Type} (a : α) (g : α → Except String β) :
    ((pure a : Except String α) >>= g) = g a := rfl

/-- C2: quotient ι-reduction.  (1) With `quot_is_init` false nothing reduces.
(2) A `quot.lift` application with six-or-more arguments whose sixth whnfs to
a `quot.mk` application of `a` contracts to the fourth argument applied to
`a`, trailing arguments preserved.  (3) `quot.ind` likewise at five
arguments.  (4) `whnf_core` rewrites to the contractum produced by
`reduce_quot_rec` and continues on it. -/
theorem c2_quot_iota_reduction (env : Env) (f : Nat) :
    (∀ e st, env.quotIsInit = false →
      reduceQuotRec env (f + 1) e st = .ok (none, st)) ∧
    (∀ lvls A R B fb h major mfn a tr st st1, env.quotIsInit = true →
      whnf env f major st = .ok (Expr.app mfn a, st1) →
      (Expr.app mfn a).unfoldAppsFn.getConstName = some qmkName →
      reduceQuotRec env (f + 1)
          ((mkConst qliftName lvls).foldlApps (A :: R :: B :: fb :: h :: major :: tr)) st
        = .ok (some ((mkApp fb a).foldlApps tr), st1)) ∧
    (∀ lvls a0 a1 a2 fb major mfn a tr st st1, env.quotIsInit = true →
      whnf env f major st = .ok (Expr.app mfn a, st1) →
      (Expr.app mfn a).unfoldAppsFn.getConstName = some qmkName →
      reduceQuotRec env (f + 1)
          ((mkConst qindName lvls).foldlApps (a0 :: a1 :: a2 :: fb :: major :: tr)) st
        = .ok (some ((mkApp fb a).foldlApps tr), st1)) ∧
    (∀ e r ro cheap st st1 st2, e.unfoldAppsFn.isConst = true →
      reduceQuotRec env (f + 1) e st = .ok (some r, st1) →
      inductiveReduceRec env (f + 1) e cheap st1 = .ok (ro, st2) →
      whnfCore env (f + 2) e cheap st = whnfCore env (f + 1) r cheap st2) := by
  refine ⟨?_, ?_, ?_, ?_⟩
  · intro e st hq
    show (tcFns env (f + 1)).reduceQuotRec e st = _
    rw [tcFns]
    show reduceQuotRecF env (tcFns env f) e st = _
    rw [reduceQuotRecF]
    simp [hq]
    rfl
  · intro lvls A R B fb h major mfn a tr st st1 hq hw hname
    have hw' : (tcFns env f).whnf major st = .ok (Expr.app mfn a, st1) := hw
    show (tcFns env (f + 1)).reduceQuotRec _ st = _
    rw [tcFns]
    show reduceQuotRecF env (tcFns env f) _ st = _
    have hu := unfoldAppsRev_foldlApps (mkConst qliftName lvls)
      (A :: R :: B :: fb :: h :: major :: tr)
    rw [reduceQuotRecF, hu]
    have hlen : ¬ ((A :: R :: B :: fb :: h :: major :: tr).length ≤ 5) := by
      simp [List.length_cons]
    cases tr with
    | nil =>
      simp [hq, hlen, Expr.unfoldAppsRevAux, hw', hname, Expr.foldlApps, exceptBind_ok]
      rfl
    | cons x xs =>
      have hgt : (A :: R :: B :: fb :: h :: major :: x :: xs).length > 6 := by
        simp [List.length_cons]
      simp [hq, hlen, Expr.unfoldAppsRevAux, hw', hname, hgt, Expr.foldlApps,
        List.length_cons, Nat.add_sub_cancel, List.take_succ_cons, List.take_length,
        exceptBind_ok]
      rfl
  · intro lvls a0 a1 a2 fb major mfn a tr st st1 hq hw hname
    have hw' : (tcFns env f).whnf major st = .ok (Expr.app mfn a, st1) := hw
    show (tcFns env (f + 1)).reduceQuotRec _ st = _
    rw [tcFns]
    show reduceQuotRecF env (tcFns env f) _ st = _
    have hu := unfoldAppsRev_foldlApps (mkConst qindName lvls)
      (a0 :: a1 :: a2 :: fb :: major :: tr)
    rw [reduceQuotRecF, hu]
    have hlen : ¬ ((a0 :: a1 :: a2 :: fb :: major :: tr).length ≤ 4) := by
      simp [List.length_cons]
    cases tr with
    | nil =>
      simp [hq, hlen, Expr.unfoldAppsRevAux, hw', hname, Expr.foldlApps, exceptBind_ok,
        (show qindName ≠ qliftName from by decide)]
      rfl
    | cons x xs =>
      have hgt : (a0 :: a1 :: a2 :: fb :: major :: x :: xs).length > 5 := by
        simp [List.length_cons]
      simp [hq, hlen, Expr.unfoldAppsRevAux, hw', hname, hgt, Expr.foldlApps,
        List.length_cons, Nat.add_sub_cancel, List.take_succ_cons, List.take_length,
        exceptBind_ok, (show qindName ≠ qliftName from by decide)]
      rfl
  · intro e r ro cheap st st1 st2 hc hr hi
    obtain ⟨n, ls, hfn⟩ : ∃ n ls, e.unfoldAppsFn = Expr.const n ls := by
      cases hfe : e.unfoldAppsFn <;> rw [hfe] at hc <;>
        first
          | exact ⟨_, _, rfl⟩
          | simp [Expr.isConst] at hc
    have hu : e.unfoldApps = (Expr.const n ls, e.unfoldApps.2) :=
      Prod.ext ((unfoldApps_fst e).trans hfn) rfl
    have hr' : (tcFns env (f + 1)).reduceQuotRec e st = .ok (some r, st1) := hr
    have hi' : (tcFns env (f + 1)).inductiveReduceRec e cheap st1 = .ok (ro, st2) := hi
    show (tcFns env (f + 2)).whnfCore e cheap st = _
    rw [tcFns]
    show whnfCoreF (tcFns env (f + 1)) e cheap st = _
    rw [whnfCoreF, hu]
    show whnfCoreOwise (tcFns env (f + 1)) e cheap st = _
    rw [whnfCoreOwise, hr']
    simp only [exceptBind_ok]
    rw [hi']
    simp only [exceptBind_ok]
    rfl

/-- C2 witness: with the quotient block processed, a seven-argument
`quot.lift` application over `quot.mk` contracts and keeps the trailing
argument; with it unprocessed nothing happens; `whnf_core` continues on the
contractum. -/
theorem c2_witness :
    reduceQuotRec ⟨[], true⟩ 4
        ((mkConst qliftName []).foldlApps
          [mkVar 10, mkVar 11, mkVar 12, mkVar 13, mkVar 14,
            mkApp (mkConst qmkName []) (mkVar 7), mkVar 15]) ⟨0, none⟩
      = .ok (some ((mkApp (mkVar 13) (mkVar 7)).foldlApps [mkVar 15]), ⟨0, none⟩) ∧
    reduceQuotRec ⟨[], true⟩ 4
        ((mkConst qindName []).foldlApps
          [mkVar 10, mkVar 11, mkVar 13, mkVar 13,
            mkApp (mkConst qmkName []) (mkVar 7)]) ⟨0, none⟩
      = .ok (some (mkApp (mkVar 13) (mkVar 7)), ⟨0, none⟩) ∧
    reduceQuotRec ⟨[], false⟩ 4
        ((mkConst qliftName []).foldlApps
          [mkVar 10, mkVar 11, mkVar 12, mkVar 13, mkVar 14,
            mkApp (mkConst qmkName []) (mkVar 7), mkVar 15]) ⟨0, none⟩
      = .ok (none, ⟨0, none⟩) :=
  ⟨(c2_quot_iota_reduction ⟨[], true⟩ 3).2.1 [] (mkVar 10) (mkVar 11) (mkVar 12)
      (mkVar 13) (mkVar 14) (mkApp (mkConst qmkName []) (mkVar 7))
      (mkConst qmkName []) (mkVar 7) [mkVar 15] ⟨0, none⟩ ⟨0, none⟩ rfl rfl rfl,
   (c2_quot_iota_reduction ⟨[], true⟩ 3).2.2.1 [] (mkVar 10) (mkVar 11) (mkVar 13)
      (mkVar 13) (mkApp (mkConst qmkName []) (mkVar 7))
      (mkConst qmkName []) (mkVar 7) [] ⟨0, none⟩ ⟨0, none⟩ rfl rfl rfl,
   (c2_quot_iota_reduction ⟨[], false⟩ 3).1 _ ⟨0, none⟩ rfl⟩

theorem shiftSpec_closed : ∀ (e : Expr) (c : Nat), e.closedAt c = true → e.shiftSpec c = e
  | .var i, c, h => by
    simp [Expr.closedAt] at h
    simp [Expr.shiftSpec, Nat.not_le.mpr h]
  | .sort _, _, _ => rfl
  | .const _ _, _, _ => rfl
  | .lc _ _ _ _, _, _ => rfl
  | .app f a, c, h => by
    simp only [Expr.closedAt, Bool.and_eq_true] at h
    simp [Expr.shiftSpec, shiftSpec_closed f c h.1, shiftSpec_closed a c h.2]
  | .lam n ty bi body, c, h => by
    simp only [Expr.closedAt, Bool.and_eq_true] at h
    simp [Expr.shiftSpec, shiftSpec_closed ty c h.1, shiftSpec_closed body (c + 1) h.2]
  | .pi n ty bi body, c, h => by
    simp only [Expr.closedAt, Bool.and_eq_true] at h
    simp [Expr.shiftSpec, shiftSpec_closed ty c h.1, shiftSpec_closed body (c + 1) h.2]
  | .letE n ty bi v body, c, h => by
    simp only [Expr.closedAt, Bool.and_eq_true] at h
    simp [Expr.shiftSpec, shiftSpec_closed ty c h.1.1, shiftSpec_closed v c h.1.2,
      shiftSpec_closed body (c + 1) h.2]

/-- C9: the η-expansion step.  (1) For lambda `t` against non-lambda,
locally-closed `s` whose type whnfs to a `Pi`, `try_eta_expansion_core`
compares `t` with `Lam (dom) (App (shift s) (Var 0))` — the spec's expansion,
the shift being the identity on the locally-closed `s` — and answers true
exactly when that comparison is not `Neq`.  (2) `try_eta_expansion` answers
true when the `(t, s)` direction does.  (3) In `is_def_eq_core`, when the
quick check is undecided, both sides are `whnf_core`-normal, proof
irrelevance fails, lazy δ is unknown and the application check fails, the
verdict is exactly the η check's.  (4) `is_def_eq` defers to
`is_def_eq_core` on structurally distinct sides. -/
theorem c9_eta_expansion (env : Env) (f : Nat) :
    (∀ t s n ty bi bd sT r st st1 st2 st3,
      t.isLambda = true → s.isLambda = false → s.closedAt 0 = true →
      inferType env f s st = .ok (sT, st1) →
      whnf env f sT st1 = .ok (Expr.pi n ty bi bd, st2) →
      isDefEq env f t (mkLambda ⟨n, ty, bi⟩ (mkApp (s.shiftSpec 0) (mkVar 0))) st2
        = .ok (r, st3) →
      tryEtaExpansionCore env (f + 1) t s st
        = .ok (!decide (r = ShortCircuit.neqShort), st3)) ∧
    (∀ t s st st1, tryEtaExpansionCore env f t s st = .ok (true, st1) →
      tryEtaExpansion env (f + 1) t s st = .ok (true, st1)) ∧
    (∀ t s b st st1 st2 st3 st4,
      t.isLambda = true →
      quickIsDefEq env f t s st = .ok (none, st) →
      whnfCore env f t .cheapFalse st = .ok (t, st) →
      whnfCore env f s .cheapFalse st = .ok (s, st) →
      isDefEqProofIrrel env f t s st = .ok (false, st1) →
      lazyDeltaReduction env f t s st1 = .ok (.inr (t, s), st2) →
      isDefEqApp env f t s st2 = .ok (false, st3) →
      tryEtaExpansion env f t s st3 = .ok (b, st4) →
      isDefEqCore env (f + 1) t s st
        = .ok (if b then ShortCircuit.eqShort else ShortCircuit.neqShort, st4)) ∧
    (∀ t s st, t ≠ s → isDefEq env (f + 1) t s st = isDefEqCore env f t s st) := by
  refine ⟨?_, ?_, ?_, ?_⟩
  · intro t s n ty bi bd sT r st st1 st2 st3 hlam hnlam hcl hinf hw hcmp
    have hinf' : (tcFns env f).inferType s st = .ok (sT, st1) := hinf
    have hw' : (tcFns env f).whnf sT st1 = .ok (Expr.pi n ty bi bd, st2) := hw
    rw [shiftSpec_closed s 0 hcl] at hcmp
    have hcmp' : (tcFns env f).isDefEq t
        (mkLambda ⟨n, ty, bi⟩ (mkApp s (mkVar 0))) st2 = .ok (r, st3) := hcmp
    show (tcFns env (f + 1)).tryEtaExpansionCore t s st = _
    rw [tcFns]
    show tryEtaExpansionCoreF (tcFns env f) t s st = _
    rw [tryEtaExpansionCoreF, if_pos ⟨hlam, by simp [hnlam]⟩]
    simp only [hinf', exceptBind_ok, hw', hcmp']
    cases r <;> rfl
  · intro t s st st1 h1
    have h1' : (tcFns env f).tryEtaExpansionCore t s st = .ok (true, st1) := h1
    show (tcFns env (f + 1)).tryEtaExpansion t s st = _
    rw [tcFns]
    show tryEtaExpansionF (tcFns env f) t s st = _
    rw [tryEtaExpansionF, h1']
    simp only [exceptBind_ok]
    rfl
  · intro t s b st st1 st2 st3 st4 hlam hq hwt hws hpir hld happ heta
    obtain ⟨n0, ty0, bi0, bd0, rfl⟩ : ∃ n0 ty0 bi0 bd0, t = Expr.lam n0 ty0 bi0 bd0 := by
      cases t <;> first
        | exact ⟨_, _, _, _, rfl⟩
        | simp [Expr.isLambda] at hlam
    set t := Expr.lam n0 ty0 bi0 bd0 with hts
    have hq' : (tcFns env f).quickIsDefEq t s st = .ok (none, st) := hq
    have hwt' : (tcFns env f).whnfCore t .cheapFalse st = .ok (t, st) := hwt
    have hws' : (tcFns env f).whnfCore s .cheapFalse st = .ok (s, st) := hws
    have hpir' : (tcFns env f).isDefEqProofIrrel t s st = .ok (false, st1) := hpir
    have hld' : (tcFns env f).lazyDeltaReduction t s st1
        = .ok (.inr (t, s), st2) := hld
    have happ' : (tcFns env f).isDefEqApp t s st2 = .ok (false, st3) := happ
    have heta' : (tcFns env f).tryEtaExpansion t s st3 = .ok (b, st4) := heta
    show (tcFns env (f + 1)).isDefEqCore t s st = _
    rw [tcFns]
    show isDefEqCoreF (tcFns env f) t s st = _
    rw [isDefEqCoreF, hq']
    simp only [exceptBind_ok]
    rw [hwt']
    simp only [exceptBind_ok]
    rw [hws']
    simp only [exceptBind_ok, ne_eq, not_true_eq_false, false_or, or_self, if_false,
      if_neg (by simp : ¬ (¬ t = t ∨ ¬ s = s))]
    simp only [exceptBind_pure]
    rw [hpir']
    simp only [exceptBind_ok, Bool.false_eq_true, if_false]
    rw [hld']
    simp only [exceptBind_ok, hts]
    simp only [happ', exceptBind_ok, Bool.false_eq_true, if_false, heta']
    cases b <;> rfl
  · intro t s st hne
    show (tcFns env (f + 1)).isDefEq t s st = _
    rw [tcFns]
    show isDefEqF (tcFns env f) t s st = _
    rw [isDefEqF, if_neg hne]
    rfl

/-- C9 witness: over an environment with axioms `A : Sort 1` and
`c : A → A`, the lambda `fun (x : A) => c x` against the bare constant `c`:
the η-expansion of `c` is compared and found equal, and `is_def_eq_core`
answers `EqShort` through the η arm. -/
theorem c9_witness :
    tryEtaExpansionCore
        ⟨[(.str .anon "A", .axiomInfo ⟨⟨.str .anon "A", [], mkSort (mkSucc mkZero)⟩, false⟩),
          (.str .anon "c", .axiomInfo ⟨⟨.str .anon "c", [],
            mkPi ⟨.anon, mkConst (.str .anon "A") [], .default⟩
              (mkConst (.str .anon "A") [])⟩, false⟩)], false⟩ 5
        (mkLambda ⟨.anon, mkConst (.str .anon "A") [], .default⟩
          (mkApp (mkConst (.str .anon "c") []) (mkVar 0)))
        (mkConst (.str .anon "c") []) ⟨0, none⟩
      = .ok (true, ⟨0, none⟩) ∧
    tryEtaExpansion
        ⟨[(.str .anon "A", .axiomInfo ⟨⟨.str .anon "A", [], mkSort (mkSucc mkZero)⟩, false⟩),
          (.str .anon "c", .axiomInfo ⟨⟨.str .anon "c", [],
            mkPi ⟨.anon, mkConst (.str .anon "A") [], .default⟩
              (mkConst (.str .anon "A") [])⟩, false⟩)], false⟩ 6
        (mkLambda ⟨.anon, mkConst (.str .anon "A") [], .default⟩
          (mkApp (mkConst (.str .anon "c") []) (mkVar 0)))
        (mkConst (.str .anon "c") []) ⟨0, none⟩
      = .ok (true, ⟨0, none⟩) ∧
    isDefEqCore
        ⟨[(.str .anon "A", .axiomInfo ⟨⟨.str .anon "A", [], mkSort (mkSucc mkZero)⟩, false⟩),
          (.str .anon "c", .axiomInfo ⟨⟨.str .anon "c", [],
            mkPi ⟨.anon, mkConst (.str .anon "A") [], .default⟩
              (mkConst (.str .anon "A") [])⟩, false⟩)], false⟩ 11
        (mkLambda ⟨.anon, mkConst (.str .anon "A") [], .default⟩
          (mkApp (mkConst (.str .anon "c") []) (mkVar 0)))
        (mkConst (.str .anon "c") []) ⟨0, none⟩
      = .ok (.eqShort, ⟨2, none⟩) :=
  ⟨(c9_eta_expansion
      ⟨[(.str .anon "A", .axiomInfo ⟨⟨.str .anon "A", [], mkSort (mkSucc mkZero)⟩, false⟩),
        (.str .anon "c", .axiomInfo ⟨⟨.str .anon "c", [],
          mkPi ⟨.anon, mkConst (.str .anon "A") [], .default⟩
            (mkConst (.str .anon "A") [])⟩, false⟩)], false⟩ 4).1
      (mkLambda ⟨.anon, mkConst (.str .anon "A") [], .default⟩
        (mkApp (mkConst (.str .anon "c") []) (mkVar 0)))
      (mkConst (.str .anon "c") []) .anon (mkConst (.str .anon "A") []) .default
      (mkConst (.str .anon "A") [])
      (mkPi ⟨.anon, mkConst (.str .anon "A") [], .default⟩ (mkConst (.str .anon "A") []))
      .eqShort ⟨0, none⟩ ⟨0, none⟩ ⟨0, none⟩ ⟨0, none⟩ rfl rfl rfl rfl rfl rfl,
   (c9_eta_expansion
      ⟨[(.str .anon "A", .axiomInfo ⟨⟨.str .anon "A", [], mkSort (mkSucc mkZero)⟩, false⟩),
        (.str .anon "c", .axiomInfo ⟨⟨.str .anon "c", [],
          mkPi ⟨.anon, mkConst (.str .anon "A") [], .default⟩
            (mkConst (.str .anon "A") [])⟩, false⟩)], false⟩ 5).2.1
      (mkLambda ⟨.anon, mkConst (.str .anon "A") [], .default⟩
        (mkApp (mkConst (.str .anon "c") []) (mkVar 0)))
      (mkConst (.str .anon "c") []) ⟨0, none⟩ ⟨0, none⟩ rfl,
   (c9_eta_expansion
      ⟨[(.str .anon "A", .axiomInfo ⟨⟨.str .anon "A", [], mkSort (mkSucc mkZero)⟩, false⟩),
        (.str .anon "c", .axiomInfo ⟨⟨.str .anon "c", [],
          mkPi ⟨.anon, mkConst (.str .anon "A") [], .default⟩
            (mkConst (.str .anon "A") [])⟩, false⟩)], false⟩ 10).2.2.1
      (mkLambda ⟨.anon, mkConst (.str .anon "A") [], .default⟩
        (mkApp (mkConst (.str .anon "c") []) (mkVar 0)))
      (mkConst (.str .anon "c") []) true ⟨0, none⟩ ⟨2, none⟩ ⟨2, none⟩ ⟨2, none⟩ ⟨2, none⟩
      rfl rfl rfl rfl rfl rfl rfl rfl⟩

/-- C1 (amended): proof irrelevance applies to proofs, not to propositions.
(1) `is_proof e` infers the type of the TYPE of `e` and asks whether it whnfs
to `Sort 0`.  (2) When both sides are proofs in this sense,
`is_def_eq_proof_irrel` answers true.  (3) In `is_def_eq_core`, with the
quick check undecided and both sides `whnf_core`-normal, a positive proof
irrelevance check short-circuits to `EqShort`. -/
theorem c1_proof_irrelevance (env : Env) (f : Nat) :
    (∀ e ty tyty w st st1 st2 st3,
      inferType env (f + 2) e st = .ok (ty, st1) →
      inferType env (f + 1) ty st1 = .ok (tyty, st2) →
      whnf env f tyty st2 = .ok (w, st3) →
      isProof env (f + 3) e st
        = .ok ((match w with | .sort l => l.isZero | _ => false), st3)) ∧
    (∀ e1 e2 st st1 st2,
      isProof env f e1 st = .ok (true, st1) →
      isProof env f e2 st1 = .ok (true, st2) →
      isDefEqProofIrrel env (f + 1) e1 e2 st = .ok (true, st2)) ∧
    (∀ e1 e2 st st1,
      quickIsDefEq env f e1 e2 st = .ok (none, st) →
      whnfCore env f e1 .cheapFalse st = .ok (e1, st) →
      whnfCore env f e2 .cheapFalse st = .ok (e2, st) →
      isDefEqProofIrrel env f e1 e2 st = .ok (true, st1) →
      isDefEqCore env (f + 1) e1 e2 st = .ok (.eqShort, st1)) := by
  refine ⟨?_, ?_, ?_⟩
  · intro e ty tyty w st st1 st2 st3 h1 h2 h3
    have h1' : (tcFns env (f + 2)).inferType e st = .ok (ty, st1) := h1
    have h2' : (tcFns env (f + 1)).inferType ty st1 = .ok (tyty, st2) := h2
    have h3' : (tcFns env f).whnf tyty st2 = .ok (w, st3) := h3
    show (tcFns env (f + 3)).isProof e st = _
    rw [tcFns]
    show isProofF (tcFns env (f + 2)) e st = _
    rw [isProofF, h1']
    simp only [exceptBind_ok]
    show (tcFns env (f + 2)).isProposition ty st1 = _
    rw [tcFns]
    show isPropositionF (tcFns env (f + 1)) ty st1 = _
    rw [isPropositionF, h2']
    simp only [exceptBind_ok]
    show (tcFns env (f + 1)).isProp tyty st2 = _
    rw [tcFns]
    show isPropF (tcFns env f) tyty st2 = _
    rw [isPropF, h3']
    simp only [exceptBind_ok]
    cases w <;> rfl
  · intro e1 e2 st st1 st2 h1 h2
    have h1' : (tcFns env f).isProof e1 st = .ok (true, st1) := h1
    have h2' : (tcFns env f).isProof e2 st1 = .ok (true, st2) := h2
    show (tcFns env (f + 1)).isDefEqProofIrrel e1 e2 st = _
    rw [tcFns]
    show isDefEqProofIrrelF (tcFns env f) e1 e2 st = _
    rw [isDefEqProofIrrelF, h1']
    simp only [exceptBind_ok, if_true]
    exact h2'
  · intro e1 e2 st st1 hq hw1 hw2 hpir
    have hq' : (tcFns env f).quickIsDefEq e1 e2 st = .ok (none, st) := hq
    have hw1' : (tcFns env f).whnfCore e1 .cheapFalse st = .ok (e1, st) := hw1
    have hw2' : (tcFns env f).whnfCore e2 .cheapFalse st = .ok (e2, st) := hw2
    have hpir' : (tcFns env f).isDefEqProofIrrel e1 e2 st = .ok (true, st1) := hpir
    show (tcFns env (f + 1)).isDefEqCore e1 e2 st = _
    rw [tcFns]
    show isDefEqCoreF (tcFns env f) e1 e2 st = _
    rw [isDefEqCoreF, hq']
    simp only [exceptBind_ok]
    rw [hw1']
    simp only [exceptBind_ok]
    rw [hw2']
    simp only [exceptBind_ok, ne_eq, not_true_eq_false, false_or, or_self, if_false,
      if_neg (by simp : ¬ (¬ e1 = e1 ∨ ¬ e2 = e2))]
    simp only [exceptBind_pure]
    rw [hpir']
    simp only [exceptBind_ok]
    rfl

/-- C1 witness: with axioms `P : Sort 0` and `h1 h2 : P`, both constants are
proofs and the core check equates them by proof irrelevance. -/
theorem c1_witness :
    isProof
        ⟨[(.str .anon "P", .axiomInfo ⟨⟨.str .anon "P", [], mkSort mkZero⟩, false⟩),
          (.str .anon "h1", .axiomInfo ⟨⟨.str .anon "h1", [], mkConst (.str .anon "P") []⟩, false⟩),
          (.str .anon "h2", .axiomInfo ⟨⟨.str .anon "h2", [], mkConst (.str .anon "P") []⟩, false⟩)],
          false⟩ 5 (mkConst (.str .anon "h1") []) ⟨0, none⟩ = .ok (true, ⟨0, none⟩) ∧
    isDefEqProofIrrel
        ⟨[(.str .anon "P", .axiomInfo ⟨⟨.str .anon "P", [], mkSort mkZero⟩, false⟩),
          (.str .anon "h1", .axiomInfo ⟨⟨.str .anon "h1", [], mkConst (.str .anon "P") []⟩, false⟩),
          (.str .anon "h2", .axiomInfo ⟨⟨.str .anon "h2", [], mkConst (.str .anon "P") []⟩, false⟩)],
          false⟩ 6 (mkConst (.str .anon "h1") []) (mkConst (.str .anon "h2") []) ⟨0, none⟩
      = .ok (true, ⟨0, none⟩) ∧
    isDefEqCore
        ⟨[(.str .anon "P", .axiomInfo ⟨⟨.str .anon "P", [], mkSort mkZero⟩, false⟩),
          (.str .anon "h1", .axiomInfo ⟨⟨.str .anon "h1", [], mkConst (.str .anon "P") []⟩, false⟩),
          (.str .anon "h2", .axiomInfo ⟨⟨.str .anon "h2", [], mkConst (.str .anon "P") []⟩, false⟩)],
          false⟩ 7 (mkConst (.str .anon "h1") []) (mkConst (.str .anon "h2") []) ⟨0, none⟩
      = .ok (.eqShort, ⟨0, none⟩) :=
  ⟨(c1_proof_irrelevance
      ⟨[(.str .anon "P", .axiomInfo ⟨⟨.str .anon "P", [], mkSort mkZero⟩, false⟩),
        (.str .anon "h1", .axiomInfo ⟨⟨.str .anon "h1", [], mkConst (.str .anon "P") []⟩, false⟩),
        (.str .anon "h2", .axiomInfo ⟨⟨.str .anon "h2", [], mkConst (.str .anon "P") []⟩, false⟩)],
        false⟩ 2).1 (mkConst (.str .anon "h1") []) (mkConst (.str .anon "P") [])
      (mkSort mkZero) (mkSort mkZero) ⟨0, none⟩ ⟨0, none⟩ ⟨0, none⟩ ⟨0, none⟩ rfl rfl rfl,
   (c1_proof_irrelevance
      ⟨[(.str .anon "P", .axiomInfo ⟨⟨.str .anon "P", [], mkSort mkZero⟩, false⟩),
        (.str .anon "h1", .axiomInfo ⟨⟨.str .anon "h1", [], mkConst (.str .anon "P") []⟩, false⟩),
        (.str .anon "h2", .axiomInfo ⟨⟨.str .anon "h2", [], mkConst (.str .anon "P") []⟩, false⟩)],
        false⟩ 5).2.1 (mkConst (.str .anon "h1") []) (mkConst (.str .anon "h2") [])
      ⟨0, none⟩ ⟨0, none⟩ ⟨0, none⟩ rfl rfl,
   (c1_proof_irrelevance
      ⟨[(.str .anon "P", .axiomInfo ⟨⟨.str .anon "P", [], mkSort mkZero⟩, false⟩),
        (.str .anon "h1", .axiomInfo ⟨⟨.str .anon "h1", [], mkConst (.str .anon "P") []⟩, false⟩),
        (.str .anon "h2", .axiomInfo ⟨⟨.str .anon "h2", [], mkConst (.str .anon "P") []⟩, false⟩)],
        false⟩ 6).2.2 (mkConst (.str .anon "h1") []) (mkConst (.str .anon "h2") [])
      ⟨0, none⟩ ⟨0, none⟩ rfl rfl rfl rfl⟩

/-- C1 counterexample: the axioms `A B : Sort 0` are two expressions whose
TYPES whnf to `Sort 0` — the claim's premise — yet `is_def_eq` answers
`NeqShort`: proof irrelevance in the code keys on the type of the type, not
on the type. -/
theorem c1_counterexample :
    inferType
        ⟨[(.str .anon "A", .axiomInfo ⟨⟨.str .anon "A", [], mkSort mkZero⟩, false⟩),
          (.str .anon "B", .axiomInfo ⟨⟨.str .anon "B", [], mkSort mkZero⟩, false⟩)], false⟩
        5 (mkConst (.str .anon "A") []) ⟨0, none⟩ = .ok (mkSort mkZero, ⟨0, none⟩) ∧
    inferType
        ⟨[(.str .anon "A", .axiomInfo ⟨⟨.str .anon "A", [], mkSort mkZero⟩, false⟩),
          (.str .anon "B", .axiomInfo ⟨⟨.str .anon "B", [], mkSort mkZero⟩, false⟩)], false⟩
        5 (mkConst (.str .anon "B") []) ⟨0, none⟩ = .ok (mkSort mkZero, ⟨0, none⟩) ∧
    whnf
        ⟨[(.str .anon "A", .axiomInfo ⟨⟨.str .anon "A", [], mkSort mkZero⟩, false⟩),
          (.str .anon "B", .axiomInfo ⟨⟨.str .anon "B", [], mkSort mkZero⟩, false⟩)], false⟩
        5 (mkSort mkZero) ⟨0, none⟩ = .ok (mkSort mkZero, ⟨0, none⟩) ∧
    isDefEq
        ⟨[(.str .anon "A", .axiomInfo ⟨⟨.str .anon "A", [], mkSort mkZero⟩, false⟩),
          (.str .anon "B", .axiomInfo ⟨⟨.str .anon "B", [], mkSort mkZero⟩, false⟩)], false⟩
        10 (mkConst (.str .anon "A") []) (mkConst (.str .anon "B") []) ⟨0, none⟩
      = .ok (.neqShort, ⟨0, none⟩) :=
  ⟨rfl, rfl, rfl, rfl⟩

theorem insertAList_self (l : List (Name × ConstantInfo)) (n : Name) (c : ConstantInfo) :
    (insertAList l n c).find? (fun pr => pr.1 = n) = some (n, c) := by
  induction l with
  | nil =>
    rw [insertAList]
    exact List.find?_cons_of_pos _ (by simp)
  | cons kv rest ih =>
    obtain ⟨k, v⟩ := kv
    rw [insertAList]
    by_cases h : k = n
    · rw [if_pos h]
      exact List.find?_cons_of_pos _ (by simp)
    · rw [if_neg h]
      rw [List.find?_cons_of_neg _ (by simp [h])]
      exact ih

theorem insertAList_other (l : List (Name × ConstantInfo)) (n : Name) (c : ConstantInfo)
    (m : Name) (h : m ≠ n) :
    (insertAList l n c).find? (fun pr => pr.1 = m) = l.find? (fun pr => pr.1 = m) := by
  induction l with
  | nil =>
    rw [insertAList]
    rw [List.find?_cons_of_neg _ (by simp [Ne.symm h])]
  | cons kv rest ih =>
    obtain ⟨k, v⟩ := kv
    rw [insertAList]
    by_cases hk : k = n
    · subst hk
      rw [if_pos rfl]
      rw [List.find?_cons_of_neg _ (by simp [Ne.symm h])]
      rw [List.find?_cons_of_neg _ (by simp [Ne.symm h])]
    · rw [if_neg hk]
      by_cases hm : k = m
      · subst hm
        rw [List.find?_cons_of_pos _ (by simp), List.find?_cons_of_pos _ (by simp)]
      · rw [List.find?_cons_of_neg _ (by simp [hm]), List.find?_cons_of_neg _ (by simp [hm])]
        exact ih

theorem getConstantInfo_add (env : Env) (n : Name) (c : ConstantInfo) :
    (env.addConstantInfo n c).getConstantInfo n = some c := by
  rw [Env.getConstantInfo, Env.addConstantInfo]
  rw [insertAList_self]
  rfl

theorem getConstantInfo_add_other (env : Env) (n : Name) (c : ConstantInfo)
    (m : Name) (h : m ≠ n) :
    (env.addConstantInfo n c).getConstantInfo m = env.getConstantInfo m := by
  rw [Env.getConstantInfo, Env.addConstantInfo]
  rw [insertAList_other _ _ _ _ h]
  rfl

/-- C4 (code bug): the environment never rejects a duplicate name.  The
spec's step-1 check exists in the source only as commented-out code
(`//tc.env.read().check_name(&c.name); // FIXME enable this` in
`check_constant_val_wtc`), and `add_constant_info` is a plain
`HashMap::insert`, so a second declaration under an existing name replaces
the first record: generically (first conjunct) and end to end through
`add_to_env` for two axioms named `X` (second conjunct). -/
theorem c4_redeclaration_overwrites :
    (∀ (env : Env) (n : Name) (c1 c2 : ConstantInfo),
      ((env.addConstantInfo n c1).addConstantInfo n c2).getConstantInfo n = some c2) ∧
    (addToEnvAxiom ⟨[], false⟩ 5 ⟨⟨.str .anon "X", [], mkSort mkZero⟩, false⟩ true ⟨0, none⟩
        = .ok (⟨[(.str .anon "X",
            .axiomInfo ⟨⟨.str .anon "X", [], mkSort mkZero⟩, false⟩)], false⟩, ⟨0, some []⟩) ∧
      addToEnvAxiom
          ⟨[(.str .anon "X", .axiomInfo ⟨⟨.str .anon "X", [], mkSort mkZero⟩, false⟩)], false⟩
          5 ⟨⟨.str .anon "X", [], mkSort (mkSucc mkZero)⟩, false⟩ true ⟨0, some []⟩
        = .ok (⟨[(.str .anon "X",
            .axiomInfo ⟨⟨.str .anon "X", [], mkSort (mkSucc mkZero)⟩, false⟩)], false⟩,
            ⟨0, some []⟩) ∧
      (Env.getConstantInfo
          ⟨[(.str .anon "X",
            .axiomInfo ⟨⟨.str .anon "X", [], mkSort (mkSucc mkZero)⟩, false⟩)], false⟩
          (.str .anon "X"))
        = some (.axiomInfo ⟨⟨.str .anon "X", [], mkSort (mkSucc mkZero)⟩, false⟩)) :=
  ⟨fun env n c1 c2 => getConstantInfo_add (env.addConstantInfo n c1) n c2,
   rfl, rfl, rfl⟩

theorem declareIndTypesGo_preserve (a : AddInd) (fl : Nat) :
    ∀ (ts : List InductiveType) (idx : Nat) (env env' : Env) (st st' : Tcs),
      declareIndTypesGo a fl ts idx env st = .ok (env', st') →
      ∀ n, env'.getConstantInfo n = env.getConstantInfo n ∨
        isInductiveInfoO (env'.getConstantInfo n) = true := by
  intro ts
  induction ts with
  | nil =>
    intro idx env env' st st' h n
    rw [declareIndTypesGo] at h
    cases h
    exact Or.inl rfl
  | cons it rest ih =>
    intro idx env env' st st' h n
    rw [declareIndTypesGo] at h
    cases hni : a.mNindices.get? idx with
    | none => rw [hni] at h; cases h
    | some nind =>
      rw [hni] at h
      cases hrf : a.isReflexive fl st with
      | error e => rw [hrf] at h; cases h
      | ok p =>
        rw [hrf] at h
        simp only [exceptBind_ok] at h
        have := ih (idx + 1) _ env' _ st' h n
        rcases this with heq | hind
        · rw [heq]
          by_cases hn : n = it.name
          · subst hn
            right
            rw [heq] at *
            rw [getConstantInfo_add]
            rfl
          · left
            exact getConstantInfo_add_other _ _ _ _ hn
        · exact Or.inr hind

theorem declareIndTypesGo_mem (a : AddInd) (fl : Nat) :
    ∀ (ts : List InductiveType) (idx : Nat) (env env' : Env) (st st' : Tcs),
      declareIndTypesGo a fl ts idx env st = .ok (env', st') →
      ∀ it, it ∈ ts → isInductiveInfoO (env'.getConstantInfo it.name) = true := by
  intro ts
  induction ts with
  | nil => intro idx env env' st st' h it hmem; cases hmem
  | cons hd rest ih =>
    intro idx env env' st st' h it hmem
    rw [declareIndTypesGo] at h
    cases hni : a.mNindices.get? idx with
    | none => rw [hni] at h; cases h
    | some nind =>
      rw [hni] at h
      cases hrf : a.isReflexive fl st with
      | error e => rw [hrf] at h; cases h
      | ok p =>
        rw [hrf] at h
        simp only [exceptBind_ok] at h
        cases hmem with
        | head =>
          rcases declareIndTypesGo_preserve a fl rest (idx + 1) _ env' _ st' h hd.name with
            heq | hind
          · rw [heq, getConstantInfo_add]
            rfl
          · exact hind
        | tail _ hmem2 => exact ih (idx + 1) _ env' _ st' h it hmem2

/-- C3 (amended): the pipeline order is name check, `check_inductive_types`,
`declare_inductive_types`, `check_constructors`, …; the family's
`InductiveInfo` records are inserted BEFORE the constructors are checked, and
a `check_constructors` failure aborts the pipeline with those records already
in the (shared, not rolled back) environment. -/
theorem c3_failed_inductive_leaves_records (a a1 a2 : AddInd) (envFuel fl : Nat)
    (st st1 st2 : Tcs) (e : String)
    (h0 : ensureNoDupeLparams a.mLparams = .ok ())
    (h1 : checkInductiveTypes a envFuel fl st = .ok (a1, st1))
    (h2 : declareInductiveTypes a1 fl st1 = .ok (a2, st2))
    (h3 : checkConstructors a2 envFuel fl st2 = .error e) :
    envOperator a envFuel fl st = (.error e, a2, st2) ∧
    ∀ it, it ∈ a1.mIndTypes → isInductiveInfoO (a2.env.getConstantInfo it.name) = true := by
  constructor
  · simp only [envOperator, h0, h1, h2, h3]
  · rw [declareInductiveTypes] at h2
    cases hgo : declareIndTypesGo a1 fl a1.mIndTypes 0 a1.env st1 with
    | error e2 => rw [hgo] at h2; cases h2
    | ok p =>
      rw [hgo] at h2
      simp only [exceptBind_ok] at h2
      cases h2
      intro it hmem
      exact declareIndTypesGo_mem a1 fl a1.mIndTypes 0 a1.env p.1 st1 p.2 hgo it hmem

/-- C3 witness: `Foo : Sort 1` with ill-formed constructor `Foo.mk : Sort 0`
fails `check_constructors` with `CnstrBadTypeErr`, and the error surfaces
from `env_operator` with `Foo`'s `InductiveInfo` already in the environment. -/
theorem c3_witness :
    envOperator (AddInd.ofDeclar ⟨.str .anon "Foo", [], 0,
        [⟨.str .anon "Foo", mkSort (mkSucc mkZero),
          [⟨.str (.str .anon "Foo") "mk", mkSort mkZero⟩]⟩], false⟩ ⟨[], false⟩) 6 6 ⟨0, none⟩
      = (.error "CnstrBadTypeErr",
         ⟨.str .anon "Foo", [], [], 0, false,
           [⟨.str .anon "Foo", mkSort (mkSucc mkZero),
             [⟨.str (.str .anon "Foo") "mk", mkSort mkZero⟩]⟩],
           ⟨[(.str .anon "Foo", .inductiveInfo
               ⟨⟨.str .anon "Foo", [], mkSort (mkSucc mkZero)⟩, 0, 0,
                 [.str .anon "Foo"], [.str (.str .anon "Foo") "mk"],
                 false, false, false⟩)], false⟩,
           [0], mkSucc mkZero, some true, [], [.const (.str .anon "Foo") []],
           mkZero, false, [], some true⟩, ⟨0, some []⟩) ∧
    isInductiveInfoO
        ((⟨[(.str .anon "Foo", .inductiveInfo
            ⟨⟨.str .anon "Foo", [], mkSort (mkSucc mkZero)⟩, 0, 0,
              [.str .anon "Foo"], [.str (.str .anon "Foo") "mk"],
              false, false, false⟩)], false⟩ : Env).getConstantInfo (.str .anon "Foo"))
      = true :=
  ⟨(c3_failed_inductive_leaves_records
      (AddInd.ofDeclar ⟨.str .anon "Foo", [], 0,
        [⟨.str .anon "Foo", mkSort (mkSucc mkZero),
          [⟨.str (.str .anon "Foo") "mk", mkSort mkZero⟩]⟩], false⟩ ⟨[], false⟩)
      ⟨.str .anon "Foo", [], [], 0, false,
        [⟨.str .anon "Foo", mkSort (mkSucc mkZero),
          [⟨.str (.str .anon "Foo") "mk", mkSort mkZero⟩]⟩],
        ⟨[], false⟩, [0], mkSucc mkZero, some true, [], [.const (.str .anon "Foo") []],
        mkZero, false, [], some true⟩
      ⟨.str .anon "Foo", [], [], 0, false,
        [⟨.str .anon "Foo", mkSort (mkSucc mkZero),
          [⟨.str (.str .anon "Foo") "mk", mkSort mkZero⟩]⟩],
        ⟨[(.str .anon "Foo", .inductiveInfo
            ⟨⟨.str .anon "Foo", [], mkSort (mkSucc mkZero)⟩, 0, 0,
              [.str .anon "Foo"], [.str (.str .anon "Foo") "mk"],
              false, false, false⟩)], false⟩,
        [0], mkSucc mkZero, some true, [], [.const (.str .anon "Foo") []],
        mkZero, false, [], some true⟩
      6 6 ⟨0, none⟩ ⟨0, some []⟩ ⟨0, some []⟩ "CnstrBadTypeErr" rfl rfl rfl rfl).1,
   (c3_failed_inductive_leaves_records
      (AddInd.ofDeclar ⟨.str .anon "Foo", [], 0,
        [⟨.str .anon "Foo", mkSort (mkSucc mkZero),
          [⟨.str (.str .anon "Foo") "mk", mkSort mkZero⟩]⟩], false⟩ ⟨[], false⟩)
      ⟨.str .anon "Foo", [], [], 0, false,
        [⟨.str .anon "Foo", mkSort (mkSucc mkZero),
          [⟨.str (.str .anon "Foo") "mk", mkSort mkZero⟩]⟩],
        ⟨[], false⟩, [0], mkSucc mkZero, some true, [], [.const (.str .anon "Foo") []],
        mkZero, false, [], some true⟩
      ⟨.str .anon "Foo", [], [], 0, false,
        [⟨.str .anon "Foo", mkSort (mkSucc mkZero),
          [⟨.str (.str .anon "Foo") "mk", mkSort mkZero⟩]⟩],
        ⟨[(.str .anon "Foo", .inductiveInfo
            ⟨⟨.str .anon "Foo", [], mkSort (mkSucc mkZero)⟩, 0, 0,
              [.str .anon "Foo"], [.str (.str .anon "Foo") "mk"],
              false, false, false⟩)], false⟩,
        [0], mkSucc mkZero, some true, [], [.const (.str .anon "Foo") []],
        mkZero, false, [], some true⟩
      6 6 ⟨0, none⟩ ⟨0, some []⟩ ⟨0, some []⟩ "CnstrBadTypeErr" rfl rfl rfl rfl).2
      ⟨.str .anon "Foo", mkSort (mkSucc mkZero),
        [⟨.str (.str .anon "Foo") "mk", mkSort mkZero⟩]⟩ (List.Mem.head _)⟩

/-- C3 counterexample to the spec's atomicity: the failing declaration of
`Foo` returns a fatal error, yet the environment afterwards DOES hold a
record for the family — the insertion in `declare_inductive_types` precedes
`check_constructors` and is never rolled back. -/
theorem c3_counterexample :
    (envOperator (AddInd.ofDeclar ⟨.str .anon "Foo", [], 0,
        [⟨.str .anon "Foo", mkSort (mkSucc mkZero),
          [⟨.str (.str .anon "Foo") "mk", mkSort mkZero⟩]⟩], false⟩ ⟨[], false⟩)
        6 6 ⟨0, none⟩).1 = .error "CnstrBadTypeErr" ∧
    isInductiveInfoO
        ((envOperator (AddInd.ofDeclar ⟨.str .anon "Foo", [], 0,
          [⟨.str .anon "Foo", mkSort (mkSucc mkZero),
            [⟨.str (.str .anon "Foo") "mk", mkSort mkZero⟩]⟩], false⟩ ⟨[], false⟩)
          6 6 ⟨0, none⟩).2.1.env.getConstantInfo (.str .anon "Foo")) = true :=
  ⟨rfl, rfl⟩

/-- C8 (amended): elimination-level selection.  On a definitely non-zero
family level the walk answers "unrestricted" (fresh parameter).  On a
possibly-zero level: a mutual block or a multi-constructor family is
restricted to `Sort 0`; a ZERO-constructor family is unrestricted (this is
where the spec's "iff one constructor" fails); a one-constructor family is
restricted exactly when some collected non-proof argument is missing from the
codomain's arguments.  `init_elim_level` then picks `Sort 0` or the fresh
parameter `u` (extended past clashing declared parameters). -/
theorem c8_elim_level_selection (a : AddInd) (envFuel fl : Nat) :
    (∀ st, a.mIsNotZero = some true →
      elimOnlyAtUniverseZero a envFuel fl st = .ok (false, st)) ∧
    (∀ st, a.mIsNotZero = some false → a.mIndTypes.length > 1 →
      elimOnlyAtUniverseZero a envFuel fl st = .ok (true, st)) ∧
    (∀ st ind0, a.mIsNotZero = some false → a.mIndTypes = [ind0] →
      ind0.constructors.length > 1 →
      elimOnlyAtUniverseZero a envFuel fl st = .ok (true, st)) ∧
    (∀ st ind0, a.mIsNotZero = some false → a.mIndTypes = [ind0] →
      ind0.constructors = [] →
      elimOnlyAtUniverseZero a envFuel fl st = .ok (false, st)) ∧
    (∀ st st1 ind0 cn resultType toCheck, a.mIsNotZero = some false →
      a.mIndTypes = [ind0] → ind0.constructors = [cn] →
      elimZeroLoop a envFuel fl cn.type_ 0 [] st = .ok ((resultType, toCheck), st1) →
      elimOnlyAtUniverseZero a envFuel fl st
        = .ok (!toCheck.all (fun arg => (resultType.unfoldAppsRev.2).contains arg), st1)) ∧
    (∀ st st1 b, elimOnlyAtUniverseZero a envFuel fl st = .ok (b, st1) →
      initElimLevel a envFuel fl st
        = .ok ({ a with mElimLevel :=
            if b then mkZero
            else mkParam (freshULoop a.mLparams (a.mLparams.length + 1)
              (Name.ofStr "u") 1) }, st1)) := by
  refine ⟨?_, ?_, ?_, ?_, ?_, ?_⟩
  · intro st hz
    rw [elimOnlyAtUniverseZero, hz]
    rfl
  · intro st hz hlen
    rw [elimOnlyAtUniverseZero, hz]
    simp [hlen]
    rfl
  · intro st ind0 hz hts hcn
    rw [elimOnlyAtUniverseZero, hz, hts]
    simp [hcn, Nat.lt_irrefl]
    rfl
  · intro st ind0 hz hts hcn
    rw [elimOnlyAtUniverseZero, hz, hts]
    simp [hcn]
    rfl
  · intro st st1 ind0 cn resultType toCheck hz hts hcn hloop
    rw [elimOnlyAtUniverseZero, hz, hts]
    cases hall : toCheck.all (fun arg => (resultType.unfoldAppsRev.2).contains arg) with
    | true =>
      simp [hcn, hloop, exceptBind_ok, hall]
      rw [if_pos (by simpa using hall)]
      rfl
    | false =>
      simp [hcn, hloop, exceptBind_ok, hall]
      rw [if_neg (by simpa using hall)]
      rfl
  · intro st st1 b h
    rw [initElimLevel, h]
    simp only [exceptBind_ok]
    cases b with
    | true => rfl
    | false => rfl

/-- C8 witness: a zero-constructor `Prop`-level family gets unrestricted
elimination (fresh level parameter `u`), and for a one-constructor family the
walk's verdict is the collected-arguments check. -/
theorem c8_witness :
    elimOnlyAtUniverseZero
        ⟨.str .anon "Fls", [], [], 0, false, [⟨.str .anon "Fls", mkSort mkZero, []⟩],
          ⟨[], false⟩, [0], mkZero, some false, [], [.const (.str .anon "Fls") []],
          mkZero, false, [], some false⟩ 3 3 ⟨0, none⟩ = .ok (false, ⟨0, none⟩) ∧
    initElimLevel
        ⟨.str .anon "Fls", [], [], 0, false, [⟨.str .anon "Fls", mkSort mkZero, []⟩],
          ⟨[], false⟩, [0], mkZero, some false, [], [.const (.str .anon "Fls") []],
          mkZero, false, [], some false⟩ 3 3 ⟨0, none⟩
      = .ok (⟨.str .anon "Fls", [], [], 0, false, [⟨.str .anon "Fls", mkSort mkZero, []⟩],
          ⟨[], false⟩, [0], mkZero, some false, [], [.const (.str .anon "Fls") []],
          mkParam (.str .anon "u"), false, [], some false⟩, ⟨0, none⟩) ∧
    elimOnlyAtUniverseZero
        ⟨.str .anon "P", [], [], 0, false,
          [⟨.str .anon "P", mkSort mkZero,
            [⟨.str (.str .anon "P") "mk", .const (.str .anon "P") []⟩]⟩],
          ⟨[], false⟩, [0], mkZero, some false, [], [.const (.str .anon "P") []],
          mkZero, false, [], some false⟩ 3 3 ⟨0, none⟩ = .ok (false, ⟨0, none⟩) :=
  ⟨(c8_elim_level_selection
      ⟨.str .anon "Fls", [], [], 0, false, [⟨.str .anon "Fls", mkSort mkZero, []⟩],
        ⟨[], false⟩, [0], mkZero, some false, [], [.const (.str .anon "Fls") []],
        mkZero, false, [], some false⟩ 3 3).2.2.2.1 ⟨0, none⟩
      ⟨.str .anon "Fls", mkSort mkZero, []⟩ rfl rfl rfl,
   (c8_elim_level_selection
      ⟨.str .anon "Fls", [], [], 0, false, [⟨.str .anon "Fls", mkSort mkZero, []⟩],
        ⟨[], false⟩, [0], mkZero, some false, [], [.const (.str .anon "Fls") []],
        mkZero, false, [], some false⟩ 3 3).2.2.2.2.2 ⟨0, none⟩ ⟨0, none⟩ false rfl,
   (c8_elim_level_selection
      ⟨.str .anon "P", [], [], 0, false,
        [⟨.str .anon "P", mkSort mkZero,
          [⟨.str (.str .anon "P") "mk", .const (.str .anon "P") []⟩]⟩],
        ⟨[], false⟩, [0], mkZero, some false, [], [.const (.str .anon "P") []],
        mkZero, false, [], some false⟩ 3 3).2.2.2.2.1 ⟨0, none⟩ ⟨0, none⟩
      ⟨.str .anon "P", mkSort mkZero,
        [⟨.str (.str .anon "P") "mk", .const (.str .anon "P") []⟩]⟩
      ⟨.str (.str .anon "P") "mk", .const (.str .anon "P") []⟩
      (.const (.str .anon "P") []) [] rfl rfl rfl rfl⟩

/-- C8 counterexample to "unrestricted iff one constructor": the
zero-constructor `Prop`-level family `Fls` goes through the whole pipeline
successfully and receives the fresh elimination level `u`, not `Sort 0`. -/
theorem c8_counterexample :
    (envOperator (AddInd.ofDeclar ⟨.str .anon "Fls", [], 0,
        [⟨.str .anon "Fls", mkSort mkZero, []⟩], false⟩ ⟨[], false⟩) 8 8 ⟨0, none⟩).1
      = .ok () ∧
    (envOperator (AddInd.ofDeclar ⟨.str .anon "Fls", [], 0,
        [⟨.str .anon "Fls", mkSort mkZero, []⟩], false⟩ ⟨[], false⟩) 8 8 ⟨0, none⟩).2.1.mElimLevel
      = mkParam (.str .anon "u") ∧
    ((envOperator (AddInd.ofDeclar ⟨.str .anon "Fls", [], 0,
        [⟨.str .anon "Fls", mkSort mkZero, []⟩], false⟩ ⟨[], false⟩) 8 8 ⟨0, none⟩).2.1.mElimLevel).isZero
      = false :=
  ⟨rfl, rfl, rfl⟩

end Nanoda
